import Mathlib

/-!
A shallow embedding of gotris: the board, the controller and the control algebra.

Go values are embedded as follows.

* `int` is `Int`; every Go addition, increment and decrement is followed by `wrapInt`,
  the 64-bit two's-complement wrap-around.
* A slice is a `List`; indexing outside `0 ≤ i < len` is a run-time fault.
* Code that can fault or loop returns a `Res`: `ok v`, `crash` (a Go run-time fault such as
  index out of range or a negative `make` length) or `timeout` (loop budget exhausted).
* Methods on pointer receivers pass the receiver state explicitly.
* The read/write mutexes are not modelled: everything here is one sequential thread.
-/

namespace Gotris

/-! ## Results of running Go code -/

/-- Result of running a piece of Go code. -/
inductive Res (α : Type) where
  | ok (a : α) : Res α
  | crash : Res α
  | timeout : Res α
deriving DecidableEq, Repr

/-- Sequencing: a fault or an exhausted budget aborts what follows. -/
def Res.bind {α β : Type} (x : Res α) (f : α → Res β) : Res β :=
  match x with
  | Res.ok a => f a
  | Res.crash => Res.crash
  | Res.timeout => Res.timeout

/-! ## location.go -/

/-- Go `int` arithmetic on a 64-bit platform: wrap into `[-2^63, 2^63)`. -/
def wrapInt (z : Int) : Int :=
  (z + 9223372036854775808) % 18446744073709551616 - 9223372036854775808

/-- The values of a Go `int`. -/
def InRange (z : Int) : Prop := -9223372036854775808 ≤ z ∧ z < 9223372036854775808

instance (z : Int) : Decidable (InRange z) := by unfold InRange; infer_instance

/-- Location represents a position in the board grid. -/
structure Location where
  X : Int
  Y : Int
deriving DecidableEq, Repr

/-- Direction represents a function that moves a Location. -/
abbrev Direction := Location → Location

/-- Left moves the location left: the Go body decrements `l.X`. -/
def Left : Direction := fun l => { l with X := wrapInt (l.X - 1) }

/-- Right moves the location right: the Go body increments `l.X`. -/
def Right : Direction := fun l => { l with X := wrapInt (l.X + 1) }

/-- Down moves the location down: the Go body increments `l.Y`. -/
def Down : Direction := fun l => { l with Y := wrapInt (l.Y + 1) }

/-- Up moves the location up: the Go body decrements `l.Y`. -/
def Up : Direction := fun l => { l with Y := wrapInt (l.Y - 1) }

/-! ## grid.go -/

/-- State represents the content of a cell (`type State int`). -/
abbrev State := Int

/-- Empty indicates an unoccupied cell (`Empty State = iota`, the first constant). -/
def Empty : State := 0

def Red : State := 1
def Orange : State := 2
def Yellow : State := 3
def Green : State := 4
def Cyan : State := 5
def Blue : State := 6
def Purple : State := 7
def Gray : State := 8

/-- Grid is a 2D matrix of cell states (`type Grid [][]State`). -/
abbrev Grid := List (List State)

/-- Slice read `xs[i]`: faults outside `0 ≤ i < len(xs)`. -/
def index {α : Type} (xs : List α) (i : Int) : Res α :=
  if i < 0 then Res.crash
  else match xs[i.toNat]? with
    | some x => Res.ok x
    | none => Res.crash

/-- Slice write `xs[i] = x`: faults outside `0 ≤ i < len(xs)`. -/
def setIndex {α : Type} (xs : List α) (i : Int) (x : α) : Res (List α) :=
  if i < 0 then Res.crash
  else if i.toNat < xs.length then Res.ok (xs.set i.toNat x)
  else Res.crash

/-- Go `make([]T, n)`: a slice of `n` zero values; faults when `n < 0`. Memory is unbounded
here: a length that the Go runtime refuses as too large for one allocation (`makeslice: len
out of range`, a limit that depends on the platform) is granted, so a result about a grid that
`NewGrid` returns holds in Go for the sizes that can be allocated. -/
def makeSlice {α : Type} (n : Int) (zero : α) : Res (List α) :=
  if n < 0 then Res.crash else Res.ok (List.replicate n.toNat zero)

/-- The loop `for i := range result { result[i] = make([]State, cols) }` of `NewGrid`. -/
def newRows (cols : Int) : List (List State) → Res Grid
  | [] => Res.ok []
  | _ :: rest =>
    (makeSlice cols Empty).bind fun r =>
    (newRows cols rest).bind fun rs => Res.ok (r :: rs)

/-- NewGrid creates a new grid with the specified dimensions, initialized with Empty cells. -/
def NewGrid (rows cols : Int) : Res Grid :=
  (makeSlice rows ([] : List State)).bind fun result => newRows cols result

/-- Inner loop of `Walk`: `for col := range g[row] { fn(row, col, g[row][col]) }`. -/
def walkRow {σ : Type} (fn : Int → Int → State → σ → Res σ) (row : Nat) :
    Nat → List State → σ → Res σ
  | _, [], s => Res.ok s
  | col, x :: xs, s => (fn row col x s).bind (walkRow fn row (col + 1) xs)

/-- Outer loop of `Walk`: `for row := range g`. -/
def walkRows {σ : Type} (fn : Int → Int → State → σ → Res σ) :
    Nat → Grid → σ → Res σ
  | _, [], s => Res.ok s
  | row, r :: rs, s => (walkRow fn row 0 r s).bind (walkRows fn (row + 1) rs)

/-- Walk iterates over the grid, calling fn(row, col, state) for each cell. The variables the
Go closure captures are the state `σ` threaded through the calls. -/
def Grid.Walk {σ : Type} (g : Grid) (fn : Int → Int → State → σ → Res σ) (s : σ) : Res σ :=
  walkRows fn 0 g s

/-- The assignment `g[row][col] = state`: faults when either index is out of range. -/
def Grid.setAt (g : Grid) (row col : Int) (state : State) : Res Grid :=
  (index g row).bind fun r =>
  (setIndex r col state).bind fun r2 => setIndex g row r2

/-- Size returns the number of rows and columns in the grid. -/
def Grid.Size (g : Grid) : Int × Int :=
  match g with
  | [] => (0, 0)
  | r0 :: _ => ((g.length : Int), (r0.length : Int))

/-- Zero returns a new grid with the same dimensions but all cells set to Empty. -/
def Grid.Zero (g : Grid) : Res Grid :=
  match g with
  | [] => Res.ok []
  | r0 :: _ => NewGrid (g.length : Int) (r0.length : Int)

/-- Clone creates a deep copy of the grid. -/
def Grid.Clone (g : Grid) : Res Grid :=
  (Grid.Zero g).bind fun result =>
  Grid.Walk g (fun row col state result => Grid.setAt result row col state) result

/-- Union merges two grids into a new grid sized to contain both entirely. The other grid is
placed at the specified offset location. -/
def Grid.Union (g other : Grid) (off : Location) : Res Grid :=
  match g with
  | [] => Grid.Clone other
  | g0 :: _ =>
    match other with
    | [] => Grid.Clone g
    | o0 :: _ =>
      let rows := max (g.length : Int) (wrapInt ((other.length : Int) + off.Y))
      let cols := max (g0.length : Int) (wrapInt ((o0.length : Int) + off.X))
      (NewGrid rows cols).bind fun zero =>
      (Grid.Walk g (fun row col state result =>
        if state ≠ Empty then Grid.setAt result row col state else Res.ok result) zero).bind
      fun merged =>
      Grid.Walk other (fun row col state result =>
        if state ≠ Empty then
          Grid.setAt result (wrapInt (row + off.Y)) (wrapInt (col + off.X)) state
        else Res.ok result) merged

/-- Rotation transforms a Grid and returns a new Grid (`type Rotation func(g Grid) Grid`). -/
abbrev Rotation := Grid → Res Grid

/-- RotateRight rotates the grid 90 degrees clockwise and returns a new grid. -/
def RotateRight : Rotation := fun g =>
  match g with
  | [] => Res.ok []
  | _ :: _ =>
    let rows := (Grid.Size g).1
    let cols := (Grid.Size g).2
    (NewGrid cols rows).bind fun result =>
    Grid.Walk g (fun row col state result =>
      Grid.setAt result col (wrapInt (wrapInt (rows - 1) - row)) state) result

/-- RotateLeft rotates the grid 90 degrees counter-clockwise and returns a new grid. -/
def RotateLeft : Rotation := fun g =>
  match g with
  | [] => Res.ok []
  | _ :: _ =>
    let rows := (Grid.Size g).1
    let cols := (Grid.Size g).2
    (NewGrid cols rows).bind fun result =>
    Grid.Walk g (fun row col state result =>
      Grid.setAt result (wrapInt (wrapInt (cols - 1) - col)) row state) result

/-! ## board.go -/

/-- The `board` struct (its mutex left out). -/
structure board where
  rows : Int
  cols : Int
  grid : Grid
deriving DecidableEq, Repr

/-- NewBoard creates a new Board (grid) with the specified number of rows and columns. -/
def NewBoard (rows cols : Int) : Res board :=
  (NewGrid rows cols).bind fun g => Res.ok { rows := rows, cols := cols, grid := g }

/-- Empty reports whether the given location contains an Empty cell:
`b.grid[l.Y][l.X] == Empty`, with no bounds check. -/
def board.Empty (b : board) (l : Location) : Res Bool :=
  (index b.grid l.Y).bind fun r =>
  (index r l.X).bind fun s => Res.ok (decide (s = Gotris.Empty))

/-- Contains reports whether the location is within the bounds of the board:
`l.Y < b.rows && l.X < b.cols && l.X >= 0 && l.Y >= 0`. -/
def board.Contains (b : board) (l : Location) : Bool :=
  decide (l.Y < b.rows) && decide (l.X < b.cols) && decide (l.X ≥ 0) && decide (l.Y ≥ 0)

/-- The closure of `Test`, with Go's short-circuit evaluation of `&&` and `||`:
`ok = ok && (state == Empty || b.Contains(location) && b.Empty(location))`. -/
def board.testCell (b : board) (l : Location) (row col : Int) (state : State) (ok : Bool) :
    Res Bool :=
  let location : Location := { X := wrapInt (col + l.X), Y := wrapInt (row + l.Y) }
  if ok then
    if state = Gotris.Empty then Res.ok true
    else if b.Contains location then b.Empty location
    else Res.ok false
  else Res.ok false

/-- Test returns whether the shape can be placed at the location without collisions or bounds
errors. Returns the verdict and the receiver as the call leaves it. -/
def board.Test (b : board) (grid : Grid) (l : Location) : Res (Bool × board) :=
  (Grid.Walk grid (b.testCell l) true).bind fun ok => Res.ok (ok, b)

/-- Clear resets all cells in the board to Empty state. -/
def board.Clear (b : board) : Res board :=
  (NewGrid b.rows b.cols).bind fun g => Res.ok { b with grid := g }

/-- The assignment `b.grid[location.Y][location.X] = state`. -/
def board.setCell (b : board) (l : Location) (state : State) : Res board :=
  (Grid.setAt b.grid l.Y l.X state).bind fun g => Res.ok { b with grid := g }

/-- The closure of `Stack`:
`if state != Empty && b.Contains(location) && b.Empty(location) { b.grid[..][..] = state }`. -/
def board.stackCell (l : Location) (row col : Int) (state : State) (b : board) : Res board :=
  let location : Location := { X := wrapInt (col + l.X), Y := wrapInt (row + l.Y) }
  if state ≠ Gotris.Empty then
    if b.Contains location then
      (b.Empty location).bind fun e => if e then b.setCell location state else Res.ok b
    else Res.ok b
  else Res.ok b

/-- Stack merges non-empty cells of the shape into the board at the given location. -/
def board.Stack (b : board) (grid : Grid) (l : Location) : Res board :=
  Grid.Walk grid (board.stackCell l) b

/-- Go `copy(dst, src)`: overwrites the first `min(len(dst), len(src))` elements of `dst`. -/
def copySlice {α : Type} (dst src : List α) : List α :=
  src.take dst.length ++ dst.drop src.length

/-- The loop of `Compact`, `for i := b.rows - 1; i >= 0; i--`; the first argument is `i + 1`.
Returns the new grid and the count of removed rows. -/
def compactLoop (src : Grid) : Nat → Grid → Int → Int → Res (Grid × Int)
  | 0, grid, _, rows => Res.ok (grid, rows)
  | i + 1, grid, line, rows =>
    (index src (i : Int)).bind fun r =>
    if r.contains Empty then
      (index grid line).bind fun dst =>
      (setIndex grid line (copySlice dst r)).bind fun grid2 =>
      compactLoop src i grid2 (wrapInt (line - 1)) rows
    else compactLoop src i grid line (wrapInt (rows + 1))

/-- Compact removes complete rows and moves rows above downward; returns number of lines
cleared, together with the receiver after the call. -/
def board.Compact (b : board) : Res (Int × board) :=
  (NewGrid b.rows b.cols).bind fun grid =>
  (compactLoop b.grid b.rows.toNat grid (wrapInt (b.rows - 1)) 0).bind fun out =>
  Res.ok (out.2, { b with grid := out.1 })

/-! ## gameboard.go -/

/-- Piece represents a falling tetromino instance with a shape and a top-left location. -/
structure Piece where
  Grid : Grid
  Location : Location
deriving DecidableEq, Repr

/-- Control is an operation applied to a piece in the context of the underlying Board:
`func(board Board, p *Piece) (ok bool)`. It may change the piece and, through the `Board`
interface, the board, so both are passed through. -/
abbrev Control := board → Piece → Res (Bool × board × Piece)

/-- Move attempts to move the piece using the provided Direction and validates the new
location against the underlying Board using Test. -/
def Move (fn : Direction) : Control := fun board p =>
  let l := fn p.Location
  (board.Test p.Grid l).bind fun t =>
  if t.1 then Res.ok (true, t.2, { p with Location := l })
  else Res.ok (false, t.2, p)

/-- Rotate attempts to rotate the piece using the provided Rotation and validates the rotated
shape against the Board using Test. -/
def Rotate (fn : Rotation) : Control := fun board p =>
  (fn p.Grid).bind fun rotated =>
  (board.Test rotated p.Location).bind fun t =>
  if t.1 then Res.ok (true, t.2, { p with Grid := rotated })
  else Res.ok (false, t.2, p)

/-- The loop `for { if !Move(Down)(board, p) { return true } }`, run for at most `fuel`
iterations; `timeout` when the budget is used up before the loop returns. -/
def hardDropLoop : Nat → board → Piece → Res (Bool × board × Piece)
  | 0, _, _ => Res.timeout
  | fuel + 1, board, p =>
    (Move Down board p).bind fun m =>
    if m.1 then hardDropLoop fuel m.2.1 m.2.2
    else Res.ok (true, m.2.1, m.2.2)

/-- HardDrop moves the piece down until it collides by repeatedly applying Move(Down). -/
def HardDrop (fuel : Nat) : Control := fun board p => hardDropLoop fuel board p

/-- The `tetromino` struct (its mutex left out). -/
structure tetromino where
  grid : Grid
deriving DecidableEq, Repr

/-- The `gameBoard` struct (its mutex left out); `Board` is the embedded board. -/
structure gameBoard where
  Board : board
  rows : Int
  cols : Int
  upcoming : List tetromino
deriving DecidableEq, Repr

/-- NewGameBoard constructs a new GameBoard (controller) with the given dimensions. -/
def NewGameBoard (rows cols : Int) : Res gameBoard :=
  (NewBoard rows cols).bind fun bd =>
  Res.ok { Board := bd, rows := rows, cols := cols, upcoming := [] }

/-- Apply attempts one or more Controls on the provided piece; returns true only if all
succeed: `for _, f := range fn { if !f(b.Board, piece) { return false } }; return true`. -/
def gameBoard.Apply (b : gameBoard) (piece : Piece) :
    List Control → Res (Bool × gameBoard × Piece)
  | [] => Res.ok (true, b, piece)
  | f :: fs =>
    (f b.Board piece).bind fun r =>
    if r.1 then gameBoard.Apply { b with Board := r.2.1 } r.2.2 fs
    else Res.ok (false, { b with Board := r.2.1 }, r.2.2)

/-- The closure of `IsTopOut`:
`if state != Empty && b.Board.Contains(l) && !b.Board.Empty(l) { topOut = true }`. -/
def gameBoard.topOutCell (b : gameBoard) (piece : Piece) (row col : Int) (state : State)
    (topOut : Bool) : Res Bool :=
  let l : Location :=
    { X := wrapInt (piece.Location.X + col), Y := wrapInt (piece.Location.Y + row) }
  if state ≠ Gotris.Empty then
    if b.Board.Contains l then
      (b.Board.Empty l).bind fun e => if e then Res.ok topOut else Res.ok true
    else Res.ok topOut
  else Res.ok topOut

/-- IsTopOut returns true if the provided piece overlaps occupied cells when spawned. Returns
the verdict with the receiver and the caller's piece as the call leaves them. -/
def gameBoard.IsTopOut (b : gameBoard) (piece : Piece) : Res (Bool × gameBoard × Piece) :=
  (Grid.Clone piece.Grid).bind fun shape =>
  (Grid.Walk shape (b.topOutCell piece) false).bind fun topOut =>
  Res.ok (topOut, b, piece)

/-! ## Vocabulary of the specification -/

/-- The cell of a grid at row `row`, column `col`, when there is one. -/
def Grid.cell (g : Grid) (row col : Nat) : Option State :=
  (g[row]?).bind fun r => r[col]?

/-- The cell of a grid at a location given by Go `int` coordinates; `none` outside the grid. -/
def Grid.cellAt (g : Grid) (l : Location) : Option State :=
  if 0 ≤ l.X ∧ 0 ≤ l.Y then Grid.cell g l.Y.toNat l.X.toNat else none

/-- The board location `(col + loc.X, row + loc.Y)` of the overlay cell `(row, col)`, as the
Go expressions `col + l.X` and `row + l.Y` compute it. -/
def target (l : Location) (row col : Nat) : Location :=
  { X := wrapInt ((col : Int) + l.X), Y := wrapInt ((row : Int) + l.Y) }

/-- Invariant of a board built by `NewBoard`: the dimensions are Go `int`s and the stored grid
has `rows` rows of `cols` cells. -/
def board.WF (b : board) : Prop :=
  InRange b.rows ∧ InRange b.cols ∧
  (b.grid.length : Int) = b.rows ∧ ∀ r ∈ b.grid, (r.length : Int) = b.cols

instance (b : board) : Decidable b.WF := by unfold board.WF; infer_instance

/-- Every row of the grid has the length of the first one (the data model's grid invariant). -/
def Grid.Rect (g : Grid) : Prop := ∀ r ∈ g, r.length = (g.headD []).length

instance (g : Grid) : Decidable (Grid.Rect g) := by unfold Grid.Rect; infer_instance

/-- A row is full when it contains no Empty cell. -/
def fullRow (r : List State) : Bool := !(r.contains Empty)

/-- The cells of one row in the order `Walk` visits them, with their coordinates. -/
def rowCells (row : Nat) : Nat → List State → List (Nat × Nat × State)
  | _, [] => []
  | col, x :: xs => (row, col, x) :: rowCells row (col + 1) xs

/-- The cells of a grid in the row-major order `Walk` visits them, with their coordinates. -/
def gridCells : Nat → Grid → List (Nat × Nat × State)
  | _, [] => []
  | row, r :: rs => rowCells row 0 r ++ gridCells (row + 1) rs

/-- Running a state-passing callback over a list of visited cells. -/
def foldRes {α σ : Type} (fn : α → σ → Res σ) : List α → σ → Res σ
  | [], s => Res.ok s
  | c :: cs, s => (fn c s).bind (foldRes fn cs)

/-- The verdict of `Test` on one overlay cell: the cell is Empty, or its target is inside the
board and Empty there. -/
def board.fits (b : board) (l : Location) (c : Nat × Nat × State) : Bool :=
  decide (c.2.2 = Gotris.Empty) ||
    (b.Contains (target l c.1 c.2.1) &&
      decide (Grid.cellAt b.grid (target l c.1 c.2.1) = some Gotris.Empty))

/-- Go slices have an `int` length: the grid has fewer than `2^63` rows and every row fewer
than `2^63` cells. -/
def Grid.Sized (g : Grid) : Prop :=
  (g.length : Int) < 9223372036854775808 ∧
    ∀ r ∈ g, (r.length : Int) < 9223372036854775808

instance (g : Grid) : Decidable (Grid.Sized g) := by unfold Grid.Sized; infer_instance

/-- A 4x4 board with the two leftmost cells of the bottom row occupied. -/
def sampleBoard : board :=
  { rows := 4, cols := 4, grid := [[0, 0, 0, 0], [0, 0, 0, 0], [0, 0, 0, 0], [1, 1, 0, 0]] }

/-- A 4x4 board whose bottom row is full and whose other rows are Empty. -/
def bottomFullBoard : board :=
  { rows := 4, cols := 4, grid := [[0, 0, 0, 0], [0, 0, 0, 0], [0, 0, 0, 0], [1, 1, 1, 1]] }

/-- A vertical two-cell bar in the right column of a 2x2 grid. -/
def barPiece : Piece := { Grid := [[0, 3], [0, 3]], Location := { X := 0, Y := 0 } }

/-- The grid has `R` rows of `C` cells each. -/
def Grid.HasDims (g : Grid) (R C : Nat) : Prop := g.length = R ∧ ∀ r ∈ g, r.length = C

/-- The verdict of `IsTopOut` on one cell of the piece: the cell is non-Empty and its target
is inside the board and occupied there. -/
def board.hits (b : board) (l : Location) (c : Nat × Nat × State) : Bool :=
  decide (c.2.2 ≠ Gotris.Empty) &&
    (b.Contains (target l c.1 c.2.1) &&
      decide (Grid.cellAt b.grid (target l c.1 c.2.1) ≠ some Gotris.Empty))

/-- The sample board as the board of a controller with an empty queue. -/
def sampleGame : gameBoard := { Board := sampleBoard, rows := 4, cols := 4, upcoming := [] }

/-- The controls of the list all return true when run in order from board `b` and piece `p`,
each on the board and piece its predecessor left, and they leave board `b2` and piece `p2`. -/
def runsTrue : List Control → board → Piece → board → Piece → Prop
  | [], b, p, b2, p2 => b2 = b ∧ p2 = p
  | c :: cs, b, p, b2, p2 =>
    ∃ b1 p1, c b p = Res.ok (true, b1, p1) ∧ runsTrue cs b1 p1 b2 p2

/-- A control that shifts the piece one cell to the right and then reports failure:
`func(board Board, p *Piece) bool { Right(&p.Location); return false }`. -/
def shiftThenFail : Control := fun board p =>
  Res.ok (false, board, { p with Location := Right p.Location })

/-! ## shapes.go and tetromino.go -/

/-- I returns the shape matrix for the I tetromino. -/
def I (x : State) : Grid := [[x, x, x, x]]

/-- J returns the shape matrix for the J tetromino. -/
def J (x : State) : Grid := [[x, 0, 0], [x, x, x]]

/-- L returns the shape matrix for the L tetromino. -/
def L (x : State) : Grid := [[0, 0, x], [x, x, x]]

/-- O returns the shape matrix for the O tetromino. -/
def O (x : State) : Grid := [[x, x], [x, x]]

/-- S returns the shape matrix for the S tetromino. -/
def S (x : State) : Grid := [[0, x, x], [x, x, 0]]

/-- T returns the shape matrix for the T tetromino. -/
def T (x : State) : Grid := [[0, x, 0], [x, x, x]]

/-- Z returns the shape matrix for the Z tetromino. -/
def Z (x : State) : Grid := [[x, x, 0], [0, x, x]]

/-- Contains reports whether the given location is within the bounds of the grid:
`len(g) > 0 && l.Y >= 0 && l.Y < len(g) && l.X >= 0 && l.X < len(g[0])`. -/
def Grid.Contains (g : Grid) (l : Location) : Bool :=
  match g with
  | [] => false
  | r0 :: _ =>
    decide (l.Y ≥ 0) && decide (l.Y < (g.length : Int)) && decide (l.X ≥ 0) &&
      decide (l.X < (r0.length : Int))

/-- Modelled from the spec: `newGrid` (lower case), which `newTetromino` calls for its square
result, is not among the sources; it is taken to build the all-Empty grid of the given
dimensions, as `NewGrid` does. -/
def newGrid (rows cols : Int) : Res Grid := NewGrid rows cols

/-- The constructor `newTetromino`: pads the shape into a square of side
`max(rows + off.Y, cols + off.X)`, writing `result[off.Y+i][off.X+j] = grid[i][j]` where the
result contains that location. The two `range` loops of the source are those of `Walk`. -/
def newTetromino (grid : Grid) (off : Location) : Res tetromino :=
  let rows := (Grid.Size grid).1
  let cols := (Grid.Size grid).2
  let height := wrapInt (rows + off.Y)
  let width := wrapInt (cols + off.X)
  let side := max height width
  (newGrid side side).bind fun zero =>
  (Grid.Walk grid (fun i j state result =>
    if Grid.Contains result { X := wrapInt (off.X + j), Y := wrapInt (off.Y + i) } then
      Grid.setAt result (wrapInt (off.Y + i)) (wrapInt (off.X + j)) state
    else Res.ok result) zero).bind fun result =>
  Res.ok { grid := result }

/-- The method `Grid` of a tetromino: a clone of its grid, then the given rotations. -/
def tetromino.Grid (t : tetromino) : List Rotation → Res Grid
  | [] => Grid.Clone t.grid
  | fns => fns.foldl (fun acc f => acc.bind f) (Grid.Clone t.grid)

/-- The method `Rotate` of a tetromino: applies the rotations to its grid in order. -/
def tetromino.Rotate (t : tetromino) (fns : List Rotation) : Res tetromino :=
  (fns.foldl (fun acc f => acc.bind f) (Res.ok t.grid)).bind fun g => Res.ok { grid := g }

/-- NewI returns a new I tetromino with its canonical spawn offset. -/
def NewI : Res tetromino := newTetromino (I Cyan) { X := 1, Y := 2 }

/-- NewJ returns a new J tetromino with its canonical spawn offset. -/
def NewJ : Res tetromino := newTetromino (J Blue) { X := 0, Y := 0 }

/-- NewL returns a new L tetromino with its canonical spawn offset. -/
def NewL : Res tetromino := newTetromino (L Orange) { X := 0, Y := 0 }

/-- NewO returns a new O tetromino with its canonical spawn offset. -/
def NewO : Res tetromino := newTetromino (O Yellow) { X := 0, Y := 0 }

/-- NewS returns a new S tetromino with its canonical spawn offset. -/
def NewS : Res tetromino := newTetromino (S Green) { X := 0, Y := 0 }

/-- NewT returns a new T tetromino with its canonical spawn offset. -/
def NewT : Res tetromino := newTetromino (T Purple) { X := 0, Y := 0 }

/-- NewZ returns a new Z tetromino with its canonical spawn offset. -/
def NewZ : Res tetromino := newTetromino (Z Red) { X := 0, Y := 0 }

/-! ## gameboard.go: the queue -/

/-- The slice literal `[]Tetromino{NewI(), NewJ(), NewL(), NewO(), NewS(), NewT(), NewZ()}`. -/
def newBag : Res (List tetromino) :=
  NewI.bind fun i => NewJ.bind fun j => NewL.bind fun l => NewO.bind fun o =>
  NewS.bind fun s => NewT.bind fun t => NewZ.bind fun z => Res.ok [i, j, l, o, s, t, z]

/-- The closure passed to `rand.Shuffle`: `seq[i], seq[j] = seq[j], seq[i]`. -/
def swapAt {α : Type} (seq : List α) (i j : Int) : Res (List α) :=
  (index seq j).bind fun sj =>
  (index seq i).bind fun si =>
  (setIndex seq i sj).bind fun seq1 => setIndex seq1 j si

/-- The call `rand.Shuffle(len(seq), swap)` on the seven-element bag: the library calls
`swap(i, j)` for pairs of indices below 7 of its choosing; `outcome` is the list of these
pairs, the outcome of the random source. -/
def Shuffle {α : Type} : List (Fin 7 × Fin 7) → List α → Res (List α)
  | [], seq => Res.ok seq
  | (i, j) :: rest, seq => (swapAt seq (i.val : Int) (j.val : Int)).bind (Shuffle rest)

/-- The refill at the start of `Next`: `if len(b.upcoming) <= minQueueSize`, with
`minQueueSize = 3`, a shuffled bag is appended to the queue. -/
def gameBoard.refill (b : gameBoard) (outcome : List (Fin 7 × Fin 7)) : Res gameBoard :=
  if b.upcoming.length ≤ 3 then
    newBag.bind fun seq =>
    (Shuffle outcome seq).bind fun shuffled =>
    Res.ok { b with upcoming := b.upcoming ++ shuffled }
  else Res.ok b

/-- The rest of `Next`: nil for an empty queue, else the head is popped and made a piece at
`X = (b.cols - len(shape[0])) / 2`, `Y = 0`. -/
def gameBoard.pop (b : gameBoard) : Res (Option Piece × gameBoard) :=
  match b.upcoming with
  | [] => Res.ok (none, b)
  | head :: rest =>
    (head.Grid []).bind fun shape =>
    (index shape 0).bind fun row0 =>
    Res.ok (some { Grid := shape,
                   Location := { X := Int.tdiv (wrapInt (b.cols - (row0.length : Int))) 2,
                                 Y := 0 } },
            { b with upcoming := rest })

/-- Next consumes and returns the next piece from the queue (refilling as needed). -/
def gameBoard.Next (b : gameBoard) (outcome : List (Fin 7 × Fin 7)) :
    Res (Option Piece × gameBoard) :=
  (b.refill outcome).bind fun b1 => b1.pop

/-- Preview returns a snapshot of upcoming piece shapes without consuming the queue. -/
def gameBoard.Preview (b : gameBoard) : Res (List Grid) :=
  b.upcoming.foldl (fun acc t => acc.bind fun shapes =>
    (t.Grid []).bind fun shape => Res.ok (shapes ++ [shape])) (Res.ok [])

/-- The seven canonical tetrominoes I, J, L, O, S, T, Z, as `NewI` .. `NewZ` build them. -/
def canonicalBag : List tetromino :=
  [{ grid := [[0, 0, 0, 0, 0], [0, 0, 0, 0, 0], [0, 5, 5, 5, 5], [0, 0, 0, 0, 0],
              [0, 0, 0, 0, 0]] },
   { grid := [[6, 0, 0], [6, 6, 6], [0, 0, 0]] },
   { grid := [[0, 0, 2], [2, 2, 2], [0, 0, 0]] },
   { grid := [[3, 3], [3, 3]] },
   { grid := [[0, 4, 4], [4, 4, 0], [0, 0, 0]] },
   { grid := [[0, 7, 0], [7, 7, 7], [0, 0, 0]] },
   { grid := [[1, 1, 0], [0, 1, 1], [0, 0, 0]] }]

/-- The piece `Next` makes of a tetromino on a controller with `cols` columns. -/
def spawnPiece (cols : Int) (t : tetromino) : Piece :=
  { Grid := t.grid,
    Location := { X := Int.tdiv (wrapInt (cols - ((t.grid.headD []).length : Int))) 2, Y := 0 } }

/-- Consecutive calls of `Next`, one per shuffle outcome, with the pieces they return. -/
def gameBoard.nexts (b : gameBoard) :
    List (List (Fin 7 × Fin 7)) → Res (List (Option Piece) × gameBoard)
  | [] => Res.ok ([], b)
  | outcome :: rest =>
    (b.Next outcome).bind fun r =>
    (gameBoard.nexts r.2 rest).bind fun rs => Res.ok (r.1 :: rs.1, rs.2)


/-- The board of a new game, `NewBoard(20, 10)`: 20 rows of 10 Empty cells. -/
def emptyBoard20 : board :=
  { rows := 20, cols := 10, grid := List.replicate 20 (List.replicate 10 Empty) }

/-- The O piece at row 0 of the new board, four columns from the left. -/
def pieceO : Piece := { Grid := O Yellow, Location := { X := 4, Y := 0 } }

/-- The board `NewBoard(4, 4)`: four rows of four Empty cells. -/
def emptyBoard4 : board :=
  { rows := 4, cols := 4, grid := List.replicate 4 (List.replicate 4 Empty) }

/-- The controller `NewGameBoard(4, 4)`, with an empty queue. -/
def emptyGame4 : gameBoard := { Board := emptyBoard4, rows := 4, cols := 4, upcoming := [] }

/-- The T shape padded to a 3x3 square, as a sample square grid. -/
def squareT : Grid := [[0, 7, 0], [7, 7, 7], [0, 0, 0]]

/-! ## game.go -/

/-- The constant `time.Second` as a `time.Duration`: 64-bit nanoseconds. -/
def Second : Int := 1000000000

/-- The constant `time.Millisecond` as a `time.Duration`: 64-bit nanoseconds. -/
def Millisecond : Int := 1000000

/-- The `game` struct: its mutex, renderer and control channel are left out. -/
structure game where
  gameBoard : gameBoard
  level : Int
  lines : Int
  steps : Int
deriving DecidableEq, Repr

/-- New creates a new block-stacking game instance: a 20x10 board and level 1. -/
def New : Res game :=
  (NewGameBoard 20 10).bind fun gb =>
  Res.ok { gameBoard := gb, level := 1, lines := 0, steps := Int.tdiv Second 20 }

/-- The method `levelUp`: `if g.lines/10 >= g.level { g.level++ }`, then
`n := time.Second - time.Millisecond*time.Duration(g.level*20)`, returned when positive and 0
otherwise. Go's `/` truncates toward zero; every arithmetic step wraps at 64 bits. -/
def game.levelUp (g : game) : Int × game :=
  let g1 : game :=
    if Int.tdiv g.lines 10 ≥ g.level then { g with level := wrapInt (g.level + 1) } else g
  let n : Int := wrapInt (Second - wrapInt (Millisecond * wrapInt (g1.level * 20)))
  if n > 0 then (n, g1) else (0, g1)

/-- The end of the gravity branch of `Run` for a piece that has landed:
`g.lines += g.gameBoard.Compact()`, with `cleared` the count `Compact` returned, and after
the next piece is fetched `if g.levelUp() > 0 { t.Reset(g.levelUp()) }`. Returns the period
the ticker is reset to, if it is reset. -/
def game.landing (g : game) (cleared : Int) : Option Int × game :=
  let g1 : game := { g with lines := wrapInt (g.lines + cleared) }
  let first := g1.levelUp
  if first.1 > 0 then
    let second := first.2.levelUp
    (some second.1, second.2)
  else (none, first.2)

/-- The gravity branch of the loop of `Run` (`case <-t.C`), the render update left out:
`Apply(piece, Move(Down))`; when it fails the piece is stacked, the full rows are compacted
and counted into `g.lines`, the next piece is fetched and tested for top-out, and
`if g.levelUp() > 0 { t.Reset(g.levelUp()) }`. Returns the game, the current piece, the
`gameOver` flag and the period the ticker is reset to, if it is reset. Dereferencing a nil
piece is a fault. -/
def game.gravity (g : game) (piece : Piece) (outcome : List (Fin 7 × Fin 7)) :
    Res (game × Piece × Bool × Option Int) :=
  (g.gameBoard.Apply piece [Move Down]).bind fun a =>
  if a.1 then Res.ok ({ g with gameBoard := a.2.1 }, a.2.2, false, none)
  else
    (a.2.1.Board.Stack a.2.2.Grid a.2.2.Location).bind fun stacked =>
    (stacked.Compact).bind fun c =>
    (gameBoard.Next { a.2.1 with Board := c.2 } outcome).bind fun n =>
    match n.1 with
    | none => Res.crash
    | some next =>
      (n.2.IsTopOut next).bind fun t =>
      let g2 : game := { g with gameBoard := t.2.1, lines := wrapInt (g.lines + c.1) }
      let first := g2.levelUp
      if first.1 > 0 then
        let second := first.2.levelUp
        Res.ok (second.2, next, t.1, some second.1)
      else Res.ok (first.2, next, t.1, none)

/-- A run of landings, each with the count of lines it cleared. -/
def game.landings (g : game) : List Int → game
  | [] => g
  | cleared :: rest => game.landings (g.landing cleared).2 rest

/-- The game `New` returns: level 1, no lines, a new 20x10 controller. -/
def newGame : game :=
  { gameBoard := { Board := emptyBoard20, rows := 20, cols := 10, upcoming := [] },
    level := 1, lines := 0, steps := 50000000 }

/-- The boards reachable from `NewBoard(rows, cols)` by calls of Stack, Compact and Clear that
return. -/
inductive board.Reachable (rows cols : Int) : board → Prop where
  | new {b : board} : NewBoard rows cols = Res.ok b → board.Reachable rows cols b
  | stack {b b2 : board} (grid : Grid) (l : Location) :
      board.Reachable rows cols b → b.Stack grid l = Res.ok b2 → board.Reachable rows cols b2
  | compact {b b2 : board} (k : Int) :
      board.Reachable rows cols b → b.Compact = Res.ok (k, b2) → board.Reachable rows cols b2
  | clear {b b2 : board} :
      board.Reachable rows cols b → b.Clear = Res.ok b2 → board.Reachable rows cols b2

/-- The controller `NewGameBoard(20, 10)` of a new game, with an empty queue. -/
def emptyGame20 : gameBoard := { Board := emptyBoard20, rows := 20, cols := 10, upcoming := [] }

/-- The controllers reachable from `NewGameBoard(rows, cols)` by calls that return and change
the state: Next (for any outcome of the shuffle), Apply (for any piece and controls), and
Stack, Compact and Clear of the embedded board. Test, IsTopOut, Preview and State change
nothing. -/
inductive gameBoard.Reachable (rows cols : Int) : gameBoard → Prop where
  | new {gb : gameBoard} : NewGameBoard rows cols = Res.ok gb → gameBoard.Reachable rows cols gb
  | next {gb gb2 : gameBoard} (outcome : List (Fin 7 × Fin 7)) (piece : Option Piece) :
      gameBoard.Reachable rows cols gb → gb.Next outcome = Res.ok (piece, gb2) →
      gameBoard.Reachable rows cols gb2
  | apply {gb gb2 : gameBoard} (piece : Piece) (controls : List Control) (ok : Bool)
      (piece2 : Piece) :
      gameBoard.Reachable rows cols gb → gb.Apply piece controls = Res.ok (ok, gb2, piece2) →
      gameBoard.Reachable rows cols gb2
  | stack {gb : gameBoard} {b2 : board} (grid : Grid) (l : Location) :
      gameBoard.Reachable rows cols gb → gb.Board.Stack grid l = Res.ok b2 →
      gameBoard.Reachable rows cols { gb with Board := b2 }
  | compact {gb : gameBoard} {b2 : board} (k : Int) :
      gameBoard.Reachable rows cols gb → gb.Board.Compact = Res.ok (k, b2) →
      gameBoard.Reachable rows cols { gb with Board := b2 }
  | clear {gb : gameBoard} {b2 : board} :
      gameBoard.Reachable rows cols gb → gb.Board.Clear = Res.ok b2 →
      gameBoard.Reachable rows cols { gb with Board := b2 }

/-- The queue invariant of a controller: the queue holds canonical tetrominoes only, and it
is empty (before the first call of Next) or holds between 3 and 9 of them. -/
def gameBoard.QueueInv (gb : gameBoard) : Prop :=
  (∀ t ∈ gb.upcoming, t ∈ canonicalBag) ∧
    (gb.upcoming = [] ∨ (3 ≤ gb.upcoming.length ∧ gb.upcoming.length ≤ 9))

/-- The length of the queue after one call of `Next`, from its length before: 7 are appended
when it is at most 3, and one is popped. -/
def queueStep (n : Nat) : Nat := if n ≤ 3 then n + 6 else n - 1

/-- No row of the grid is longer than the first one. `Zero` and the rotations size their
result by the first row, so these are the grids whose every cell has a place in that result. -/
def Grid.Bounded (g : Grid) : Prop := ∀ r ∈ g, r.length ≤ (g.headD []).length

instance (g : Grid) : Decidable (Grid.Bounded g) := by unfold Grid.Bounded; infer_instance

/-- A piece whose second row is longer than the first, low on the left of the sample board. -/
def jaggedPiece : Piece := { Grid := [[0], [0, 3]], Location := { X := 0, Y := 2 } }

/-! ## Basic facts -/

@[simp] theorem Res.bind_ok {α β : Type} (a : α) (f : α → Res β) :
    (Res.ok a).bind f = f a := rfl

@[simp] theorem Res.bind_crash {α β : Type} (f : α → Res β) :
    (Res.crash : Res α).bind f = Res.crash := rfl

@[simp] theorem Res.bind_timeout {α β : Type} (f : α → Res β) :
    (Res.timeout : Res α).bind f = Res.timeout := rfl

theorem Res.bind_eq_ok {α β : Type} {x : Res α} {f : α → Res β} {b : β} :
    x.bind f = Res.ok b ↔ ∃ a, x = Res.ok a ∧ f a = Res.ok b := by
  cases x <;> simp [Res.bind]

theorem wrapInt_of_inRange {z : Int} (h : InRange z) : wrapInt z = z := by
  unfold InRange at h
  unfold wrapInt
  omega

theorem wrapInt_inRange (z : Int) : InRange (wrapInt z) := by
  unfold InRange wrapInt
  omega

theorem foldRes_append {α σ : Type} (fn : α → σ → Res σ) (xs ys : List α) (s : σ) :
    foldRes fn (xs ++ ys) s = (foldRes fn xs s).bind (foldRes fn ys) := by
  induction xs generalizing s with
  | nil => simp [foldRes]
  | cons x xs ih =>
    simp only [List.cons_append, foldRes]
    cases fn x s <;> simp [ih]

theorem walkRow_eq_foldRes {σ : Type} (fn : Int → Int → State → σ → Res σ) (row : Nat)
    (col : Nat) (xs : List State) (s : σ) :
    walkRow fn row col xs s
      = foldRes (fun c acc => fn (c.1 : Int) (c.2.1 : Int) c.2.2 acc) (rowCells row col xs) s := by
  induction xs generalizing col s with
  | nil => simp [walkRow, rowCells, foldRes]
  | cons x xs ih =>
    simp only [walkRow, rowCells, foldRes]
    cases fn row col x s <;> simp [ih]

theorem walkRows_eq_foldRes {σ : Type} (fn : Int → Int → State → σ → Res σ) (row : Nat)
    (g : Grid) (s : σ) :
    walkRows fn row g s
      = foldRes (fun c acc => fn (c.1 : Int) (c.2.1 : Int) c.2.2 acc) (gridCells row g) s := by
  induction g generalizing row s with
  | nil => simp [walkRows, gridCells, foldRes]
  | cons r rs ih =>
    simp only [walkRows, gridCells, foldRes_append, walkRow_eq_foldRes]
    cases foldRes (fun c acc => fn (c.1 : Int) (c.2.1 : Int) c.2.2 acc) (rowCells row 0 r) s
      <;> simp [ih]

/-- Walk is the fold of its callback over the cells of the grid in row-major order. -/
theorem Walk_eq_foldRes {σ : Type} (g : Grid) (fn : Int → Int → State → σ → Res σ) (s : σ) :
    Grid.Walk g fn s
      = foldRes (fun c acc => fn (c.1 : Int) (c.2.1 : Int) c.2.2 acc) (gridCells 0 g) s :=
  walkRows_eq_foldRes fn 0 g s

theorem mem_rowCells {row col : Nat} {xs : List State} {r c : Nat} {x : State} :
    (r, c, x) ∈ rowCells row col xs ↔ r = row ∧ col ≤ c ∧ xs[c - col]? = some x := by
  induction xs generalizing col with
  | nil => simp [rowCells]
  | cons y ys ih =>
    simp only [rowCells, List.mem_cons, Prod.mk.injEq, ih]
    constructor
    · rintro (⟨h1, h2, h3⟩ | ⟨h1, h2, h3⟩)
      · subst h1 h2 h3
        simp
      · refine ⟨h1, by omega, ?_⟩
        have : c - col = (c - (col + 1)) + 1 := by omega
        rw [this]
        simpa using h3
    · rintro ⟨h1, h2, h3⟩
      by_cases hc : c = col
      · left
        subst hc
        simp at h3
        exact ⟨h1, rfl, h3.symm⟩
      · right
        refine ⟨h1, by omega, ?_⟩
        have : c - col = (c - (col + 1)) + 1 := by omega
        rw [this] at h3
        simpa using h3

theorem mem_gridCells {row : Nat} {g : Grid} {r c : Nat} {x : State} :
    (r, c, x) ∈ gridCells row g ↔ row ≤ r ∧ Grid.cell g (r - row) c = some x := by
  induction g generalizing row with
  | nil => simp [gridCells, Grid.cell]
  | cons y ys ih =>
    simp only [gridCells, List.mem_append, mem_rowCells, ih]
    constructor
    · rintro (⟨h1, _, h3⟩ | ⟨h1, h2⟩)
      · subst h1
        simpa [Grid.cell] using h3
      · refine ⟨by omega, ?_⟩
        have : r - row = (r - (row + 1)) + 1 := by omega
        rw [this]
        simpa [Grid.cell] using h2
    · rintro ⟨h1, h2⟩
      by_cases hr : r = row
      · left
        subst hr
        simpa [Grid.cell] using h2
      · right
        refine ⟨by omega, ?_⟩
        have : r - row = (r - (row + 1)) + 1 := by omega
        rw [this] at h2
        simpa [Grid.cell] using h2

/-- The visited cells are exactly the cells of the grid. -/
theorem mem_gridCells_zero {g : Grid} {r c : Nat} {x : State} :
    (r, c, x) ∈ gridCells 0 g ↔ Grid.cell g r c = some x := by
  simp [mem_gridCells]

/-! ## Board: bounds and occupancy -/

theorem board.Contains_iff (b : board) (l : Location) :
    b.Contains l = true ↔ 0 ≤ l.X ∧ l.X < b.cols ∧ 0 ≤ l.Y ∧ l.Y < b.rows := by
  simp only [board.Contains, Bool.and_eq_true, decide_eq_true_eq]
  constructor
  · rintro ⟨⟨⟨h1, h2⟩, h3⟩, h4⟩
    exact ⟨h3, h2, h4, h1⟩
  · rintro ⟨h1, h2, h3, h4⟩
    exact ⟨⟨⟨h4, h2⟩, h1⟩, h3⟩

theorem index_eq_ok {α : Type} {xs : List α} {i : Int} {x : α} (hi : 0 ≤ i)
    (hx : xs[i.toNat]? = some x) : index xs i = Res.ok x := by
  unfold index
  rw [if_neg (by omega), hx]

/-- On a well-formed board, a location inside the bounds addresses a stored cell. -/
theorem board.row_of_Contains {b : board} (hb : b.WF) {l : Location}
    (hl : b.Contains l = true) :
    ∃ r s, b.grid[l.Y.toNat]? = some r ∧ (r.length : Int) = b.cols ∧
      r[l.X.toNat]? = some s := by
  obtain ⟨_, _, hlen, hrows⟩ := hb
  obtain ⟨hx0, hx1, hy0, hy1⟩ := (board.Contains_iff b l).1 hl
  have hy : l.Y.toNat < b.grid.length := by omega
  have hr : b.grid[l.Y.toNat]? = some (b.grid[l.Y.toNat]) := List.getElem?_eq_getElem hy
  have hmem : b.grid[l.Y.toNat] ∈ b.grid := List.getElem_mem hy
  have hc := hrows _ hmem
  have hx : l.X.toNat < (b.grid[l.Y.toNat]).length := by omega
  exact ⟨_, _, hr, hc, List.getElem?_eq_getElem hx⟩

/-- Inside the bounds of a well-formed board the unchecked read `Empty` does not fault and
tells whether the stored cell is Empty. -/
theorem board.Empty_of_Contains {b : board} (hb : b.WF) {l : Location}
    (hl : b.Contains l = true) :
    b.Empty l = Res.ok (decide (Grid.cellAt b.grid l = some Gotris.Empty)) := by
  obtain ⟨r, s, hr, _, hs⟩ := board.row_of_Contains hb hl
  obtain ⟨hx0, _, hy0, _⟩ := (board.Contains_iff b l).1 hl
  unfold board.Empty
  rw [index_eq_ok hy0 hr, Res.bind_ok, index_eq_ok hx0 hs, Res.bind_ok]
  simp [Grid.cellAt, Grid.cell, hx0, hy0, hr, hs]

theorem board.testCell_eq {b : board} (hb : b.WF) (l : Location) (c : Nat × Nat × State)
    (acc : Bool) :
    b.testCell l (c.1 : Int) (c.2.1 : Int) c.2.2 acc = Res.ok (acc && b.fits l c) := by
  unfold board.testCell board.fits
  cases acc with
  | false => simp
  | true =>
    by_cases hs : c.2.2 = Gotris.Empty
    · simp [hs]
    · by_cases hc : b.Contains (target l c.1 c.2.1) = true
      · have hc2 := hc
        unfold target at hc2
        simp only [hs, hc2, if_true, if_false, ite_true]
        rw [board.Empty_of_Contains hb hc2]
        simp [target, hc2]
      · have hc2 := hc
        unfold target at hc2
        simp [hs, hc2, target]

theorem foldRes_all {α : Type} (fn : α → Bool → Res Bool) (p : α → Bool)
    (h : ∀ c acc, fn c acc = Res.ok (acc && p c)) (cs : List α) (acc : Bool) :
    foldRes fn cs acc = Res.ok (acc && cs.all p) := by
  induction cs generalizing acc with
  | nil => simp [foldRes]
  | cons c cs ih =>
    simp only [foldRes, h, Res.bind_ok, ih, List.all_cons, Bool.and_assoc]

/-- On a well-formed board `Test` returns, with the verdict `fits` on every visited cell and
the board as it was. -/
theorem board.Test_eq {b : board} (hb : b.WF) (grid : Grid) (l : Location) :
    b.Test grid l = Res.ok ((gridCells 0 grid).all (b.fits l), b) := by
  unfold board.Test
  rw [Walk_eq_foldRes,
    foldRes_all _ (b.fits l) (fun c acc => board.testCell_eq hb l c acc)]
  simp

theorem board.fits_all_iff (b : board) (grid : Grid) (l : Location) :
    (gridCells 0 grid).all (b.fits l) = true ↔
      ∀ row col state, Grid.cell grid row col = some state → state ≠ Gotris.Empty →
        b.Contains (target l row col) = true ∧
          Grid.cellAt b.grid (target l row col) = some Gotris.Empty := by
  simp only [List.all_eq_true, Prod.forall, mem_gridCells_zero, board.fits, Bool.or_eq_true,
    Bool.and_eq_true, decide_eq_true_eq]
  constructor
  · intro h row col state hc hs
    rcases h row col state hc with h1 | h1
    · exact absurd h1 hs
    · exact h1
  · intro h row col state hc
    by_cases hs : state = Gotris.Empty
    · exact Or.inl hs
    · exact Or.inr (h row col state hc hs)

theorem Grid.cell_bounds {g : Grid} {row col : Nat} {s : State}
    (h : Grid.cell g row col = some s) :
    row < g.length ∧ ∃ r ∈ g, col < r.length := by
  unfold Grid.cell at h
  cases hr : g[row]? with
  | none => simp [hr] at h
  | some r =>
    simp only [hr, Option.some_bind] at h
    obtain ⟨h1, h2⟩ := List.getElem?_eq_some.1 hr
    obtain ⟨h3, _⟩ := List.getElem?_eq_some.1 h
    exact ⟨h1, r, h2 ▸ List.getElem_mem h1, h3⟩

theorem target_eq_exact {l : Location} {row col : Nat} (hx : InRange ((col : Int) + l.X))
    (hy : InRange ((row : Int) + l.Y)) :
    target l row col = { X := (col : Int) + l.X, Y := (row : Int) + l.Y } := by
  simp [target, wrapInt_of_inRange hx, wrapInt_of_inRange hy]

/-- For Go-representable coordinates the target of a cell lies inside a well-formed board
exactly when the exact sums `col + l.X` and `row + l.Y` do. -/
theorem target_contains_iff {b : board} (hb : b.WF) {l : Location} (hX : InRange l.X)
    (hY : InRange l.Y) {row col : Nat} (hrow : (row : Int) < 9223372036854775808)
    (hcol : (col : Int) < 9223372036854775808) :
    b.Contains (target l row col) = true ↔
      0 ≤ (col : Int) + l.X ∧ (col : Int) + l.X < b.cols ∧
        0 ≤ (row : Int) + l.Y ∧ (row : Int) + l.Y < b.rows := by
  obtain ⟨h3, h4, _, _⟩ := hb
  rw [board.Contains_iff]
  unfold InRange at hX hY h3 h4
  unfold target wrapInt
  simp only
  omega

theorem Grid.cell_sized {g : Grid} (hs : Grid.Sized g) {row col : Nat} {s : State}
    (h : Grid.cell g row col = some s) :
    (row : Int) < 9223372036854775808 ∧ (col : Int) < 9223372036854775808 := by
  obtain ⟨h1, r, hr, h2⟩ := Grid.cell_bounds h
  have := hs.1
  have := hs.2 r hr
  omega

/-- C1: on every board (as `NewBoard` and the board operations build it), for every overlay
grid and every location, `Test` returns, leaves the board unchanged, and its verdict is true
if and only if every non-Empty overlay cell `(row, col)` maps to a board location
`(col + loc.X, row + loc.Y)` that is inside the board and Empty there; Empty overlay cells are
not looked at, wherever they fall. The location is stated twice: as the Go expressions compute
it (`target`), and, for Go-representable coordinates and grid sizes, as the exact sums. -/
theorem board_Test_iff (b : board) (hb : b.WF) (grid : Grid) (l : Location) :
    ∃ ok, b.Test grid l = Res.ok (ok, b) ∧
      (ok = true ↔
        ∀ row col state, Grid.cell grid row col = some state → state ≠ Empty →
          b.Contains (target l row col) = true ∧
            Grid.cellAt b.grid (target l row col) = some Empty) ∧
      (InRange l.X → InRange l.Y → Grid.Sized grid →
        (ok = true ↔
          ∀ (row col : Nat) (state : State), Grid.cell grid row col = some state →
            state ≠ Empty →
            0 ≤ (col : Int) + l.X ∧ (col : Int) + l.X < b.cols ∧
              0 ≤ (row : Int) + l.Y ∧ (row : Int) + l.Y < b.rows ∧
              Grid.cellAt b.grid { X := (col : Int) + l.X, Y := (row : Int) + l.Y }
                = some Empty)) := by
  refine ⟨_, board.Test_eq hb grid l, board.fits_all_iff b grid l, ?_⟩
  intro hX hY hsized
  rw [board.fits_all_iff]
  have hcell : ∀ (row col : Nat) (state : State), Grid.cell grid row col = some state →
      ((b.Contains (target l row col) = true ∧
          Grid.cellAt b.grid (target l row col) = some Empty) ↔
        (0 ≤ (col : Int) + l.X ∧ (col : Int) + l.X < b.cols ∧
          0 ≤ (row : Int) + l.Y ∧ (row : Int) + l.Y < b.rows ∧
          Grid.cellAt b.grid { X := (col : Int) + l.X, Y := (row : Int) + l.Y }
            = some Empty)) := by
    intro row col state hc
    obtain ⟨hr, hcl⟩ := Grid.cell_sized hsized hc
    have hiff := target_contains_iff hb hX hY hr hcl
    have hexact : (0 ≤ (col : Int) + l.X ∧ (col : Int) + l.X < b.cols ∧
        0 ≤ (row : Int) + l.Y ∧ (row : Int) + l.Y < b.rows) →
        target l row col = { X := (col : Int) + l.X, Y := (row : Int) + l.Y } := by
      intro hbd
      have h3 := hb.1
      have h4 := hb.2.1
      unfold InRange at h3 h4
      exact target_eq_exact (by unfold InRange; omega) (by unfold InRange; omega)
    constructor
    · rintro ⟨h1, h2⟩
      have hbd := hiff.1 h1
      rw [hexact hbd] at h2
      exact ⟨hbd.1, hbd.2.1, hbd.2.2.1, hbd.2.2.2, h2⟩
    · rintro ⟨h1, h2, h3, h4, h5⟩
      rw [← hexact ⟨h1, h2, h3, h4⟩] at h5
      exact ⟨hiff.2 ⟨h1, h2, h3, h4⟩, h5⟩
  constructor
  · intro h row col state hc hs
    exact (hcell row col state hc).1 (h row col state hc hs)
  · intro h row col state hc hs
    exact (hcell row col state hc).2 (h row col state hc hs)

/-- Witness of C1 on the sample board, with an overlay whose Empty cells hang off the board. -/
theorem board_Test_iff_witness :
    sampleBoard.WF ∧
    (∃ ok, sampleBoard.Test [[0, 3], [0, 3]] ⟨-1, 0⟩ = Res.ok (ok, sampleBoard) ∧
      (ok = true ↔
        ∀ row col state, Grid.cell [[0, 3], [0, 3]] row col = some state → state ≠ Empty →
          sampleBoard.Contains (target ⟨-1, 0⟩ row col) = true ∧
            Grid.cellAt sampleBoard.grid (target ⟨-1, 0⟩ row col) = some Empty) ∧
      (InRange (-1) → InRange 0 → Grid.Sized [[0, 3], [0, 3]] →
        (ok = true ↔
          ∀ (row col : Nat) (state : State),
            Grid.cell [[0, 3], [0, 3]] row col = some state → state ≠ Empty →
            0 ≤ (col : Int) + -1 ∧ (col : Int) + -1 < sampleBoard.cols ∧
              0 ≤ (row : Int) + 0 ∧ (row : Int) + 0 < sampleBoard.rows ∧
              Grid.cellAt sampleBoard.grid { X := (col : Int) + -1, Y := (row : Int) + 0 }
                = some Empty))) ∧
    sampleBoard.Test [[0, 3], [0, 3]] ⟨-1, 0⟩ = Res.ok (true, sampleBoard) ∧
    sampleBoard.Test [[0, 3], [0, 3]] ⟨0, 2⟩ = Res.ok (false, sampleBoard) ∧
    sampleBoard.Test [[0, 3], [0, 3]] ⟨3, 0⟩ = Res.ok (false, sampleBoard) :=
  ⟨by decide, board_Test_iff sampleBoard (by decide) [[0, 3], [0, 3]] ⟨-1, 0⟩,
    by decide, by decide, by decide⟩

/-! ## Board: writing cells -/

theorem setIndex_eq_ok {α : Type} {xs : List α} {i : Int} (x : α) (hi : 0 ≤ i)
    (hlt : i.toNat < xs.length) : setIndex xs i x = Res.ok (xs.set i.toNat x) := by
  unfold setIndex
  rw [if_neg (by omega), if_pos hlt]

theorem Grid.setAt_eq_ok {g : Grid} {row col : Int} {r : List State} (state : State)
    (hrow : 0 ≤ row) (hr : g[row.toNat]? = some r) (hcol : 0 ≤ col)
    (hlt : col.toNat < r.length) :
    Grid.setAt g row col state = Res.ok (g.set row.toNat (r.set col.toNat state)) := by
  unfold Grid.setAt
  have hlen : row.toNat < g.length := by
    by_contra hcon
    rw [List.getElem?_eq_none (by omega)] at hr
    exact absurd hr (by simp)
  rw [index_eq_ok hrow hr, Res.bind_ok, setIndex_eq_ok state hcol hlt, Res.bind_ok,
    setIndex_eq_ok _ hrow hlen]

theorem Grid.cell_set {g : Grid} {i j : Nat} {r : List State} (hr : g[i]? = some r)
    (hj : j < r.length) (s : State) (i2 j2 : Nat) :
    Grid.cell (g.set i (r.set j s)) i2 j2
      = if i2 = i ∧ j2 = j then some s else Grid.cell g i2 j2 := by
  have hlen : i < g.length := by
    by_contra hcon
    rw [List.getElem?_eq_none (by omega)] at hr
    exact absurd hr (by simp)
  unfold Grid.cell
  rw [List.getElem?_set]
  by_cases hi : i = i2
  · subst hi
    simp only [if_true, hlen, Option.some_bind, true_and, hr, List.getElem?_set]
    by_cases hjj : j = j2
    · subst hjj
      simp [hj]
    · have : ¬ j2 = j := fun h => hjj h.symm
      simp [hjj, this]
  · have : ¬ i2 = i := fun h => hi h.symm
    simp [hi, this]

/-- Writing a cell inside the bounds of a well-formed board does not fault, keeps the board
well-formed with the same dimensions, and changes the addressed cell only. -/
theorem board.setCell_spec {b : board} (hb : b.WF) {l : Location} (hl : b.Contains l = true)
    (s : State) :
    ∃ b2, b.setCell l s = Res.ok b2 ∧ b2.rows = b.rows ∧ b2.cols = b.cols ∧ b2.WF ∧
      ∀ l2, Grid.cellAt b2.grid l2 = if l2 = l then some s else Grid.cellAt b.grid l2 := by
  obtain ⟨r, s0, hr, hrl, hs0⟩ := board.row_of_Contains hb hl
  obtain ⟨hx0, hx1, hy0, hy1⟩ := (board.Contains_iff b l).1 hl
  have hlt : l.X.toNat < r.length := by omega
  refine ⟨{ b with grid := b.grid.set l.Y.toNat (r.set l.X.toNat s) }, ?_, rfl, rfl, ?_, ?_⟩
  · unfold board.setCell
    rw [Grid.setAt_eq_ok s hy0 hr hx0 hlt, Res.bind_ok]
  · obtain ⟨h3, h4, h5, h6⟩ := hb
    refine ⟨h3, h4, ?_, ?_⟩
    · simpa using h5
    · intro r2 hr2
      rcases List.mem_or_eq_of_mem_set hr2 with h | h
      · exact h6 r2 h
      · subst h
        simpa using hrl
  · intro l2
    unfold Grid.cellAt
    by_cases h0 : 0 ≤ l2.X ∧ 0 ≤ l2.Y
    · simp only [h0, and_self, if_true, Grid.cell_set hr hlt]
      have hx0b := hx0
      have hy0b := hy0
      have hiff : (l2.Y.toNat = l.Y.toNat ∧ l2.X.toNat = l.X.toNat) ↔ l2 = l := by
        constructor
        · rintro ⟨ha, hb2⟩
          cases l2
          cases l
          simp only [Location.mk.injEq] at *
          omega
        · rintro rfl
          exact ⟨rfl, rfl⟩
      by_cases hll : l2 = l
      · simp [hll]
      · have : ¬ (l2.Y.toNat = l.Y.toNat ∧ l2.X.toNat = l.X.toNat) := fun h => hll (hiff.1 h)
        simp [hll, this]
    · have hne : l2 ≠ l := by
        rintro rfl
        exact h0 ⟨hx0, hy0⟩
      simp [h0, hne]

/-! ## Stack -/

theorem rowCells_pairwise (row col : Nat) (xs : List State) :
    (rowCells row col xs).Pairwise (fun c d => (c.1, c.2.1) ≠ (d.1, d.2.1)) := by
  induction xs generalizing col with
  | nil => simp [rowCells]
  | cons x xs ih =>
    simp only [rowCells, List.pairwise_cons]
    refine ⟨?_, ih (col + 1)⟩
    rintro ⟨r, c, y⟩ hd
    obtain ⟨_, h2, _⟩ := mem_rowCells.1 hd
    simp only [ne_eq, Prod.mk.injEq, not_and]
    omega

theorem gridCells_pairwise (row : Nat) (g : Grid) :
    (gridCells row g).Pairwise (fun c d => (c.1, c.2.1) ≠ (d.1, d.2.1)) := by
  induction g generalizing row with
  | nil => simp [gridCells]
  | cons r rs ih =>
    simp only [gridCells, List.pairwise_append]
    refine ⟨rowCells_pairwise row 0 r, ih (row + 1), ?_⟩
    rintro ⟨r1, c1, x1⟩ h1 ⟨r2, c2, x2⟩ h2
    obtain ⟨h3, _, _⟩ := mem_rowCells.1 h1
    obtain ⟨h4, _⟩ := mem_gridCells.1 h2
    simp only [ne_eq, Prod.mk.injEq, not_and]
    omega

/-- Two cells of a grid of Go-representable size have different targets. -/
theorem target_injective (l : Location) (r1 c1 r2 c2 : Nat)
    (hr1 : (r1 : Int) < 9223372036854775808) (hc1 : (c1 : Int) < 9223372036854775808)
    (hr2 : (r2 : Int) < 9223372036854775808) (hc2 : (c2 : Int) < 9223372036854775808)
    (h : target l r1 c1 = target l r2 c2) : r1 = r2 ∧ c1 = c2 := by
  unfold target wrapInt at h
  simp only [Location.mk.injEq] at h
  omega

theorem gridCells_targets_pairwise {g : Grid} (hg : Grid.Sized g) (l : Location) :
    (gridCells 0 g).Pairwise (fun c d => target l c.1 c.2.1 ≠ target l d.1 d.2.1) := by
  refine List.Pairwise.imp_of_mem ?_ (gridCells_pairwise 0 g)
  rintro ⟨r1, c1, x1⟩ ⟨r2, c2, x2⟩ h1 h2 hne htar
  obtain ⟨hr1, ra, hra, hc1⟩ := Grid.cell_bounds (mem_gridCells_zero.1 h1)
  obtain ⟨hr2, rb, hrb, hc2⟩ := Grid.cell_bounds (mem_gridCells_zero.1 h2)
  have ha := hg.2 ra hra
  have hb := hg.2 rb hrb
  have hlen := hg.1
  obtain ⟨e1, e2⟩ := target_injective l r1 c1 r2 c2
    (by omega) (by omega) (by omega) (by omega) htar
  exact hne (by simp [e1, e2])

theorem board.stackCell_empty (l : Location) (row col : Int) (b : board) :
    board.stackCell l row col Gotris.Empty b = Res.ok b := by
  simp [board.stackCell]

theorem board.stackCell_write {b : board} (hb : b.WF) (l : Location) (row col : Nat)
    {s : State} (hs : s ≠ Gotris.Empty) (hc : b.Contains (target l row col) = true)
    (he : Grid.cellAt b.grid (target l row col) = some Gotris.Empty) :
    board.stackCell l (row : Int) (col : Int) s b = b.setCell (target l row col) s := by
  have hc2 := hc
  unfold target at hc2
  unfold board.stackCell
  simp only [ne_eq, hs, not_false_eq_true, if_true, hc2]
  rw [board.Empty_of_Contains hb hc2]
  have he2 := he
  unfold target at he2
  simp [he2, target]

/-- The loop of `Stack` over cells that all fit and have pairwise different targets. -/
theorem foldRes_stack (l : Location) (cs : List (Nat × Nat × State)) (b : board)
    (hb : b.WF)
    (hfit : ∀ c ∈ cs, c.2.2 ≠ Gotris.Empty →
      b.Contains (target l c.1 c.2.1) = true ∧
        Grid.cellAt b.grid (target l c.1 c.2.1) = some Gotris.Empty)
    (hpw : cs.Pairwise (fun c d => target l c.1 c.2.1 ≠ target l d.1 d.2.1)) :
    ∃ b2, foldRes (fun c acc => board.stackCell l (c.1 : Int) (c.2.1 : Int) c.2.2 acc) cs b
        = Res.ok b2 ∧
      b2.rows = b.rows ∧ b2.cols = b.cols ∧ b2.WF ∧
      (∀ c ∈ cs, c.2.2 ≠ Gotris.Empty →
        Grid.cellAt b2.grid (target l c.1 c.2.1) = some c.2.2) ∧
      (∀ l2, (∀ c ∈ cs, c.2.2 ≠ Gotris.Empty → target l c.1 c.2.1 ≠ l2) →
        Grid.cellAt b2.grid l2 = Grid.cellAt b.grid l2) := by
  induction cs generalizing b with
  | nil => exact ⟨b, rfl, rfl, rfl, hb, by simp, by simp⟩
  | cons c cs ih =>
    obtain ⟨hpc, hpcs⟩ := List.pairwise_cons.1 hpw
    by_cases hs : c.2.2 = Gotris.Empty
    · obtain ⟨b2, h1, h2, h3, h4, h5, h6⟩ :=
        ih b hb (fun d hd => hfit d (List.mem_cons_of_mem _ hd)) hpcs
      refine ⟨b2, ?_, h2, h3, h4, ?_, ?_⟩
      · simp only [foldRes, hs, board.stackCell_empty, Res.bind_ok]
        exact h1
      · intro d hd hds
        rcases List.mem_cons.1 hd with rfl | hd
        · exact absurd hs hds
        · exact h5 d hd hds
      · intro l2 hl2
        exact h6 l2 (fun d hd => hl2 d (List.mem_cons_of_mem _ hd))
    · obtain ⟨hc, he⟩ := hfit c (List.mem_cons_self _ _) hs
      obtain ⟨b1, hset, hr1, hc1, hwf1, hcell1⟩ := board.setCell_spec hb hc c.2.2
      have hfit1 : ∀ d ∈ cs, d.2.2 ≠ Gotris.Empty →
          b1.Contains (target l d.1 d.2.1) = true ∧
            Grid.cellAt b1.grid (target l d.1 d.2.1) = some Gotris.Empty := by
        intro d hd hds
        obtain ⟨hdc, hde⟩ := hfit d (List.mem_cons_of_mem _ hd) hds
        refine ⟨?_, ?_⟩
        · rw [board.Contains_iff] at hdc ⊢
          rw [hr1, hc1]
          exact hdc
        · rw [hcell1, if_neg (fun h => hpc d hd h.symm)]
          exact hde
      obtain ⟨b2, h1, h2, h3, h4, h5, h6⟩ := ih b1 hwf1 hfit1 hpcs
      refine ⟨b2, ?_, h2.trans hr1, h3.trans hc1, h4, ?_, ?_⟩
      · simp only [foldRes]
        rw [board.stackCell_write hb l c.1 c.2.1 hs hc he, hset, Res.bind_ok]
        exact h1
      · intro d hd hds
        rcases List.mem_cons.1 hd with rfl | hd
        · rw [h6 _ (fun e he2 _ => fun h => hpc e he2 h.symm), hcell1, if_pos rfl]
        · exact h5 d hd hds
      · intro l2 hl2
        rw [h6 l2 (fun d hd => hl2 d (List.mem_cons_of_mem _ hd)), hcell1,
          if_neg (fun h => hl2 c (List.mem_cons_self _ _) hs h.symm)]

/-- C2: on every board, for every shape and location for which `Test` is true, `Stack`
returns a board of unchanged dimensions that holds the shape's state at the target
`(col + loc.X, row + loc.Y)` of every non-Empty shape cell `(row, col)` and is identical to the
board before at every other location. -/
theorem board_Stack_after_Test (b : board) (hb : b.WF) (shape : Grid)
    (hshape : Grid.Sized shape) (loc : Location)
    (htest : b.Test shape loc = Res.ok (true, b)) :
    ∃ b2, b.Stack shape loc = Res.ok b2 ∧
      b2.rows = b.rows ∧ b2.cols = b.cols ∧ b2.WF ∧
      (∀ row col state, Grid.cell shape row col = some state → state ≠ Empty →
        Grid.cellAt b2.grid (target loc row col) = some state) ∧
      (∀ l2, (∀ row col state, Grid.cell shape row col = some state → state ≠ Empty →
          target loc row col ≠ l2) →
        Grid.cellAt b2.grid l2 = Grid.cellAt b.grid l2) := by
  rw [board.Test_eq hb] at htest
  have hall : (gridCells 0 shape).all (b.fits loc) = true := by
    simpa using htest
  have hfit := (board.fits_all_iff b shape loc).1 hall
  obtain ⟨b2, h1, h2, h3, h4, h5, h6⟩ := foldRes_stack loc (gridCells 0 shape) b hb
    (fun c hc hs => hfit c.1 c.2.1 c.2.2 (mem_gridCells_zero.1 hc) hs)
    (gridCells_targets_pairwise hshape loc)
  refine ⟨b2, ?_, h2, h3, h4, ?_, ?_⟩
  · unfold board.Stack
    rw [Walk_eq_foldRes]
    exact h1
  · intro row col state hc hs
    exact h5 (row, col, state) (mem_gridCells_zero.2 hc) hs
  · intro l2 hl2
    exact h6 l2 (fun c hc hs => hl2 c.1 c.2.1 c.2.2 (mem_gridCells_zero.1 hc) hs)

/-- Witness of C2: stacking a vertical two-cell bar onto the sample board. -/
theorem board_Stack_after_Test_witness :
    sampleBoard.WF ∧ Grid.Sized [[0, 3], [0, 3]] ∧
    sampleBoard.Test [[0, 3], [0, 3]] ⟨-1, 0⟩ = Res.ok (true, sampleBoard) ∧
    ∃ b2, sampleBoard.Stack [[0, 3], [0, 3]] ⟨-1, 0⟩ = Res.ok b2 ∧
      b2.rows = sampleBoard.rows ∧ b2.cols = sampleBoard.cols ∧ b2.WF ∧
      (∀ row col state, Grid.cell [[0, 3], [0, 3]] row col = some state → state ≠ Empty →
        Grid.cellAt b2.grid (target ⟨-1, 0⟩ row col) = some state) ∧
      (∀ l2, (∀ row col state, Grid.cell [[0, 3], [0, 3]] row col = some state →
          state ≠ Empty → target ⟨-1, 0⟩ row col ≠ l2) →
        Grid.cellAt b2.grid l2 = Grid.cellAt sampleBoard.grid l2) :=
  ⟨by decide, by decide, by decide,
    board_Stack_after_Test sampleBoard (by decide) [[0, 3], [0, 3]] (by decide) ⟨-1, 0⟩
      (by decide)⟩

/-! ## Compact -/

theorem newRows_eq {cols : Int} (hc : 0 ≤ cols) (xs : List (List State)) :
    newRows cols xs = Res.ok (List.replicate xs.length (List.replicate cols.toNat Empty)) := by
  induction xs with
  | nil => simp [newRows]
  | cons x xs ih =>
    simp only [newRows, makeSlice, if_neg (not_lt.2 hc), Res.bind_ok, ih, List.length_cons,
      List.replicate_succ]

/-- NewGrid with non-negative dimensions returns the all-Empty grid of that size. -/
theorem NewGrid_eq {rows cols : Int} (hr : 0 ≤ rows) (hc : 0 ≤ cols) :
    NewGrid rows cols
      = Res.ok (List.replicate rows.toNat (List.replicate cols.toNat Empty)) := by
  simp only [NewGrid, makeSlice, if_neg (not_lt.2 hr), Res.bind_ok, newRows_eq hc,
    List.length_replicate]

/-- NewBoard with non-negative Go-representable dimensions returns the all-Empty board, which
satisfies the board invariant. -/
theorem NewBoard_WF {rows cols : Int} (hr : 0 ≤ rows) (hc : 0 ≤ cols) (hrr : InRange rows)
    (hcr : InRange cols) :
    NewBoard rows cols
        = Res.ok ⟨rows, cols, List.replicate rows.toNat (List.replicate cols.toNat Empty)⟩ ∧
      board.WF ⟨rows, cols, List.replicate rows.toNat (List.replicate cols.toNat Empty)⟩ := by
  refine ⟨by simp [NewBoard, NewGrid_eq hr hc], hrr, hcr, ?_, ?_⟩
  · simp only [List.length_replicate]
    omega
  · intro r hr2
    rw [(List.mem_replicate.1 hr2).2]
    simp only [List.length_replicate]
    omega

theorem copySlice_same_length {α : Type} (dst src : List α) (h : dst.length = src.length) :
    copySlice dst src = src := by
  unfold copySlice
  rw [h, List.take_length, ← h, List.drop_length, List.append_nil]

theorem set_replicate_append {α : Type} (m : Nat) (z r : α) (tail : List α) :
    (List.replicate (m + 1) z ++ tail).set m r = List.replicate m z ++ r :: tail := by
  induction m with
  | zero => simp
  | succ m ih =>
    rw [List.replicate_succ, List.cons_append, List.set_cons_succ, ih, List.replicate_succ,
      List.cons_append]

theorem getElem?_replicate_append {α : Type} (m : Nat) (z : α) (tail : List α) :
    (List.replicate (m + 1) z ++ tail)[m]? = some z := by
  rw [List.getElem?_append_left (by simp)]
  simp

/-- The loop of `Compact` started with `n` source rows left to scan, `k` full rows counted,
and the kept rows `tail` already copied below `n + k` Empty rows. -/
theorem compactLoop_spec (src : Grid) (C : Nat) (hsrc : ∀ r ∈ src, r.length = C) (n : Nat) :
    ∀ (k : Nat) (tail : Grid), n ≤ src.length →
      ((n + k : Nat) : Int) < 9223372036854775808 →
      compactLoop src n (List.replicate (n + k) (List.replicate C Empty) ++ tail)
          (((n + k : Nat) : Int) - 1) (k : Int)
        = Res.ok
            (List.replicate (k + (src.take n).countP fullRow) (List.replicate C Empty) ++
              ((src.take n).filter (fun r => !fullRow r) ++ tail),
             ((k + (src.take n).countP fullRow : Nat) : Int)) := by
  induction n with
  | zero =>
    intro k tail _ _
    simp [compactLoop]
  | succ n ih =>
    intro k tail hn hk
    have hlt : n < src.length := by omega
    have hr : src[n]? = some (src[n]) := List.getElem?_eq_getElem hlt
    have hrlen : (src[n]).length = C := hsrc _ (List.getElem_mem hlt)
    have htake : src.take (n + 1) = src.take n ++ [src[n]] := by
      rw [List.take_succ, hr]
      rfl
    have hidx : index src ((n : Nat) : Int) = Res.ok (src[n]) :=
      index_eq_ok (Int.ofNat_nonneg n) (by simp)
    simp only [compactLoop, hidx, Res.bind_ok]
    by_cases hfull : (src[n]).contains Empty = true
    · have hline : (((n + 1 + k : Nat) : Int) - 1) = ((n + k : Nat) : Int) := by
        push_cast
        omega
      have hgrid : List.replicate (n + 1 + k) (List.replicate C Empty) ++ tail
          = List.replicate (n + k + 1) (List.replicate C Empty) ++ tail := by
        rw [show n + 1 + k = n + k + 1 by omega]
      rw [if_pos hfull, hline, hgrid]
      rw [index_eq_ok (Int.ofNat_nonneg _)
        (by simpa using getElem?_replicate_append (n + k) (List.replicate C Empty) tail)]
      rw [Res.bind_ok, copySlice_same_length _ _ (by simp [hrlen])]
      rw [setIndex_eq_ok _ (Int.ofNat_nonneg _) (by simp; omega)]
      rw [Res.bind_ok]
      have hset := set_replicate_append (n + k) (List.replicate C Empty) (src[n]) tail
      simp only [Int.toNat_ofNat] at hset ⊢
      rw [hset]
      have hwrap : wrapInt (((n + k : Nat) : Int) - 1) = ((n + k : Nat) : Int) - 1 := by
        apply wrapInt_of_inRange
        unfold InRange
        omega
      have hnf : fullRow (src[n]) = false := by
        unfold fullRow
        rw [hfull]
        rfl
      have hcount : (src.take (n + 1)).countP fullRow = (src.take n).countP fullRow := by
        rw [htake, List.countP_append]
        simp [List.countP_cons, hnf]
      have hfilter : (src.take (n + 1)).filter (fun r => !fullRow r)
          = (src.take n).filter (fun r => !fullRow r) ++ [src[n]] := by
        rw [htake, List.filter_append]
        simp [List.filter_cons, hnf]
      rw [hwrap, ih k (src[n] :: tail) (by omega) (by omega), hcount, hfilter,
        List.append_assoc]
      rfl
    · have hfull2 : (src[n]).contains Empty = false := by simpa using hfull
      have hwrap : wrapInt ((k : Int) + 1) = ((k + 1 : Nat) : Int) := by
        rw [wrapInt_of_inRange]
        · push_cast
          rfl
        · unfold InRange
          omega
      have hline : (((n + 1 + k : Nat) : Int) - 1) = ((n + (k + 1) : Nat) : Int) - 1 := by
        push_cast
        omega
      have hgrid : List.replicate (n + 1 + k) (List.replicate C Empty) ++ tail
          = List.replicate (n + (k + 1)) (List.replicate C Empty) ++ tail := by
        rw [show n + 1 + k = n + (k + 1) by omega]
      have hnf : fullRow (src[n]) = true := by
        unfold fullRow
        rw [hfull2]
        rfl
      have hcount : (src.take (n + 1)).countP fullRow
          = (src.take n).countP fullRow + 1 := by
        rw [htake, List.countP_append]
        simp [List.countP_cons, hnf]
      have hfilter : (src.take (n + 1)).filter (fun r => !fullRow r)
          = (src.take n).filter (fun r => !fullRow r) := by
        rw [htake, List.filter_append]
        simp [List.filter_cons, hnf]
      rw [if_neg hfull, hwrap, hline, hgrid, ih (k + 1) tail (by omega) (by omega), hcount,
        hfilter]
      rw [show k + 1 + List.countP fullRow (List.take n src)
        = k + (List.countP fullRow (List.take n src) + 1) by omega]

/-- On a well-formed board `Compact` returns the number of full rows and a board whose grid is
that many Empty rows followed by the rows that were not full, in their order. -/
theorem board.Compact_eq {b : board} (hb : b.WF) :
    b.Compact = Res.ok
      (((b.grid.countP fullRow : Nat) : Int),
       { b with grid :=
          List.replicate (b.grid.countP fullRow) (List.replicate b.cols.toNat Gotris.Empty) ++
            b.grid.filter (fun r => !fullRow r) }) := by
  by_cases hnil : b.grid = []
  · obtain ⟨rows, cols, grid⟩ := b
    obtain ⟨_, _, h5, _⟩ := hb
    simp only at hnil h5
    subst hnil
    simp only [List.length_nil, Nat.cast_zero] at h5
    subst h5
    simp [board.Compact, NewGrid, makeSlice, newRows, compactLoop]
  obtain ⟨h3, h4, h5, h6⟩ := hb
  have h1 : 0 ≤ b.rows := by omega
  have h2 : 0 ≤ b.cols := by
    obtain ⟨r, hr⟩ := List.exists_mem_of_ne_nil _ hnil
    have := h6 r hr
    omega
  have hR : b.rows.toNat = b.grid.length := by omega
  have hsrc : ∀ r ∈ b.grid, r.length = b.cols.toNat := by
    intro r hr
    have := h6 r hr
    omega
  have hline : wrapInt (b.rows - 1) = ((b.grid.length + 0 : Nat) : Int) - 1 := by
    rw [wrapInt_of_inRange]
    · simp only [Nat.add_zero]
      omega
    · unfold InRange at h3 ⊢
      omega
  have hloop := compactLoop_spec b.grid b.cols.toNat hsrc b.grid.length 0 [] (le_refl _)
    (by unfold InRange at h3; simp only [Nat.add_zero]; omega)
  simp only [List.take_length, List.append_nil, Nat.zero_add, Nat.cast_zero] at hloop
  unfold board.Compact
  rw [NewGrid_eq h1 h2, Res.bind_ok, hR, hline]
  simp only [Nat.add_zero] at hloop ⊢
  rw [hloop, Res.bind_ok]

/-- C3: on every board with `R` rows, `Compact` returns the number `k` of rows that contain
no Empty cell; afterwards the board has the same dimensions, its top `k` rows are entirely
Empty and its bottom `R - k` rows are the previously non-full rows in their original order. -/
theorem board_Compact_spec (b : board) (hb : b.WF) :
    ∃ (k : Nat) (b2 : board), b.Compact = Res.ok ((k : Int), b2) ∧
      k = b.grid.countP (fun r => !(r.contains Empty)) ∧
      b2.rows = b.rows ∧ b2.cols = b.cols ∧ b2.WF ∧
      b2.grid.take k = List.replicate k (List.replicate b.cols.toNat Empty) ∧
      b2.grid.drop k = b.grid.filter (fun r => r.contains Empty) := by
  refine ⟨b.grid.countP fullRow, _, board.Compact_eq hb, rfl, rfl, rfl, ?_, ?_, ?_⟩
  · obtain ⟨h3, h4, h5, h6⟩ := hb
    refine ⟨h3, h4, ?_, ?_⟩
    · have hlen := List.length_eq_countP_add_countP fullRow b.grid
      have hf : (b.grid.filter (fun r => !fullRow r)).length
          = b.grid.countP (fun a => decide ¬fullRow a = true) := by
        rw [List.countP_eq_length_filter]
        congr 2
        funext r
        cases fullRow r <;> rfl
      simp only [List.length_append, List.length_replicate, hf]
      rw [← h5]
      push_cast
      omega
    · intro r hr
      simp only [List.mem_append, List.mem_replicate, List.mem_filter] at hr
      rcases hr with ⟨hne, rfl⟩ | ⟨hr, _⟩
      · obtain ⟨r, hr, _⟩ := List.countP_pos_iff.1 (Nat.pos_of_ne_zero hne)
        have := h6 r hr
        simp only [List.length_replicate]
        omega
      · exact h6 r hr
  · simp
  · simp only [List.drop_left', List.length_replicate]
    congr 1
    funext r
    simp [fullRow]

/-- Witness of C3, the scenario of the specification: a 4x4 board with only row 3 full is
compacted to the all-Empty board and 1 is returned; the same board is reached by stacking a
full row onto the new board. -/
theorem board_Compact_spec_witness :
    bottomFullBoard.WF ∧
    (∃ (k : Nat) (b2 : board), bottomFullBoard.Compact = Res.ok ((k : Int), b2) ∧
      k = bottomFullBoard.grid.countP (fun r => !(r.contains Empty)) ∧
      b2.rows = bottomFullBoard.rows ∧ b2.cols = bottomFullBoard.cols ∧ b2.WF ∧
      b2.grid.take k = List.replicate k (List.replicate bottomFullBoard.cols.toNat Empty) ∧
      b2.grid.drop k = bottomFullBoard.grid.filter (fun r => r.contains Empty)) ∧
    ((NewBoard 4 4).bind fun b0 => b0.Stack [[1, 1, 1, 1]] ⟨0, 3⟩) = Res.ok bottomFullBoard ∧
    bottomFullBoard.Compact = Res.ok (1,
      { rows := 4, cols := 4,
        grid := [[0, 0, 0, 0], [0, 0, 0, 0], [0, 0, 0, 0], [0, 0, 0, 0]] }) :=
  ⟨by decide, board_Compact_spec bottomFullBoard (by decide), by decide, by decide⟩

/-- C4: on every board in which every row contains at least one Empty cell, `Compact`
returns 0 and leaves the board exactly as it was. -/
theorem board_Compact_no_full_row (b : board) (hb : b.WF)
    (hrows : ∀ r ∈ b.grid, r.contains Empty = true) :
    b.Compact = Res.ok (0, b) := by
  have hcount : b.grid.countP fullRow = 0 := by
    rw [List.countP_eq_zero]
    intro r hr
    unfold fullRow
    rw [hrows r hr]
    simp
  have hfilter : b.grid.filter (fun r => !fullRow r) = b.grid := by
    rw [List.filter_eq_self]
    intro r hr
    unfold fullRow
    rw [hrows r hr]
    rfl
  rw [board.Compact_eq hb, hcount, hfilter]
  simp

/-- Witness of C4 on the sample board, whose bottom row is only half occupied. -/
theorem board_Compact_no_full_row_witness :
    sampleBoard.WF ∧ (∀ r ∈ sampleBoard.grid, r.contains Empty = true) ∧
    sampleBoard.Compact = Res.ok (0, sampleBoard) :=
  ⟨by decide, by decide, board_Compact_no_full_row sampleBoard (by decide) (by decide)⟩

/-! ## Controls: Move -/

/-- On a well-formed board `Move fn` returns the verdict of `Test` at the moved location,
commits that location exactly when the verdict is true, and hands the board back as it was. -/
theorem Move_eq {b : board} (hb : b.WF) (fn : Direction) (p : Piece) :
    Move fn b p = Res.ok
      ((gridCells 0 p.Grid).all (b.fits (fn p.Location)), b,
        if (gridCells 0 p.Grid).all (b.fits (fn p.Location)) = true
        then { p with Location := fn p.Location } else p) := by
  unfold Move
  simp only [board.Test_eq hb, Res.bind_ok]
  cases (gridCells 0 p.Grid).all (b.fits (fn p.Location)) <;> simp

/-- C5: on every board, for every piece and direction `d`, `Move d` returns true if and only
if `Test` of the piece's grid at `d` of its location is true; on true the location becomes
`d` of the location and the grid is unchanged, on false the piece is unchanged; the board is
never modified. `Left`, `Right`, `Down` and `Up` shift one coordinate by one cell. -/
theorem Move_spec (b : board) (hb : b.WF) (p : Piece) (d : Direction) :
    (∃ ok, b.Test p.Grid (d p.Location) = Res.ok (ok, b) ∧
      Move d b p = Res.ok (ok, b, if ok = true then { p with Location := d p.Location } else p) ∧
      (ok = true → ({ p with Location := d p.Location } : Piece).Grid = p.Grid)) ∧
    (∀ l : Location, InRange (l.X - 1) → Left l = { X := l.X - 1, Y := l.Y }) ∧
    (∀ l : Location, InRange (l.X + 1) → Right l = { X := l.X + 1, Y := l.Y }) ∧
    (∀ l : Location, InRange (l.Y + 1) → Down l = { X := l.X, Y := l.Y + 1 }) ∧
    (∀ l : Location, InRange (l.Y - 1) → Up l = { X := l.X, Y := l.Y - 1 }) := by
  refine ⟨⟨_, board.Test_eq hb p.Grid (d p.Location), Move_eq hb d p, fun _ => rfl⟩,
    ?_, ?_, ?_, ?_⟩
  · intro l h
    simp [Left, wrapInt_of_inRange h]
  · intro l h
    simp [Right, wrapInt_of_inRange h]
  · intro l h
    simp [Down, wrapInt_of_inRange h]
  · intro l h
    simp [Up, wrapInt_of_inRange h]

/-- Witness of C5: the bar on the sample board moves right once and is then blocked by the
wall; it cannot move up out of the board, and at row 1 it cannot move down onto the
occupied cell below it. -/
theorem Move_spec_witness :
    sampleBoard.WF ∧
    ((∃ ok, sampleBoard.Test barPiece.Grid (Right barPiece.Location)
          = Res.ok (ok, sampleBoard) ∧
        Move Right sampleBoard barPiece = Res.ok (ok, sampleBoard,
          if ok = true then { barPiece with Location := Right barPiece.Location }
          else barPiece) ∧
        (ok = true →
          ({ barPiece with Location := Right barPiece.Location } : Piece).Grid
            = barPiece.Grid)) ∧
      (∀ l : Location, InRange (l.X - 1) → Left l = { X := l.X - 1, Y := l.Y }) ∧
      (∀ l : Location, InRange (l.X + 1) → Right l = { X := l.X + 1, Y := l.Y }) ∧
      (∀ l : Location, InRange (l.Y + 1) → Down l = { X := l.X, Y := l.Y + 1 }) ∧
      (∀ l : Location, InRange (l.Y - 1) → Up l = { X := l.X, Y := l.Y - 1 })) ∧
    Move Right sampleBoard barPiece
      = Res.ok (true, sampleBoard, { barPiece with Location := { X := 1, Y := 0 } }) ∧
    Move Left sampleBoard barPiece
      = Res.ok (true, sampleBoard, { barPiece with Location := { X := -1, Y := 0 } }) ∧
    Move Up sampleBoard barPiece = Res.ok (false, sampleBoard, barPiece) ∧
    Move Down sampleBoard { barPiece with Location := { X := 0, Y := 1 } }
      = Res.ok (false, sampleBoard, { barPiece with Location := { X := 0, Y := 1 } }) :=
  ⟨by decide, Move_spec sampleBoard (by decide) barPiece Right, by decide, by decide,
    by decide, by decide⟩

/-! ## Grids: writing cells in a `Walk` -/

theorem Grid.setAt_spec {g : Grid} {R C : Nat} (hg : Grid.HasDims g R C) {row col : Int}
    (s : State) (hr0 : 0 ≤ row) (hr1 : row.toNat < R) (hc0 : 0 ≤ col) (hc1 : col.toNat < C) :
    ∃ g2, Grid.setAt g row col s = Res.ok g2 ∧ Grid.HasDims g2 R C ∧
      ∀ i j, Grid.cell g2 i j
        = if i = row.toNat ∧ j = col.toNat then some s else Grid.cell g i j := by
  obtain ⟨hlen, hrows⟩ := hg
  have hlt : row.toNat < g.length := by omega
  have hr : g[row.toNat]? = some (g[row.toNat]) := List.getElem?_eq_getElem hlt
  have hrl : (g[row.toNat]).length = C := hrows _ (List.getElem_mem hlt)
  refine ⟨_, Grid.setAt_eq_ok s hr0 hr hc0 (by omega), ⟨by simpa using hlen, ?_⟩, ?_⟩
  · intro r2 hr2
    rcases List.mem_or_eq_of_mem_set hr2 with h | h
    · exact hrows r2 h
    · subst h
      simpa using hrl
  · intro i j
    exact Grid.cell_set hr (by omega) s i j

/-- A `Walk` whose callback writes each visited cell's value at a position inside the result
grid, different cells at different positions: it does not fault, keeps the dimensions, leaves
every visited value at its position and every other position as it was. -/
theorem foldRes_setAt {α : Type} (pos : α → Int × Int) (val : α → State) (R C : Nat)
    (cs : List α) :
    ∀ g : Grid, Grid.HasDims g R C →
      (∀ c ∈ cs, 0 ≤ (pos c).1 ∧ (pos c).1.toNat < R ∧ 0 ≤ (pos c).2 ∧ (pos c).2.toNat < C) →
      cs.Pairwise (fun c d => pos c ≠ pos d) →
      ∃ g2, foldRes (fun c acc => Grid.setAt acc (pos c).1 (pos c).2 (val c)) cs g = Res.ok g2 ∧
        Grid.HasDims g2 R C ∧
        (∀ c ∈ cs, Grid.cell g2 (pos c).1.toNat (pos c).2.toNat = some (val c)) ∧
        (∀ i j, (∀ c ∈ cs, ¬ ((pos c).1.toNat = i ∧ (pos c).2.toNat = j)) →
          Grid.cell g2 i j = Grid.cell g i j) := by
  induction cs with
  | nil =>
    intro g hg _ _
    exact ⟨g, rfl, hg, by simp, by simp⟩
  | cons c cs ih =>
    intro g hg hin hpw
    obtain ⟨hpc, hpcs⟩ := List.pairwise_cons.1 hpw
    obtain ⟨h0, h1, h2, h3⟩ := hin c (List.mem_cons_self _ _)
    obtain ⟨g1, hset, hdims1, hcell1⟩ := Grid.setAt_spec hg (val c) h0 h1 h2 h3
    obtain ⟨g2, hfold, hdims2, hvis, hrest⟩ :=
      ih g1 hdims1 (fun d hd => hin d (List.mem_cons_of_mem _ hd)) hpcs
    have hdiff : ∀ d ∈ cs, ¬ ((pos d).1.toNat = (pos c).1.toNat ∧
        (pos d).2.toNat = (pos c).2.toNat) := by
      intro d hd hcon
      obtain ⟨d0, _, d2, _⟩ := hin d (List.mem_cons_of_mem _ hd)
      apply hpc d hd
      apply Prod.ext <;> omega
    refine ⟨g2, ?_, hdims2, ?_, ?_⟩
    · simp only [foldRes, hset, Res.bind_ok]
      exact hfold
    · intro d hd
      rcases List.mem_cons.1 hd with rfl | hd
      · rw [hrest _ _ hdiff, hcell1]
        simp
      · exact hvis d hd
    · intro i j hij
      rw [hrest i j (fun d hd => hij d (List.mem_cons_of_mem _ hd)), hcell1,
        if_neg (fun h => hij c (List.mem_cons_self _ _) ⟨h.1.symm, h.2.symm⟩)]

theorem Grid.cell_eq_none_of_dims {g : Grid} {R C : Nat} (hg : Grid.HasDims g R C)
    {i j : Nat} (h : R ≤ i ∨ C ≤ j) : Grid.cell g i j = none := by
  unfold Grid.cell
  cases hr : g[i]? with
  | none => rfl
  | some r =>
    obtain ⟨h1, h2⟩ := List.getElem?_eq_some.1 hr
    have hrl : r.length = C := hg.2 r (h2 ▸ List.getElem_mem h1)
    have hi : i < R := hg.1 ▸ h1
    simp only [Option.some_bind]
    exact List.getElem?_eq_none (by omega)

theorem Grid.cell_isSome_of_dims {g : Grid} {R C : Nat} (hg : Grid.HasDims g R C)
    {i j : Nat} (hi : i < R) (hj : j < C) : ∃ s, Grid.cell g i j = some s := by
  have hlt : i < g.length := hg.1 ▸ hi
  have hrl : (g[i]).length = C := hg.2 _ (List.getElem_mem hlt)
  have hj2 : j < (g[i]).length := by omega
  refine ⟨(g[i])[j], ?_⟩
  unfold Grid.cell
  rw [List.getElem?_eq_getElem hlt, Option.some_bind, List.getElem?_eq_getElem hj2]

/-- Two grids of the same dimensions with the same cells are equal. -/
theorem Grid.ext_cell {g g2 : Grid} {R C : Nat} (hg : Grid.HasDims g R C)
    (hg2 : Grid.HasDims g2 R C) (h : ∀ i j, Grid.cell g2 i j = Grid.cell g i j) : g2 = g := by
  apply List.ext_getElem?
  intro i
  by_cases hi : i < R
  · have h1 : i < g.length := hg.1 ▸ hi
    have h2 : i < g2.length := hg2.1 ▸ hi
    rw [List.getElem?_eq_getElem h1, List.getElem?_eq_getElem h2]
    congr 1
    apply List.ext_getElem?
    intro j
    have := h i j
    unfold Grid.cell at this
    rw [List.getElem?_eq_getElem h1, List.getElem?_eq_getElem h2] at this
    simpa using this
  · have h1 := hg.1
    have h2 := hg2.1
    rw [List.getElem?_eq_none (by omega), List.getElem?_eq_none (by omega)]

theorem NewGrid_hasDims (R C : Nat) :
    NewGrid (R : Int) (C : Int) = Res.ok (List.replicate R (List.replicate C Empty)) ∧
      Grid.HasDims (List.replicate R (List.replicate C Empty)) R C := by
  refine ⟨?_, ?_, ?_⟩
  · rw [NewGrid_eq (Int.ofNat_nonneg _) (Int.ofNat_nonneg _)]
    simp
  · simp
  · intro r hr
    rw [(List.mem_replicate.1 hr).2]
    simp

theorem Grid.Rect.hasDims {r0 : List State} {rest : Grid} (h : Grid.Rect (r0 :: rest)) :
    Grid.HasDims (r0 :: rest) (rest.length + 1) r0.length :=
  ⟨rfl, fun r hr => by simpa using h r hr⟩

theorem Grid.cell_replicate {R C i j : Nat} (hi : i < R) (hj : j < C) :
    Grid.cell (List.replicate R (List.replicate C Empty)) i j = some Empty := by
  unfold Grid.cell
  rw [List.getElem?_eq_getElem (by simpa using hi)]
  simp only [List.getElem_replicate, Option.some_bind]
  rw [List.getElem?_eq_getElem (by simpa using hj)]
  simp

theorem Grid.Rect.bounded {g : Grid} (h : Grid.Rect g) : Grid.Bounded g :=
  fun r hr => le_of_eq (h r hr)

theorem gridCells_bounds_of_bounded {r0 : List State} {rest : Grid}
    (hg : Grid.Bounded (r0 :: rest)) {c : Nat × Nat × State}
    (hc : c ∈ gridCells 0 (r0 :: rest)) :
    c.1 < rest.length + 1 ∧ c.2.1 < r0.length := by
  obtain ⟨i, j, s⟩ := c
  obtain ⟨h1, r, hr, h2⟩ := Grid.cell_bounds (mem_gridCells_zero.1 hc)
  have h3 : r.length ≤ r0.length := by simpa using hg r hr
  simp only [List.length_cons] at h1
  exact ⟨h1, show j < r0.length by omega⟩

/-- A grid with a row longer than the first has a cell in a column the first row lacks. -/
theorem Grid.exists_long_cell {r0 : List State} {rest : Grid}
    (h : ¬ Grid.Bounded (r0 :: rest)) :
    ∃ c ∈ gridCells 0 (r0 :: rest), c.1 < rest.length + 1 ∧ c.2.1 = r0.length := by
  unfold Grid.Bounded at h
  push_neg at h
  obtain ⟨r, hr, hlen⟩ := h
  simp only [List.headD_cons] at hlen
  obtain ⟨i, hi, hri⟩ := List.getElem_of_mem hr
  refine ⟨(i, r0.length, r[r0.length]), mem_gridCells_zero.2 ?_, by simpa using hi, rfl⟩
  unfold Grid.cell
  rw [List.getElem?_eq_getElem hi, hri, Option.some_bind, List.getElem?_eq_getElem hlen]

/-- The assignment `g[row][col] = state` faults when the position is outside the grid. -/
theorem Grid.setAt_crash {g : Grid} {R C : Nat} (hg : Grid.HasDims g R C) {row col : Int}
    (s : State) (h : ¬ (0 ≤ row ∧ row.toNat < R ∧ 0 ≤ col ∧ col.toNat < C)) :
    Grid.setAt g row col s = Res.crash := by
  unfold Grid.setAt index
  by_cases hrow : row < 0
  · rw [if_pos hrow]
    rfl
  · rw [if_neg hrow]
    cases hr : g[row.toNat]? with
    | none => rfl
    | some r =>
      obtain ⟨h1, h2⟩ := List.getElem?_eq_some.1 hr
      have hrl : r.length = C := hg.2 r (h2 ▸ List.getElem_mem h1)
      have hi : row.toNat < R := hg.1 ▸ h1
      simp only [Res.bind_ok]
      unfold setIndex
      by_cases hcol : col < 0
      · rw [if_pos hcol]
        rfl
      · rw [if_neg hcol, if_neg (by omega)]
        rfl

/-- A `Walk` whose callback writes each visited cell at a position faults as soon as one of
the positions is outside the result grid. -/
theorem foldRes_setAt_crash {α : Type} (pos : α → Int × Int) (val : α → State) (R C : Nat)
    (cs : List α) :
    ∀ g : Grid, Grid.HasDims g R C →
      (∃ c ∈ cs, ¬ (0 ≤ (pos c).1 ∧ (pos c).1.toNat < R ∧
        0 ≤ (pos c).2 ∧ (pos c).2.toNat < C)) →
      foldRes (fun c acc => Grid.setAt acc (pos c).1 (pos c).2 (val c)) cs g = Res.crash := by
  induction cs with
  | nil =>
    rintro g _ ⟨c, hc, _⟩
    exact absurd hc (List.not_mem_nil c)
  | cons c cs ih =>
    rintro g hg ⟨d, hd, hbad⟩
    by_cases hin : 0 ≤ (pos c).1 ∧ (pos c).1.toNat < R ∧ 0 ≤ (pos c).2 ∧ (pos c).2.toNat < C
    · obtain ⟨g1, hset, hdims1, _⟩ := Grid.setAt_spec hg (val c) hin.1 hin.2.1 hin.2.2.1
        hin.2.2.2
      simp only [foldRes, hset, Res.bind_ok]
      apply ih g1 hdims1
      rcases List.mem_cons.1 hd with rfl | hd
      · exact absurd hin hbad
      · exact ⟨d, hd, hbad⟩
    · simp only [foldRes, Grid.setAt_crash hg (val c) hin]
      rfl

/-- Clone of a grid with no row longer than the first does not fault: it returns a grid with
the rows of the receiver, each filled up with Empty cells to the length of the first row. -/
theorem Grid.Clone_bounded {g : Grid} (hg : Grid.Bounded g) :
    ∃ g2, Grid.Clone g = Res.ok g2 ∧ Grid.HasDims g2 g.length (g.headD []).length ∧
      (∀ i j s, Grid.cell g i j = some s → Grid.cell g2 i j = some s) ∧
      (∀ i j s, Grid.cell g2 i j = some s → Grid.cell g i j = none → s = Empty) := by
  cases g with
  | nil => exact ⟨[], by simp [Grid.Clone, Grid.Zero, Grid.Walk, walkRows], ⟨rfl, by simp⟩,
      fun _ _ _ h => h, by simp [Grid.cell]⟩
  | cons r0 rest =>
    obtain ⟨hnew, hzero⟩ := NewGrid_hasDims (rest.length + 1) r0.length
    have hin : ∀ c ∈ gridCells 0 (r0 :: rest),
        0 ≤ ((c.1 : Int), (c.2.1 : Int)).1 ∧ ((c.1 : Int), (c.2.1 : Int)).1.toNat < rest.length + 1 ∧
          0 ≤ ((c.1 : Int), (c.2.1 : Int)).2 ∧ ((c.1 : Int), (c.2.1 : Int)).2.toNat < r0.length := by
      intro c hc
      obtain ⟨h1, h2⟩ := gridCells_bounds_of_bounded hg hc
      simp only [Int.toNat_ofNat]
      omega
    have hpw : (gridCells 0 (r0 :: rest)).Pairwise
        (fun c d => ((c.1 : Int), (c.2.1 : Int)) ≠ ((d.1 : Int), (d.2.1 : Int))) := by
      refine List.Pairwise.imp ?_ (gridCells_pairwise 0 (r0 :: rest))
      intro c d hne h
      apply hne
      simp only [Prod.mk.injEq, Nat.cast_inj] at h ⊢
      exact h
    obtain ⟨g2, hfold, hdims2, hvis, hrest⟩ :=
      foldRes_setAt (fun c : Nat × Nat × State => ((c.1 : Int), (c.2.1 : Int)))
        (fun c => c.2.2) (rest.length + 1) r0.length (gridCells 0 (r0 :: rest)) _ hzero hin hpw
    refine ⟨g2, ?_, by simpa using hdims2, ?_, ?_⟩
    · unfold Grid.Clone Grid.Zero
      simp only [List.length_cons]
      rw [hnew, Res.bind_ok, Walk_eq_foldRes]
      exact hfold
    · intro i j s hs
      have := hvis (i, j, s) (mem_gridCells_zero.2 hs)
      simpa using this
    · intro i j s hs hnone
      have hkeep : Grid.cell g2 i j
          = Grid.cell (List.replicate (rest.length + 1) (List.replicate r0.length Empty)) i j := by
        apply hrest
        rintro ⟨row, col, t⟩ hc hcon
        simp only [Int.toNat_ofNat] at hcon
        rw [← hcon.1, ← hcon.2, mem_gridCells_zero.1 hc] at hnone
        exact absurd hnone (by simp)
      have hij : i < rest.length + 1 ∧ j < r0.length := by
        by_contra hcon
        have hor : rest.length + 1 ≤ i ∨ r0.length ≤ j := by omega
        rw [Grid.cell_eq_none_of_dims hdims2 hor] at hs
        exact absurd hs (by simp)
      rw [hkeep, Grid.cell_replicate hij.1 hij.2] at hs
      exact (Option.some.inj hs).symm

/-- Clone of a grid with a row longer than the first faults: the copy is sized by the first
row and the write of the first cell beyond it is out of range. -/
theorem Grid.Clone_crash {g : Grid} (hg : ¬ Grid.Bounded g) : Grid.Clone g = Res.crash := by
  cases g with
  | nil => exact absurd (fun r hr => absurd hr (List.not_mem_nil r)) hg
  | cons r0 rest =>
    obtain ⟨hnew, hzero⟩ := NewGrid_hasDims (rest.length + 1) r0.length
    obtain ⟨c, hc, _, hcol⟩ := Grid.exists_long_cell hg
    unfold Grid.Clone Grid.Zero
    simp only [List.length_cons]
    rw [hnew, Res.bind_ok, Walk_eq_foldRes]
    exact foldRes_setAt_crash (fun c : Nat × Nat × State => ((c.1 : Int), (c.2.1 : Int)))
      (fun c => c.2.2) (rest.length + 1) r0.length (gridCells 0 (r0 :: rest)) _ hzero
      ⟨c, hc, by simp only [Int.toNat_ofNat]; omega⟩

/-- Clone of a rectangular grid does not fault and returns an equal grid. -/
theorem Grid.Clone_eq {g : Grid} (hg : Grid.Rect g) : Grid.Clone g = Res.ok g := by
  cases g with
  | nil => simp [Grid.Clone, Grid.Zero, Grid.Walk, walkRows]
  | cons r0 rest =>
    have hd := Grid.Rect.hasDims hg
    obtain ⟨hnew, hzero⟩ := NewGrid_hasDims (rest.length + 1) r0.length
    have hin : ∀ c ∈ gridCells 0 (r0 :: rest),
        0 ≤ ((c.1 : Int), (c.2.1 : Int)).1 ∧ ((c.1 : Int), (c.2.1 : Int)).1.toNat < rest.length + 1 ∧
          0 ≤ ((c.1 : Int), (c.2.1 : Int)).2 ∧ ((c.1 : Int), (c.2.1 : Int)).2.toNat < r0.length := by
      rintro ⟨i, j, s⟩ hc
      obtain ⟨h1, r, hr, h2⟩ := Grid.cell_bounds (mem_gridCells_zero.1 hc)
      have := hd.2 r hr
      simp only [List.length_cons] at h1
      simp only [Int.toNat_ofNat]
      omega
    have hpw : (gridCells 0 (r0 :: rest)).Pairwise
        (fun c d => ((c.1 : Int), (c.2.1 : Int)) ≠ ((d.1 : Int), (d.2.1 : Int))) := by
      refine List.Pairwise.imp ?_ (gridCells_pairwise 0 (r0 :: rest))
      intro c d hne h
      apply hne
      simp only [Prod.mk.injEq, Nat.cast_inj] at h ⊢
      exact h
    obtain ⟨g2, hfold, hdims2, hvis, _⟩ :=
      foldRes_setAt (fun c : Nat × Nat × State => ((c.1 : Int), (c.2.1 : Int)))
        (fun c => c.2.2) (rest.length + 1) r0.length (gridCells 0 (r0 :: rest)) _ hzero hin hpw
    have hcells : ∀ i j, Grid.cell g2 i j = Grid.cell (r0 :: rest) i j := by
      intro i j
      by_cases hij : i < rest.length + 1 ∧ j < r0.length
      · obtain ⟨s, hs⟩ := Grid.cell_isSome_of_dims hd hij.1 hij.2
        have := hvis (i, j, s) (mem_gridCells_zero.2 hs)
        simp only [Int.toNat_ofNat] at this
        rw [this, hs]
      · have hor : rest.length + 1 ≤ i ∨ r0.length ≤ j := by omega
        rw [Grid.cell_eq_none_of_dims hdims2 hor, Grid.cell_eq_none_of_dims hd hor]
    have heq := Grid.ext_cell hd hdims2 hcells
    unfold Grid.Clone Grid.Zero
    simp only [List.length_cons]
    rw [hnew, Res.bind_ok, Walk_eq_foldRes]
    rw [heq] at hfold
    exact hfold

/-! ## Rotations -/

theorem wrapInt_flip {n i : Nat} (hn : (n : Int) < 9223372036854775808) (hi : i < n) :
    wrapInt (wrapInt ((n : Int) - 1) - (i : Int)) = ((n - 1 - i : Nat) : Int) := by
  unfold wrapInt
  omega

theorem gridCells_bounds {r0 : List State} {rest : Grid} (hg : Grid.Rect (r0 :: rest))
    {c : Nat × Nat × State} (hc : c ∈ gridCells 0 (r0 :: rest)) :
    c.1 < rest.length + 1 ∧ c.2.1 < r0.length := by
  obtain ⟨i, j, s⟩ := c
  obtain ⟨h1, r, hr, h2⟩ := Grid.cell_bounds (mem_gridCells_zero.1 hc)
  have := (Grid.Rect.hasDims hg).2 r hr
  simp only [List.length_cons] at h1
  exact ⟨h1, show j < r0.length by omega⟩

/-- RotateRight of a grid with `R` rows, the first of `C` cells and none longer, does not
fault and returns a grid with `C` rows of `R` cells in which `out[col][R-1-row] = in[row][col]`
for every cell of the receiver. -/
theorem RotateRight_bounded {g : Grid} (hg : Grid.Bounded g) (hs : Grid.Sized g) :
    ∃ g2, RotateRight g = Res.ok g2 ∧ Grid.HasDims g2 (g.headD []).length g.length ∧
      ∀ row col s, Grid.cell g row col = some s →
        Grid.cell g2 col (g.length - 1 - row) = some s := by
  cases g with
  | nil => exact ⟨[], rfl, ⟨rfl, by simp⟩, by simp [Grid.cell]⟩
  | cons r0 rest =>
    have hR : (((rest.length + 1 : Nat)) : Int) < 9223372036854775808 := by
      have := hs.1
      simpa using this
    obtain ⟨hnew, hzero⟩ := NewGrid_hasDims r0.length (rest.length + 1)
    have hin : ∀ c ∈ gridCells 0 (r0 :: rest),
        0 ≤ ((c.2.1 : Int), wrapInt (wrapInt (((rest.length + 1 : Nat) : Int) - 1) - (c.1 : Int))).1 ∧
        ((c.2.1 : Int), wrapInt (wrapInt (((rest.length + 1 : Nat) : Int) - 1) - (c.1 : Int))).1.toNat
          < r0.length ∧
        0 ≤ ((c.2.1 : Int), wrapInt (wrapInt (((rest.length + 1 : Nat) : Int) - 1) - (c.1 : Int))).2 ∧
        ((c.2.1 : Int), wrapInt (wrapInt (((rest.length + 1 : Nat) : Int) - 1) - (c.1 : Int))).2.toNat
          < rest.length + 1 := by
      intro c hc
      obtain ⟨h1, h2⟩ := gridCells_bounds_of_bounded hg hc
      simp only [wrapInt_flip hR h1, Int.toNat_ofNat]
      omega
    have hpw : (gridCells 0 (r0 :: rest)).Pairwise (fun c d =>
        ((c.2.1 : Int), wrapInt (wrapInt (((rest.length + 1 : Nat) : Int) - 1) - (c.1 : Int)))
          ≠ ((d.2.1 : Int),
              wrapInt (wrapInt (((rest.length + 1 : Nat) : Int) - 1) - (d.1 : Int)))) := by
      refine List.Pairwise.imp_of_mem ?_ (gridCells_pairwise 0 (r0 :: rest))
      intro c d hc hd hne h
      obtain ⟨h1, _⟩ := gridCells_bounds_of_bounded hg hc
      obtain ⟨h2, _⟩ := gridCells_bounds_of_bounded hg hd
      simp only [wrapInt_flip hR h1, wrapInt_flip hR h2, Prod.mk.injEq, Nat.cast_inj] at h
      apply hne
      simp only [Prod.mk.injEq]
      omega
    obtain ⟨g2, hfold, hdims2, hvis, _⟩ :=
      foldRes_setAt (fun c : Nat × Nat × State =>
          ((c.2.1 : Int), wrapInt (wrapInt (((rest.length + 1 : Nat) : Int) - 1) - (c.1 : Int))))
        (fun c => c.2.2) r0.length (rest.length + 1) (gridCells 0 (r0 :: rest)) _ hzero hin hpw
    refine ⟨g2, ?_, by simpa using hdims2, ?_⟩
    · simp only [RotateRight, Grid.Size, List.length_cons]
      rw [hnew, Res.bind_ok, Walk_eq_foldRes]
      exact hfold
    · intro row col s hcell
      have hmem := mem_gridCells_zero.2 hcell
      obtain ⟨h1, _⟩ := gridCells_bounds_of_bounded hg hmem
      have := hvis (row, col, s) hmem
      simp only [wrapInt_flip hR h1, Int.toNat_ofNat] at this
      simpa using this

/-- RotateLeft of a grid with `R` rows, the first of `C` cells and none longer, does not
fault and returns a grid with `C` rows of `R` cells in which `out[C-1-col][row] = in[row][col]`
for every cell of the receiver. -/
theorem RotateLeft_bounded {g : Grid} (hg : Grid.Bounded g) (hs : Grid.Sized g) :
    ∃ g2, RotateLeft g = Res.ok g2 ∧ Grid.HasDims g2 (g.headD []).length g.length ∧
      ∀ row col s, Grid.cell g row col = some s →
        Grid.cell g2 ((g.headD []).length - 1 - col) row = some s := by
  cases g with
  | nil => exact ⟨[], rfl, ⟨rfl, by simp⟩, by simp [Grid.cell]⟩
  | cons r0 rest =>
    have hC : ((r0.length : Nat) : Int) < 9223372036854775808 :=
      hs.2 r0 (List.mem_cons_self _ _)
    obtain ⟨hnew, hzero⟩ := NewGrid_hasDims r0.length (rest.length + 1)
    have hin : ∀ c ∈ gridCells 0 (r0 :: rest),
        0 ≤ (wrapInt (wrapInt ((r0.length : Int) - 1) - (c.2.1 : Int)), (c.1 : Int)).1 ∧
        (wrapInt (wrapInt ((r0.length : Int) - 1) - (c.2.1 : Int)), (c.1 : Int)).1.toNat
          < r0.length ∧
        0 ≤ (wrapInt (wrapInt ((r0.length : Int) - 1) - (c.2.1 : Int)), (c.1 : Int)).2 ∧
        (wrapInt (wrapInt ((r0.length : Int) - 1) - (c.2.1 : Int)), (c.1 : Int)).2.toNat
          < rest.length + 1 := by
      intro c hc
      obtain ⟨h1, h2⟩ := gridCells_bounds_of_bounded hg hc
      simp only [wrapInt_flip hC h2, Int.toNat_ofNat]
      omega
    have hpw : (gridCells 0 (r0 :: rest)).Pairwise (fun c d =>
        (wrapInt (wrapInt ((r0.length : Int) - 1) - (c.2.1 : Int)), (c.1 : Int))
          ≠ (wrapInt (wrapInt ((r0.length : Int) - 1) - (d.2.1 : Int)), (d.1 : Int))) := by
      refine List.Pairwise.imp_of_mem ?_ (gridCells_pairwise 0 (r0 :: rest))
      intro c d hc hd hne h
      obtain ⟨_, h1⟩ := gridCells_bounds_of_bounded hg hc
      obtain ⟨_, h2⟩ := gridCells_bounds_of_bounded hg hd
      simp only [wrapInt_flip hC h1, wrapInt_flip hC h2, Prod.mk.injEq, Nat.cast_inj] at h
      apply hne
      simp only [Prod.mk.injEq]
      omega
    obtain ⟨g2, hfold, hdims2, hvis, _⟩ :=
      foldRes_setAt (fun c : Nat × Nat × State =>
          (wrapInt (wrapInt ((r0.length : Int) - 1) - (c.2.1 : Int)), (c.1 : Int)))
        (fun c => c.2.2) r0.length (rest.length + 1) (gridCells 0 (r0 :: rest)) _ hzero hin hpw
    refine ⟨g2, ?_, by simpa using hdims2, ?_⟩
    · simp only [RotateLeft, Grid.Size, List.length_cons]
      rw [hnew, Res.bind_ok, Walk_eq_foldRes]
      exact hfold
    · intro row col s hcell
      have hmem := mem_gridCells_zero.2 hcell
      obtain ⟨_, h2⟩ := gridCells_bounds_of_bounded hg hmem
      have := hvis (row, col, s) hmem
      simp only [wrapInt_flip hC h2, Int.toNat_ofNat] at this
      simpa using this

/-- RotateRight of a rectangular grid with `R` rows of `C` cells does not fault and returns a
grid with `C` rows of `R` cells in which `out[col][R-1-row] = in[row][col]`. -/
theorem RotateRight_spec {g : Grid} (hg : Grid.Rect g) (hs : Grid.Sized g) :
    ∃ g2, RotateRight g = Res.ok g2 ∧ Grid.HasDims g2 (g.headD []).length g.length ∧
      ∀ row col s, Grid.cell g row col = some s →
        Grid.cell g2 col (g.length - 1 - row) = some s :=
  RotateRight_bounded (Grid.Rect.bounded hg) hs

/-- RotateLeft of a rectangular grid with `R` rows of `C` cells does not fault and returns a
grid with `C` rows of `R` cells in which `out[C-1-col][row] = in[row][col]`. -/
theorem RotateLeft_spec {g : Grid} (hg : Grid.Rect g) (hs : Grid.Sized g) :
    ∃ g2, RotateLeft g = Res.ok g2 ∧ Grid.HasDims g2 (g.headD []).length g.length ∧
      ∀ row col s, Grid.cell g row col = some s →
        Grid.cell g2 ((g.headD []).length - 1 - col) row = some s :=
  RotateLeft_bounded (Grid.Rect.bounded hg) hs

/-- RotateRight of a grid with a row longer than the first faults: the result has as many
rows as the first row has cells, and the write `result[col]` of the first cell beyond that is
out of range. -/
theorem RotateRight_crash {g : Grid} (hg : ¬ Grid.Bounded g) : RotateRight g = Res.crash := by
  cases g with
  | nil => exact absurd (fun r hr => absurd hr (List.not_mem_nil r)) hg
  | cons r0 rest =>
    obtain ⟨hnew, hzero⟩ := NewGrid_hasDims r0.length (rest.length + 1)
    obtain ⟨c, hc, _, hcol⟩ := Grid.exists_long_cell hg
    simp only [RotateRight, Grid.Size, List.length_cons]
    rw [hnew, Res.bind_ok, Walk_eq_foldRes]
    exact foldRes_setAt_crash (fun c : Nat × Nat × State =>
        ((c.2.1 : Int), wrapInt (wrapInt (((rest.length + 1 : Nat) : Int) - 1) - (c.1 : Int))))
      (fun c => c.2.2) r0.length (rest.length + 1) (gridCells 0 (r0 :: rest)) _ hzero
      ⟨c, hc, by simp only [Int.toNat_ofNat]; omega⟩

/-- RotateLeft of a grid with a row longer than the first faults: the row index
`cols-1-col` of the first cell beyond the first row's length is negative. -/
theorem RotateLeft_crash {g : Grid} (hg : ¬ Grid.Bounded g) (hs : Grid.Sized g) :
    RotateLeft g = Res.crash := by
  cases g with
  | nil => exact absurd (fun r hr => absurd hr (List.not_mem_nil r)) hg
  | cons r0 rest =>
    have hC : ((r0.length : Nat) : Int) < 9223372036854775808 :=
      hs.2 r0 (List.mem_cons_self _ _)
    obtain ⟨hnew, hzero⟩ := NewGrid_hasDims r0.length (rest.length + 1)
    obtain ⟨c, hc, _, hcol⟩ := Grid.exists_long_cell hg
    simp only [RotateLeft, Grid.Size, List.length_cons]
    rw [hnew, Res.bind_ok, Walk_eq_foldRes]
    refine foldRes_setAt_crash (fun c : Nat × Nat × State =>
        (wrapInt (wrapInt ((r0.length : Int) - 1) - (c.2.1 : Int)), (c.1 : Int)))
      (fun c => c.2.2) r0.length (rest.length + 1) (gridCells 0 (r0 :: rest)) _ hzero
      ⟨c, hc, ?_⟩
    have hneg : wrapInt (wrapInt ((r0.length : Int) - 1) - (c.2.1 : Int)) = -1 := by
      rw [hcol]
      unfold wrapInt
      omega
    simp only [hneg]
    omega

/-! ## Controls: Rotate -/

/-- On a well-formed board, once the rotation has returned `rotated`, `Rotate` returns the
verdict of `Test` of `rotated` at the unchanged location and commits `rotated` exactly when
the verdict is true. -/
theorem Rotate_eq {b : board} (hb : b.WF) (fn : Rotation) (p : Piece) {rotated : Grid}
    (hfn : fn p.Grid = Res.ok rotated) :
    Rotate fn b p = Res.ok
      ((gridCells 0 rotated).all (b.fits p.Location), b,
        if (gridCells 0 rotated).all (b.fits p.Location) = true
        then { p with Grid := rotated } else p) := by
  unfold Rotate
  simp only [hfn, board.Test_eq hb, Res.bind_ok]
  cases (gridCells 0 rotated).all (b.fits p.Location) <;> simp

/-- C6 fails on the code for a piece whose grid has a row longer than its first row: on the
sample board the rotations of the grid `[[0], [0, 3]]` fault with an index out of range, and
so does `Rotate`, which therefore returns neither true nor false. -/
theorem Rotate_jagged_counterexample :
    sampleBoard.WF ∧ Grid.Sized jaggedPiece.Grid ∧
    RotateRight jaggedPiece.Grid = Res.crash ∧
    RotateLeft jaggedPiece.Grid = Res.crash ∧
    Rotate RotateRight sampleBoard jaggedPiece = Res.crash ∧
    Rotate RotateLeft sampleBoard jaggedPiece = Res.crash ∧
    ¬ (∀ (b : board) (p : Piece) (r : Rotation), b.WF → Grid.Sized p.Grid →
        (r = RotateLeft ∨ r = RotateRight) →
        ∃ rotated ok, r p.Grid = Res.ok rotated ∧
          b.Test rotated p.Location = Res.ok (ok, b) ∧
          Rotate r b p
            = Res.ok (ok, b, if ok = true then { p with Grid := rotated } else p)) := by
  refine ⟨by decide, by decide, by decide, by decide, by decide, by decide, ?_⟩
  intro h
  obtain ⟨rotated, _, hrot, _⟩ :=
    h sampleBoard jaggedPiece RotateRight (by decide) (by decide) (Or.inr rfl)
  have hcrash : RotateRight jaggedPiece.Grid = Res.crash := by decide
  rw [hcrash] at hrot
  cases hrot

/-- C6, amended: on every board, for every rotation `r` (RotateLeft or RotateRight) and every
piece whose grid has no row longer than its first row (every rectangular grid is one), the
rotation returns a grid `r(grid)` and `Rotate r` returns true if and only if `Test` of
`r(grid)` at the piece's location is true; on true the grid becomes `r(grid)`, on false the
piece is unchanged; the location is unchanged either way (no other location is tried) and the
board is never modified. On a piece whose grid has a row longer than its first row the
rotation faults, and `Rotate r` with it. -/
theorem Rotate_spec (b : board) (hb : b.WF) (p : Piece) (hsized : Grid.Sized p.Grid)
    (r : Rotation) (hr : r = RotateLeft ∨ r = RotateRight) :
    (Grid.Bounded p.Grid →
      ∃ rotated ok, r p.Grid = Res.ok rotated ∧
        b.Test rotated p.Location = Res.ok (ok, b) ∧
        Rotate r b p = Res.ok (ok, b, if ok = true then { p with Grid := rotated } else p) ∧
        (if ok = true then { p with Grid := rotated } else p).Location = p.Location) ∧
    (¬ Grid.Bounded p.Grid → r p.Grid = Res.crash ∧ Rotate r b p = Res.crash) := by
  constructor
  · intro hbd
    have hex : ∃ rotated, r p.Grid = Res.ok rotated := by
      rcases hr with rfl | rfl
      · obtain ⟨g2, h, _⟩ := RotateLeft_bounded hbd hsized
        exact ⟨g2, h⟩
      · obtain ⟨g2, h, _⟩ := RotateRight_bounded hbd hsized
        exact ⟨g2, h⟩
    obtain ⟨rotated, hrot⟩ := hex
    refine ⟨rotated, _, hrot, board.Test_eq hb rotated p.Location, Rotate_eq hb r p hrot, ?_⟩
    cases (gridCells 0 rotated).all (b.fits p.Location) <;> simp
  · intro hbd
    have hcrash : r p.Grid = Res.crash := by
      rcases hr with rfl | rfl
      · exact RotateLeft_crash hbd hsized
      · exact RotateRight_crash hbd
    refine ⟨hcrash, ?_⟩
    unfold Rotate
    rw [hcrash]
    rfl

/-- Witness of C6: on the sample board the bar rotates at the origin, and does not rotate
next to the occupied cells of the bottom row; a grid whose second row is shorter than the
first rotates as well, and one whose second row is longer does not. -/
theorem Rotate_spec_witness :
    sampleBoard.WF ∧ Grid.Sized barPiece.Grid ∧ Grid.Bounded barPiece.Grid ∧
    ((Grid.Bounded barPiece.Grid →
      ∃ rotated ok, RotateRight barPiece.Grid = Res.ok rotated ∧
        sampleBoard.Test rotated barPiece.Location = Res.ok (ok, sampleBoard) ∧
        Rotate RotateRight sampleBoard barPiece
          = Res.ok (ok, sampleBoard, if ok = true then { barPiece with Grid := rotated }
              else barPiece) ∧
        (if ok = true then { barPiece with Grid := rotated } else barPiece).Location
          = barPiece.Location) ∧
      (¬ Grid.Bounded barPiece.Grid →
        RotateRight barPiece.Grid = Res.crash ∧
          Rotate RotateRight sampleBoard barPiece = Res.crash)) ∧
    Rotate RotateRight sampleBoard barPiece
      = Res.ok (true, sampleBoard, { barPiece with Grid := [[0, 0], [3, 3]] }) ∧
    Rotate RotateLeft sampleBoard barPiece
      = Res.ok (true, sampleBoard, { barPiece with Grid := [[3, 3], [0, 0]] }) ∧
    Rotate RotateRight sampleBoard { barPiece with Location := { X := 1, Y := 2 } }
      = Res.ok (false, sampleBoard, { barPiece with Location := { X := 1, Y := 2 } }) ∧
    Grid.Bounded [[1, 2], [3]] ∧
    Rotate RotateRight sampleBoard { Grid := [[1, 2], [3]], Location := { X := 0, Y := 0 } }
      = Res.ok (true, sampleBoard, { Grid := [[3, 1], [0, 2]], Location := { X := 0, Y := 0 } }) ∧
    ¬ Grid.Bounded jaggedPiece.Grid ∧
    Rotate RotateRight sampleBoard jaggedPiece = Res.crash :=
  ⟨by decide, by decide, by decide,
    Rotate_spec sampleBoard (by decide) barPiece (by decide) RotateRight (Or.inr rfl),
    by decide, by decide, by decide, by decide, by decide, by decide, by decide⟩

/-! ## IsTopOut -/

theorem foldRes_any {α : Type} (fn : α → Bool → Res Bool) (p : α → Bool)
    (h : ∀ c acc, fn c acc = Res.ok (acc || p c)) (cs : List α) (acc : Bool) :
    foldRes fn cs acc = Res.ok (acc || cs.any p) := by
  induction cs generalizing acc with
  | nil => simp [foldRes]
  | cons c cs ih =>
    simp only [foldRes, h, Res.bind_ok, ih, List.any_cons, Bool.or_assoc]

theorem target_comm (l : Location) (row col : Nat) :
    ({ X := wrapInt (l.X + (col : Int)), Y := wrapInt (l.Y + (row : Int)) } : Location)
      = target l row col := by
  unfold target
  rw [add_comm l.X, add_comm l.Y]

theorem gameBoard.topOutCell_eq {b : gameBoard} (hb : b.Board.WF) (piece : Piece)
    (c : Nat × Nat × State) (acc : Bool) :
    b.topOutCell piece (c.1 : Int) (c.2.1 : Int) c.2.2 acc
      = Res.ok (acc || b.Board.hits piece.Location c) := by
  unfold gameBoard.topOutCell board.hits
  simp only [target_comm]
  by_cases hs : c.2.2 = Gotris.Empty
  · simp [hs]
  · by_cases hc : b.Board.Contains (target piece.Location c.1 c.2.1) = true
    · simp only [ne_eq, hs, not_false_eq_true, if_true, hc, decide_True, Bool.true_and]
      rw [board.Empty_of_Contains hb hc, Res.bind_ok]
      by_cases he : Grid.cellAt b.Board.grid (target piece.Location c.1 c.2.1)
          = some Gotris.Empty
      · simp [he]
      · simp [he]
    · simp [hs, hc]

/-- On a well-formed board and a piece grid with no row longer than the first `IsTopOut`
returns, with the verdict `hits` on some cell of the piece, and the controller and the piece
as they were: the Empty cells with which `Clone` fills up the shorter rows never hit. -/
theorem gameBoard.IsTopOut_eq {b : gameBoard} (hb : b.Board.WF) (piece : Piece)
    (hbd : Grid.Bounded piece.Grid) :
    b.IsTopOut piece
      = Res.ok ((gridCells 0 piece.Grid).any (b.Board.hits piece.Location), b, piece) := by
  obtain ⟨shape, hclone, _, hin, hout⟩ := Grid.Clone_bounded hbd
  have hany : (gridCells 0 shape).any (b.Board.hits piece.Location)
      = (gridCells 0 piece.Grid).any (b.Board.hits piece.Location) := by
    rw [Bool.eq_iff_iff]
    simp only [List.any_eq_true]
    constructor
    · rintro ⟨⟨i, j, s⟩, hc, hh⟩
      refine ⟨(i, j, s), ?_, hh⟩
      have hs : s ≠ Gotris.Empty := by
        unfold board.hits at hh
        simp only [Bool.and_eq_true, decide_eq_true_eq] at hh
        exact hh.1
      have hcell := mem_gridCells_zero.1 hc
      cases hg : Grid.cell piece.Grid i j with
      | none => exact absurd (hout i j s hcell hg) hs
      | some t =>
        have := hin i j t hg
        rw [hcell] at this
        rw [Option.some.inj this]
        exact mem_gridCells_zero.2 hg
    · rintro ⟨⟨i, j, s⟩, hc, hh⟩
      exact ⟨(i, j, s), mem_gridCells_zero.2 (hin i j s (mem_gridCells_zero.1 hc)), hh⟩
  unfold gameBoard.IsTopOut
  rw [hclone, Res.bind_ok, Walk_eq_foldRes,
    foldRes_any _ (b.Board.hits piece.Location)
      (fun c acc => gameBoard.topOutCell_eq hb piece c acc)]
  simp [hany]

/-- C10 fails on the code for a piece whose grid has a row longer than its first row: on the
sample board the cell `(1, 1)` of the grid `[[0], [0, 3]]` placed at `(0, 2)` is non-Empty and
lies on the occupied board cell `(1, 3)`, but `IsTopOut` faults with an index out of range in
`Clone` and returns no verdict. -/
theorem IsTopOut_jagged_counterexample :
    sampleGame.Board.WF ∧
    (∃ row col state, Grid.cell jaggedPiece.Grid row col = some state ∧ state ≠ Empty ∧
      sampleGame.Board.Contains (target jaggedPiece.Location row col) = true ∧
      ∃ v, Grid.cellAt sampleGame.Board.grid (target jaggedPiece.Location row col) = some v ∧
        v ≠ Empty) ∧
    Grid.Clone jaggedPiece.Grid = Res.crash ∧
    sampleGame.IsTopOut jaggedPiece = Res.crash ∧
    ¬ (∀ (gb : gameBoard) (piece : Piece), gb.Board.WF →
        ∃ topOut, gb.IsTopOut piece = Res.ok (topOut, gb, piece) ∧
          (topOut = true ↔
            ∃ row col state, Grid.cell piece.Grid row col = some state ∧ state ≠ Empty ∧
              gb.Board.Contains (target piece.Location row col) = true ∧
              ∃ v, Grid.cellAt gb.Board.grid (target piece.Location row col) = some v ∧
                v ≠ Empty)) := by
  refine ⟨by decide, ⟨1, 1, 3, by decide, by decide, by decide, 1, by decide, by decide⟩,
    by decide, by decide, ?_⟩
  intro h
  obtain ⟨topOut, hret, _⟩ := h sampleGame jaggedPiece (by decide)
  have hcrash : sampleGame.IsTopOut jaggedPiece = Res.crash := by decide
  rw [hcrash] at hret
  cases hret

/-- C10, amended: for every game board and every piece whose grid has no row longer than its
first row (every rectangular grid is one), `IsTopOut` returns true if and only if some
non-Empty cell `(row, col)` of the piece's grid has its board location
`(piece.Location.X + col, piece.Location.Y + row)` inside the board on a non-Empty cell;
cells that fall outside the board never count. Board and piece are left unchanged. On a piece
whose grid has a row longer than its first row `IsTopOut` faults. -/
theorem IsTopOut_iff (gb : gameBoard) (hb : gb.Board.WF) (piece : Piece) :
    (Grid.Bounded piece.Grid →
      ∃ topOut, gb.IsTopOut piece = Res.ok (topOut, gb, piece) ∧
        (topOut = true ↔
          ∃ row col state, Grid.cell piece.Grid row col = some state ∧ state ≠ Empty ∧
            gb.Board.Contains (target piece.Location row col) = true ∧
            ∃ v, Grid.cellAt gb.Board.grid (target piece.Location row col) = some v ∧
              v ≠ Empty)) ∧
    (¬ Grid.Bounded piece.Grid → gb.IsTopOut piece = Res.crash) := by
  constructor
  · intro hbd
    refine ⟨_, gameBoard.IsTopOut_eq hb piece hbd, ?_⟩
    simp only [List.any_eq_true, Prod.exists, mem_gridCells_zero, board.hits, Bool.and_eq_true,
      decide_eq_true_eq]
    constructor
    · rintro ⟨row, col, state, hc, hs, hcon, hne⟩
      obtain ⟨_, s, hr, _, hs2⟩ := board.row_of_Contains hb hcon
      obtain ⟨hx0, _, hy0, _⟩ := (board.Contains_iff _ _).1 hcon
      have hcell : Grid.cellAt gb.Board.grid (target piece.Location row col) = some s := by
        simp [Grid.cellAt, Grid.cell, hx0, hy0, hr, hs2]
      refine ⟨row, col, state, hc, hs, hcon, s, hcell, ?_⟩
      intro hse
      apply hne
      rw [hcell, hse]
    · rintro ⟨row, col, state, hc, hs, hcon, v, hv, hne⟩
      refine ⟨row, col, state, hc, hs, hcon, ?_⟩
      rw [hv]
      intro h
      exact hne (Option.some.inj h)
  · intro hbd
    unfold gameBoard.IsTopOut
    rw [Grid.Clone_crash hbd]
    rfl

/-- Witness of C10: on the sample board the bar tops out in the left bottom corner, where
its lower cell lies on an occupied cell, and not in the right top corner; a piece whose
second row is shorter than the first gets its verdict as well. -/
theorem IsTopOut_iff_witness :
    sampleGame.Board.WF ∧ Grid.Bounded barPiece.Grid ∧
    ((Grid.Bounded barPiece.Grid →
      ∃ topOut, sampleGame.IsTopOut { barPiece with Location := { X := 0, Y := 2 } }
          = Res.ok (topOut, sampleGame, { barPiece with Location := { X := 0, Y := 2 } }) ∧
        (topOut = true ↔
          ∃ row col state, Grid.cell barPiece.Grid row col = some state ∧ state ≠ Empty ∧
            sampleGame.Board.Contains (target { X := 0, Y := 2 } row col) = true ∧
            ∃ v, Grid.cellAt sampleGame.Board.grid (target { X := 0, Y := 2 } row col)
                = some v ∧
              v ≠ Empty)) ∧
      (¬ Grid.Bounded barPiece.Grid →
        sampleGame.IsTopOut { barPiece with Location := { X := 0, Y := 2 } } = Res.crash)) ∧
    sampleGame.IsTopOut { barPiece with Location := { X := 0, Y := 2 } }
      = Res.ok (true, sampleGame, { barPiece with Location := { X := 0, Y := 2 } }) ∧
    sampleGame.IsTopOut { barPiece with Location := { X := 3, Y := 0 } }
      = Res.ok (false, sampleGame, { barPiece with Location := { X := 3, Y := 0 } }) ∧
    Grid.Bounded [[0, 3], [3]] ∧
    sampleGame.IsTopOut { Grid := [[0, 3], [3]], Location := { X := 0, Y := 2 } }
      = Res.ok (true, sampleGame, { Grid := [[0, 3], [3]], Location := { X := 0, Y := 2 } }) ∧
    sampleGame.IsTopOut { Grid := [[0, 3], [3]], Location := { X := 2, Y := 2 } }
      = Res.ok (false, sampleGame, { Grid := [[0, 3], [3]], Location := { X := 2, Y := 2 } }) :=
  ⟨by decide, by decide,
    IsTopOut_iff sampleGame (by decide) { barPiece with Location := { X := 0, Y := 2 } },
    by decide, by decide, by decide, by decide, by decide⟩

/-! ## Apply -/

theorem gameBoard.Apply_true_iff (cs : List Control) :
    ∀ (gb : gameBoard) (p : Piece) (gb2 : gameBoard) (p2 : Piece),
      gb.Apply p cs = Res.ok (true, gb2, p2) ↔
        ∃ b2, gb2 = { gb with Board := b2 } ∧ runsTrue cs gb.Board p b2 p2 := by
  induction cs with
  | nil =>
    intro gb p gb2 p2
    simp only [gameBoard.Apply, runsTrue, Res.ok.injEq, Prod.mk.injEq, true_and]
    constructor
    · rintro ⟨rfl, rfl⟩
      exact ⟨gb.Board, rfl, rfl, rfl⟩
    · rintro ⟨b2, rfl, rfl, rfl⟩
      exact ⟨rfl, rfl⟩
  | cons c cs ih =>
    intro gb p gb2 p2
    simp only [gameBoard.Apply, runsTrue]
    cases hc : c gb.Board p with
    | ok r =>
      obtain ⟨t, b1, p1⟩ := r
      cases t with
      | true =>
        simp only [Res.bind_ok, if_true, ih, Res.ok.injEq, Prod.mk.injEq, true_and]
        constructor
        · rintro ⟨b2, rfl, h⟩
          exact ⟨b2, rfl, b1, p1, ⟨rfl, rfl⟩, h⟩
        · rintro ⟨b2, rfl, b3, p3, ⟨rfl, rfl⟩, h⟩
          exact ⟨b2, rfl, h⟩
      | false =>
        simp only [Res.bind_ok, Bool.false_eq_true, if_false, Res.ok.injEq, Prod.mk.injEq,
          false_and, and_false, exists_false, exists_const]
    | crash => simp
    | timeout => simp

theorem gameBoard.Apply_first_failure (pre : List Control) (c : Control)
    (post : List Control) :
    ∀ (gb : gameBoard) (p : Piece) (b1 : board) (p1 : Piece) (b2 : board) (p2 : Piece),
      runsTrue pre gb.Board p b1 p1 → c b1 p1 = Res.ok (false, b2, p2) →
      gb.Apply p (pre ++ c :: post) = Res.ok (false, { gb with Board := b2 }, p2) := by
  induction pre with
  | nil =>
    rintro gb p b1 p1 b2 p2 ⟨rfl, rfl⟩ hc
    simp [gameBoard.Apply, hc]
  | cons d pre ih =>
    rintro gb p b1 p1 b2 p2 ⟨bm, pm, hd, hrun⟩ hc
    simp only [List.cons_append, gameBoard.Apply, hd, Res.bind_ok, if_true]
    exact ih { gb with Board := bm } pm b1 p1 b2 p2 hrun hc

/-- C7 as stated fails: a control may change the piece and then report failure, and `Apply`
hands that piece back, not the one left by the controls before it. -/
theorem Apply_failing_control_counterexample :
    sampleGame.Apply barPiece [shiftThenFail]
        = Res.ok (false, sampleGame, { barPiece with Location := { X := 1, Y := 0 } }) ∧
      ({ barPiece with Location := { X := 1, Y := 0 } } : Piece) ≠ barPiece ∧
      ¬ (∀ (gb : gameBoard) (p : Piece) (pre : List Control) (c : Control)
          (post : List Control) (b1 : board) (p1 : Piece) (b2 : board) (p2 : Piece),
          runsTrue pre gb.Board p b1 p1 → c b1 p1 = Res.ok (false, b2, p2) →
          ∃ gb2, gb.Apply p (pre ++ c :: post) = Res.ok (false, gb2, p1)) := by
  refine ⟨by decide, by decide, ?_⟩
  intro h
  obtain ⟨gb2, h2⟩ := h sampleGame barPiece [] shiftThenFail [] sampleBoard barPiece
    sampleBoard { barPiece with Location := { X := 1, Y := 0 } } ⟨rfl, rfl⟩ (by decide)
  revert h2
  simp only [List.nil_append, gameBoard.Apply, shiftThenFail, Res.bind_ok, Bool.false_eq_true,
    if_false, Res.ok.injEq, Prod.mk.injEq, true_and]
  rintro ⟨_, h3⟩
  revert h3
  decide

/-- C7, amended: `Apply` with no controls returns true and leaves the piece unchanged;
`Apply` returns true if and only if every control returns true when run in order on the
piece as its predecessors left it, and then hands back the piece they leave; if `c` is the
first control that returns false, `Apply` returns false whatever controls follow `c`, and
hands back the board and piece as `c` left them (for a control that leaves the piece
unchanged when it fails, that is the piece left by the controls before it). -/
theorem Apply_spec (gb : gameBoard) (p : Piece) :
    gb.Apply p [] = Res.ok (true, gb, p) ∧
    (∀ (cs : List Control) (gb2 : gameBoard) (p2 : Piece),
      gb.Apply p cs = Res.ok (true, gb2, p2) ↔
        ∃ b2, gb2 = { gb with Board := b2 } ∧ runsTrue cs gb.Board p b2 p2) ∧
    (∀ (pre : List Control) (c : Control) (post : List Control) (b1 : board) (p1 : Piece)
        (b2 : board) (p2 : Piece),
      runsTrue pre gb.Board p b1 p1 → c b1 p1 = Res.ok (false, b2, p2) →
      gb.Apply p (pre ++ c :: post) = Res.ok (false, { gb with Board := b2 }, p2)) :=
  ⟨rfl, fun cs gb2 p2 => gameBoard.Apply_true_iff cs gb p gb2 p2,
    fun pre c post b1 p1 b2 p2 => gameBoard.Apply_first_failure pre c post gb p b1 p1 b2 p2⟩

/-- Witness of the amended C7: the bar one column from the right wall moves right once, the
second move right fails, and the move left after it is not run. -/
theorem Apply_spec_witness :
    runsTrue [Move Right] sampleGame.Board { barPiece with Location := { X := 1, Y := 0 } }
      sampleBoard { barPiece with Location := { X := 2, Y := 0 } } ∧
    Move Right sampleBoard { barPiece with Location := { X := 2, Y := 0 } }
      = Res.ok (false, sampleBoard, { barPiece with Location := { X := 2, Y := 0 } }) ∧
    sampleGame.Apply { barPiece with Location := { X := 1, Y := 0 } }
        ([Move Right] ++ Move Right :: [Move Left])
      = Res.ok (false, { sampleGame with Board := sampleBoard },
          { barPiece with Location := { X := 2, Y := 0 } }) :=
  ⟨⟨_, _, by decide, rfl, rfl⟩, by decide,
    (Apply_spec sampleGame { barPiece with Location := { X := 1, Y := 0 } }).2.2
      [Move Right] (Move Right) [Move Left] sampleBoard
      { barPiece with Location := { X := 2, Y := 0 } } sampleBoard
      { barPiece with Location := { X := 2, Y := 0 } }
      ⟨_, _, by decide, rfl, rfl⟩ (by decide)⟩

/-! ## Controls: HardDrop -/

/-- The loop of `HardDrop` on a piece with a non-Empty cell at row `r0`: from a
Go-representable `Y` it returns within `rows - r0 - Y + 1` iterations. -/
theorem hardDropLoop_returns {b : board} (hb : b.WF) {g : Grid} (hs : Grid.Sized g)
    {r0 c0 : Nat} {s0 : State} (hcell : Grid.cell g r0 c0 = some s0)
    (hne : s0 ≠ Gotris.Empty) (X : Int) :
    ∀ (n : Nat) (Y : Int), InRange Y → (b.rows - r0 - Y).toNat ≤ n →
      ∀ fuel, n + 1 ≤ fuel →
        ∃ Y2, hardDropLoop fuel b { Grid := g, Location := { X := X, Y := Y } }
            = Res.ok (true, b, { Grid := g, Location := { X := X, Y := Y2 } }) ∧
          (gridCells 0 g).all (b.fits (Down { X := X, Y := Y2 })) = false := by
  obtain ⟨hr0, _⟩ := Grid.cell_sized hs hcell
  have hrows := hb.1
  intro n
  induction n with
  | zero =>
    intro Y hY hd fuel hfuel
    obtain ⟨f, rfl⟩ : ∃ f, fuel = f + 1 := ⟨fuel - 1, by omega⟩
    simp only [hardDropLoop, Move_eq hb, Res.bind_ok]
    cases hv : (gridCells 0 g).all (b.fits (Down { X := X, Y := Y })) with
    | false => exact ⟨Y, by simp, hv⟩
    | true =>
      exfalso
      have hfit := (board.fits_all_iff b g _).1 hv r0 c0 s0 hcell hne
      have hc := (board.Contains_iff _ _).1 hfit.1
      unfold InRange at hY hrows
      simp only [target, Down, wrapInt] at hc
      omega
  | succ m ih =>
    intro Y hY hd fuel hfuel
    obtain ⟨f, rfl⟩ : ∃ f, fuel = f + 1 := ⟨fuel - 1, by omega⟩
    simp only [hardDropLoop, Move_eq hb, Res.bind_ok]
    cases hv : (gridCells 0 g).all (b.fits (Down { X := X, Y := Y })) with
    | false => exact ⟨Y, by simp, hv⟩
    | true =>
      have hfit := (board.fits_all_iff b g _).1 hv r0 c0 s0 hcell hne
      have hc := (board.Contains_iff _ _).1 hfit.1
      have hd2 : (b.rows - r0 - wrapInt (Y + 1)).toNat ≤ m := by
        unfold InRange at hY hrows
        simp only [target, Down, wrapInt] at hc
        unfold wrapInt
        omega
      obtain ⟨Y2, h2, h3⟩ := ih (wrapInt (Y + 1)) (wrapInt_inRange _) hd2 f (by omega)
      exact ⟨Y2, by simpa [Down] using h2, h3⟩

/-- The loop of `HardDrop` never returns on a piece without a non-Empty cell: every
`Move(Down)` succeeds. -/
theorem hardDropLoop_allEmpty {b : board} (hb : b.WF) {g : Grid}
    (hg : ∀ row col s, Grid.cell g row col = some s → s = Gotris.Empty) :
    ∀ (fuel : Nat) (l : Location),
      hardDropLoop fuel b { Grid := g, Location := l } = Res.timeout := by
  intro fuel
  induction fuel with
  | zero => intro l; rfl
  | succ f ih =>
    intro l
    have hv : (gridCells 0 g).all (b.fits (Down l)) = true :=
      (board.fits_all_iff b g _).2 (fun row col s hc hs => absurd (hg row col s hc) hs)
    simp only [hardDropLoop, Move_eq hb, Res.bind_ok, hv, if_true]
    exact ih (Down l)

/-- C9 as stated fails: on the sample board, for the piece whose 1x2 grid holds only Empty
cells, no number of loop iterations makes `HardDrop` return. -/
theorem HardDrop_empty_piece_counterexample :
    ¬ ∃ fuel r, HardDrop fuel sampleBoard { Grid := [[0, 0]], Location := { X := 0, Y := 0 } }
        = Res.ok r := by
  rintro ⟨fuel, r, h⟩
  have ht := hardDropLoop_allEmpty (b := sampleBoard) (by decide) (g := [[0, 0]])
    (by
      intro row col s hc
      obtain ⟨h1, r, hr, h2⟩ := Grid.cell_bounds hc
      simp only [List.mem_singleton] at hr
      subst hr
      simp only [List.length_singleton, Nat.lt_one_iff] at h1
      subst h1
      have hcol : col = 0 ∨ col = 1 := by
        simp only [List.length_cons, List.length_nil] at h2
        omega
      rcases hcol with rfl | rfl <;> simp [Grid.cell] at hc <;> exact hc.symm)
    fuel { X := 0, Y := 0 }
  unfold HardDrop at h
  rw [ht] at h
  exact absurd h (by simp)

/-- C9, amended: for every board and every piece whose grid has at least one non-Empty cell
(any location), `HardDrop` terminates: given enough loop iterations one `Move(Down)` fails and
`HardDrop` returns true, with the board, the grid and the X coordinate unchanged, at a
location where `Move(Down)` fails. -/
theorem HardDrop_terminates (b : board) (hb : b.WF) (p : Piece) (hs : Grid.Sized p.Grid)
    (hcell : ∃ row col s, Grid.cell p.Grid row col = some s ∧ s ≠ Empty) :
    ∃ N, ∀ fuel, N ≤ fuel →
      ∃ p2, HardDrop fuel b p = Res.ok (true, b, p2) ∧ p2.Grid = p.Grid ∧
        p2.Location.X = p.Location.X ∧ Move Down b p2 = Res.ok (false, b, p2) := by
  obtain ⟨r0, c0, s0, hc, hne⟩ := hcell
  refine ⟨(b.rows - r0 - wrapInt (p.Location.Y + 1)).toNat + 2, ?_⟩
  intro fuel hfuel
  obtain ⟨f, rfl⟩ : ∃ f, fuel = f + 1 := ⟨fuel - 1, by omega⟩
  unfold HardDrop
  simp only [hardDropLoop, Move_eq hb, Res.bind_ok]
  cases hv : (gridCells 0 p.Grid).all (b.fits (Down p.Location)) with
  | false => exact ⟨p, by simp, rfl, rfl, by simp [Move_eq hb, hv]⟩
  | true =>
    obtain ⟨Y2, h2, h3⟩ := hardDropLoop_returns hb hs hc hne p.Location.X
      (b.rows - r0 - wrapInt (p.Location.Y + 1)).toNat (wrapInt (p.Location.Y + 1))
      (wrapInt_inRange _) (le_refl _) f (by omega)
    exact ⟨{ Grid := p.Grid, Location := { X := p.Location.X, Y := Y2 } },
      by simpa [Down] using h2, rfl, rfl, by simp [Move_eq hb, h3]⟩

/-- Witness of the amended C9: the bar dropped on the sample board. -/
theorem HardDrop_terminates_witness :
    sampleBoard.WF ∧ Grid.Sized barPiece.Grid ∧
    (∃ row col s, Grid.cell barPiece.Grid row col = some s ∧ s ≠ Empty) ∧
    ∃ N, ∀ fuel, N ≤ fuel →
      ∃ p2, HardDrop fuel sampleBoard barPiece = Res.ok (true, sampleBoard, p2) ∧
        p2.Grid = barPiece.Grid ∧ p2.Location.X = barPiece.Location.X ∧
        Move Down sampleBoard p2 = Res.ok (false, sampleBoard, p2) :=
  ⟨by decide, by decide, ⟨0, 1, 3, by decide, by decide⟩,
    HardDrop_terminates sampleBoard (by decide) barPiece (by decide)
      ⟨0, 1, 3, by decide, by decide⟩⟩

/-- On a well-formed board whose cells are all Empty, every location inside holds Empty. -/
theorem board.cellAt_of_all_empty {b : board} (hb : b.WF)
    (hempty : ∀ r ∈ b.grid, ∀ s ∈ r, s = Gotris.Empty) {l : Location}
    (hl : b.Contains l = true) : Grid.cellAt b.grid l = some Gotris.Empty := by
  obtain ⟨r, s, hr, _, hs⟩ := board.row_of_Contains hb hl
  obtain ⟨hx0, _, hy0, _⟩ := (board.Contains_iff b l).1 hl
  obtain ⟨h1, h2⟩ := List.getElem?_eq_some.1 hr
  obtain ⟨h3, h4⟩ := List.getElem?_eq_some.1 hs
  have hse : s = Gotris.Empty :=
    hempty r (h2 ▸ List.getElem_mem h1) s (h4 ▸ List.getElem_mem h3)
  simp [Grid.cellAt, Grid.cell, hx0, hy0, hr, hs, hse]

/-- One `Move(Down)` on an empty board: with the piece's non-Empty cells inside the board at
`(X, Y)` and `m` its lowest non-Empty row, the move succeeds exactly when row `m` stays above
the floor, and `Y` does not wrap around. -/
theorem fits_down_iff {b : board} (hb : b.WF)
    (hempty : ∀ r ∈ b.grid, ∀ s ∈ r, s = Gotris.Empty) {g : Grid} (hs : Grid.Sized g)
    {X Y : Int} (hY : InRange Y) {m : Nat}
    (hm : ∃ col s, Grid.cell g m col = some s ∧ s ≠ Gotris.Empty)
    (hmax : ∀ row col s, Grid.cell g row col = some s → s ≠ Gotris.Empty → row ≤ m)
    (hin : ∀ row col s, Grid.cell g row col = some s → s ≠ Gotris.Empty →
      b.Contains (target { X := X, Y := Y } row col) = true) :
    ((gridCells 0 g).all (b.fits (Down { X := X, Y := Y })) = true ↔
        (m : Int) + Y + 1 < b.rows) ∧
      Down { X := X, Y := Y } = { X := X, Y := Y + 1 } ∧ InRange (Y + 1) ∧
      (m : Int) + Y < b.rows := by
  obtain ⟨mc, ms, hmcell, hmne⟩ := hm
  obtain ⟨hmr, _⟩ := Grid.cell_sized hs hmcell
  have hrows := hb.1
  have hmin := (board.Contains_iff _ _).1 (hin m mc ms hmcell hmne)
  unfold InRange at hY hrows
  simp only [target, wrapInt] at hmin
  have hlt : (m : Int) + Y < b.rows := by omega
  have hYr : InRange (Y + 1) := by
    unfold InRange
    omega
  have hdown : Down { X := X, Y := Y } = { X := X, Y := Y + 1 } := by
    simp [Down, wrapInt_of_inRange hYr]
  refine ⟨?_, hdown, hYr, hlt⟩
  rw [hdown, board.fits_all_iff]
  constructor
  · intro h
    have hc := (board.Contains_iff _ _).1 (h m mc ms hmcell hmne).1
    simp only [target, wrapInt] at hc
    omega
  · intro h row col s hcell hne
    have hle := hmax row col s hcell hne
    have hc := (board.Contains_iff _ _).1 (hin row col s hcell hne)
    have hcon : b.Contains (target { X := X, Y := Y + 1 } row col) = true := by
      rw [board.Contains_iff]
      simp only [target, wrapInt] at hc ⊢
      omega
    exact ⟨hcon, board.cellAt_of_all_empty hb hempty hcon⟩

/-- The loop of `HardDrop` on an empty board ends with row `m` of the piece on the bottom row
of the board. -/
theorem hardDropLoop_lands {b : board} (hb : b.WF)
    (hempty : ∀ r ∈ b.grid, ∀ s ∈ r, s = Gotris.Empty) {g : Grid} (hs : Grid.Sized g)
    (X : Int) {m : Nat} (hm : ∃ col s, Grid.cell g m col = some s ∧ s ≠ Gotris.Empty)
    (hmax : ∀ row col s, Grid.cell g row col = some s → s ≠ Gotris.Empty → row ≤ m) :
    ∀ (n : Nat) (Y : Int), InRange Y →
      (∀ row col s, Grid.cell g row col = some s → s ≠ Gotris.Empty →
        b.Contains (target { X := X, Y := Y } row col) = true) →
      (b.rows - 1 - m - Y).toNat = n →
      ∀ fuel, n + 1 ≤ fuel →
        hardDropLoop fuel b { Grid := g, Location := { X := X, Y := Y } }
          = Res.ok (true, b, { Grid := g, Location := { X := X, Y := b.rows - 1 - m } }) := by
  intro n
  induction n with
  | zero =>
    intro Y hY hin hd fuel hfuel
    obtain ⟨f, rfl⟩ : ∃ f, fuel = f + 1 := ⟨fuel - 1, by omega⟩
    obtain ⟨hiff, _, _, hlt⟩ := fits_down_iff hb hempty hs hY hm hmax hin
    have hv : (gridCells 0 g).all (b.fits (Down { X := X, Y := Y })) = false := by
      rw [← Bool.not_eq_true, hiff]
      omega
    have hYeq : Y = b.rows - 1 - m := by omega
    simp only [hardDropLoop, Move_eq hb, Res.bind_ok, hv, Bool.false_eq_true, if_false]
    rw [← hYeq]
  | succ k ih =>
    intro Y hY hin hd fuel hfuel
    obtain ⟨f, rfl⟩ : ∃ f, fuel = f + 1 := ⟨fuel - 1, by omega⟩
    obtain ⟨hiff, hdown, hYr, hlt⟩ := fits_down_iff hb hempty hs hY hm hmax hin
    have hv : (gridCells 0 g).all (b.fits (Down { X := X, Y := Y })) = true := by
      rw [hiff]
      omega
    have hin2 : ∀ row col s, Grid.cell g row col = some s → s ≠ Gotris.Empty →
        b.Contains (target { X := X, Y := Y + 1 } row col) = true := by
      intro row col s hcell hne
      have := ((board.fits_all_iff b g _).1 hv row col s hcell hne).1
      rw [hdown] at this
      exact this
    have hrec := ih (Y + 1) hYr hin2 (by omega) f (by omega)
    simp only [hardDropLoop, Move_eq hb, Res.bind_ok, hv, if_true]
    rw [hdown]
    exact hrec

/-- C8: on every empty board with `R` rows, for every piece whose grid has a non-Empty cell,
lowest in grid row `m`, and whose non-Empty cells all lie inside the board at its starting
location, `HardDrop` returns true (given enough loop iterations), leaves the board, the
piece's grid and X unchanged, and ends with `Y = R - 1 - m`. -/
theorem HardDrop_on_empty_board (b : board) (hb : b.WF)
    (hempty : ∀ r ∈ b.grid, ∀ s ∈ r, s = Empty) (p : Piece) (hs : Grid.Sized p.Grid)
    (hY : InRange p.Location.Y) (m : Nat)
    (hm : ∃ col s, Grid.cell p.Grid m col = some s ∧ s ≠ Empty)
    (hmax : ∀ row col s, Grid.cell p.Grid row col = some s → s ≠ Empty → row ≤ m)
    (hin : ∀ row col s, Grid.cell p.Grid row col = some s → s ≠ Empty →
      b.Contains (target p.Location row col) = true) :
    ∃ N, ∀ fuel, N ≤ fuel →
      HardDrop fuel b p = Res.ok (true, b,
        { Grid := p.Grid, Location := { X := p.Location.X, Y := b.rows - 1 - m } }) :=
  ⟨(b.rows - 1 - m - p.Location.Y).toNat + 1, fun fuel hfuel =>
    hardDropLoop_lands hb hempty hs p.Location.X hm hmax
      (b.rows - 1 - m - p.Location.Y).toNat p.Location.Y hY hin rfl fuel hfuel⟩

/-- Witness of C8, the scenario of the specification: the 2x2 O piece at row 0 of the empty
20-row board of a new game ends at `y = 18`. -/
theorem HardDrop_on_empty_board_witness :
    NewBoard 20 10 = Res.ok emptyBoard20 ∧
    (∃ N, ∀ fuel, N ≤ fuel →
      HardDrop fuel emptyBoard20 pieceO = Res.ok (true, emptyBoard20,
        { Grid := pieceO.Grid,
          Location := { X := pieceO.Location.X, Y := emptyBoard20.rows - 1 - (1 : Nat) } })) ∧
    HardDrop 19 emptyBoard20 pieceO
      = Res.ok (true, emptyBoard20, { Grid := O Yellow, Location := { X := 4, Y := 18 } }) ∧
    HardDrop 18 emptyBoard20 pieceO = Res.timeout := by
  have hcells : ∀ row col s, Grid.cell pieceO.Grid row col = some s →
      (row = 0 ∨ row = 1) ∧ (col = 0 ∨ col = 1) := by
    intro row col s h
    obtain ⟨h1, r, hr, h2⟩ := Grid.cell_bounds h
    have hrl : r.length = 2 := by
      simp only [pieceO, O, List.mem_cons, List.mem_singleton, List.not_mem_nil, or_false,
        or_self] at hr
      rw [hr]
      rfl
    have h3 : row < 2 := h1
    omega
  refine ⟨by decide,
    HardDrop_on_empty_board emptyBoard20 (by decide) (by decide) pieceO (by decide)
      (by decide) 1 ⟨0, Yellow, by decide, by decide⟩ ?_ ?_,
    by decide, by decide⟩
  · intro row col s h _
    have := (hcells row col s h).1
    omega
  · intro row col s h _
    obtain ⟨h1 | h1, h2 | h2⟩ := hcells row col s h <;> subst h1 h2 <;> decide

/-! ## Test after Stack -/

/-- C14 as stated fails: for a shape without a non-Empty cell `Test` is true, `Stack` writes
nothing, and the subsequent `Test` is true again. -/
theorem Test_after_Stack_counterexample :
    sampleBoard.Test [[0]] ⟨0, 0⟩ = Res.ok (true, sampleBoard) ∧
    sampleBoard.Stack [[0]] ⟨0, 0⟩ = Res.ok sampleBoard ∧
    ((sampleBoard.Stack [[0]] ⟨0, 0⟩).bind fun b2 => b2.Test [[0]] ⟨0, 0⟩)
      = Res.ok (true, sampleBoard) := by
  decide

/-- C14, amended: on every board, for every shape with at least one non-Empty cell and every
location such that `Test` is true, after `Stack` a subsequent `Test` of the same shape at the
same location is false. -/
theorem Test_after_Stack (b : board) (hb : b.WF) (shape : Grid) (hshape : Grid.Sized shape)
    (loc : Location)
    (hcell : ∃ row col s, Grid.cell shape row col = some s ∧ s ≠ Empty)
    (htest : b.Test shape loc = Res.ok (true, b)) :
    ∃ b2, b.Stack shape loc = Res.ok b2 ∧ b2.Test shape loc = Res.ok (false, b2) := by
  rw [board.Test_eq hb] at htest
  have hall : (gridCells 0 shape).all (b.fits loc) = true := by
    simpa using htest
  have hfit := (board.fits_all_iff b shape loc).1 hall
  obtain ⟨b2, h1, _, _, hwf, h5, _⟩ := foldRes_stack loc (gridCells 0 shape) b hb
    (fun c hc hs => hfit c.1 c.2.1 c.2.2 (mem_gridCells_zero.1 hc) hs)
    (gridCells_targets_pairwise hshape loc)
  refine ⟨b2, ?_, ?_⟩
  · unfold board.Stack
    rw [Walk_eq_foldRes]
    exact h1
  · obtain ⟨row, col, s, hc, hs⟩ := hcell
    have hocc := h5 (row, col, s) (mem_gridCells_zero.2 hc) hs
    rw [board.Test_eq hwf]
    have hfalse : (gridCells 0 shape).all (b2.fits loc) = false := by
      rw [← Bool.not_eq_true, board.fits_all_iff]
      intro hcon
      have := (hcon row col s hc hs).2
      rw [hocc] at this
      exact hs (Option.some.inj this)
    rw [hfalse]

/-- Witness of the amended C14: the bar stacked on the sample board. -/
theorem Test_after_Stack_witness :
    sampleBoard.WF ∧ Grid.Sized [[0, 3], [0, 3]] ∧
    (∃ row col s, Grid.cell [[0, 3], [0, 3]] row col = some s ∧ s ≠ Empty) ∧
    sampleBoard.Test [[0, 3], [0, 3]] ⟨-1, 0⟩ = Res.ok (true, sampleBoard) ∧
    ∃ b2, sampleBoard.Stack [[0, 3], [0, 3]] ⟨-1, 0⟩ = Res.ok b2 ∧
      b2.Test [[0, 3], [0, 3]] ⟨-1, 0⟩ = Res.ok (false, b2) :=
  ⟨by decide, by decide, ⟨0, 1, 3, by decide, by decide⟩, by decide,
    Test_after_Stack sampleBoard (by decide) [[0, 3], [0, 3]] (by decide) ⟨-1, 0⟩
      ⟨0, 1, 3, by decide, by decide⟩ (by decide)⟩

/-! ## The partial-commit scenario of Apply -/

/-- C15 as stated fails: on the empty 4x4 board the 2x2 O piece at (3,0) already hangs over
the right wall, the first `Move(Right)` fails and `Apply` leaves the piece at (3,0), not at
(4,0); a width-2 shape without a non-Empty cell passes both moves and ends at (5,0). -/
theorem Apply_scenario_counterexample :
    NewGameBoard 4 4 = Res.ok emptyGame4 ∧
    Move Right emptyBoard4 { Grid := O Yellow, Location := { X := 3, Y := 0 } }
      = Res.ok (false, emptyBoard4, { Grid := O Yellow, Location := { X := 3, Y := 0 } }) ∧
    emptyGame4.Apply { Grid := O Yellow, Location := { X := 3, Y := 0 } }
        [Move Right, Move Right]
      = Res.ok (false, emptyGame4, { Grid := O Yellow, Location := { X := 3, Y := 0 } }) ∧
    emptyGame4.Apply { Grid := [[0, 0]], Location := { X := 3, Y := 0 } }
        [Move Right, Move Right]
      = Res.ok (true, emptyGame4, { Grid := [[0, 0]], Location := { X := 5, Y := 0 } }) := by
  decide

/-- C15, amended: on a board of width 4, for a piece at location (3,0) whose shape has width 2
and a non-Empty cell, the first `Move(Right)` fails, so `Apply(piece, Move(Right),
Move(Right))` returns false and leaves the piece at (3,0). The partial commit is seen two
columns to the left: on the empty 4x4 board the O piece at (1,0) is left at (2,0), the first
`Move(Right)` succeeding and the second failing. -/
theorem Apply_scenario (gb : gameBoard) (hb : gb.Board.WF) (hcols : gb.Board.cols = 4)
    (shape : Grid) (hwidth : ∀ r ∈ shape, r.length = 2)
    (hcell : ∃ row col s, Grid.cell shape row col = some s ∧ s ≠ Empty) :
    (Move Right gb.Board { Grid := shape, Location := { X := 3, Y := 0 } }
        = Res.ok (false, gb.Board, { Grid := shape, Location := { X := 3, Y := 0 } }) ∧
      gb.Apply { Grid := shape, Location := { X := 3, Y := 0 } } [Move Right, Move Right]
        = Res.ok (false, gb, { Grid := shape, Location := { X := 3, Y := 0 } })) ∧
    (Move Right emptyBoard4 { Grid := O Yellow, Location := { X := 1, Y := 0 } }
        = Res.ok (true, emptyBoard4, { Grid := O Yellow, Location := { X := 2, Y := 0 } }) ∧
      Move Right emptyBoard4 { Grid := O Yellow, Location := { X := 2, Y := 0 } }
        = Res.ok (false, emptyBoard4, { Grid := O Yellow, Location := { X := 2, Y := 0 } }) ∧
      emptyGame4.Apply { Grid := O Yellow, Location := { X := 1, Y := 0 } }
          [Move Right, Move Right]
        = Res.ok (false, emptyGame4, { Grid := O Yellow, Location := { X := 2, Y := 0 } })) := by
  obtain ⟨row, col, s, hc, hs⟩ := hcell
  have hv : (gridCells 0 shape).all
      (gb.Board.fits (Right { X := 3, Y := 0 })) = false := by
    rw [← Bool.not_eq_true, board.fits_all_iff]
    intro hcon
    have hcont := (board.Contains_iff _ _).1 (hcon row col s hc hs).1
    obtain ⟨_, r, hr, hlt⟩ := Grid.cell_bounds hc
    have := hwidth r hr
    simp only [target, Right, wrapInt] at hcont
    omega
  have hmove : Move Right gb.Board { Grid := shape, Location := { X := 3, Y := 0 } }
      = Res.ok (false, gb.Board, { Grid := shape, Location := { X := 3, Y := 0 } }) := by
    rw [Move_eq hb, hv]
    simp
  refine ⟨⟨hmove, ?_⟩, by decide, by decide, by decide⟩
  simp [gameBoard.Apply, hmove]

/-- Witness of the amended C15 on the sample board, with the bar at (3,0). -/
theorem Apply_scenario_witness :
    sampleGame.Board.WF ∧ sampleGame.Board.cols = 4 ∧
    (∀ r ∈ barPiece.Grid, r.length = 2) ∧
    (∃ row col s, Grid.cell barPiece.Grid row col = some s ∧ s ≠ Empty) ∧
    sampleGame.Apply { Grid := barPiece.Grid, Location := { X := 3, Y := 0 } }
        [Move Right, Move Right]
      = Res.ok (false, sampleGame, { Grid := barPiece.Grid, Location := { X := 3, Y := 0 } }) :=
  ⟨by decide, by decide, by decide, ⟨0, 1, 3, by decide, by decide⟩,
    (Apply_scenario sampleGame (by decide) (by decide) barPiece.Grid (by decide)
      ⟨0, 1, 3, by decide, by decide⟩).1.2⟩

/-! ## Four rotations -/

theorem Grid.HasDims.rect_sized {g : Grid} {n : Nat} (hd : Grid.HasDims g n n)
    (hn : (n : Int) < 9223372036854775808) :
    Grid.Rect g ∧ Grid.Sized g ∧ (g.headD []).length = n ∧ g.length = n := by
  obtain ⟨hlen, hrows⟩ := hd
  cases g with
  | nil =>
    simp only [List.length_nil] at hlen
    subst hlen
    refine ⟨by simp [Grid.Rect], ⟨by simp, by simp⟩, rfl, rfl⟩
  | cons r0 rest =>
    have h0 : r0.length = n := hrows r0 (List.mem_cons_self _ _)
    refine ⟨?_, ⟨?_, ?_⟩, h0, hlen⟩
    · intro r hr
      simp only [List.headD_cons]
      rw [hrows r hr, h0]
    · rw [hlen]
      exact hn
    · intro r hr
      rw [hrows r hr]
      exact hn

theorem RotateRight_square {g : Grid} {n : Nat} (hd : Grid.HasDims g n n)
    (hn : (n : Int) < 9223372036854775808) :
    ∃ g2, RotateRight g = Res.ok g2 ∧ Grid.HasDims g2 n n ∧
      ∀ row col s, Grid.cell g row col = some s →
        Grid.cell g2 col (n - 1 - row) = some s := by
  obtain ⟨hrect, hsized, hhead, hlen⟩ := Grid.HasDims.rect_sized hd hn
  obtain ⟨g2, h1, h2, h3⟩ := RotateRight_spec hrect hsized
  rw [hhead, hlen] at h2
  rw [hlen] at h3
  exact ⟨g2, h1, h2, h3⟩

theorem RotateLeft_square {g : Grid} {n : Nat} (hd : Grid.HasDims g n n)
    (hn : (n : Int) < 9223372036854775808) :
    ∃ g2, RotateLeft g = Res.ok g2 ∧ Grid.HasDims g2 n n ∧
      ∀ row col s, Grid.cell g row col = some s →
        Grid.cell g2 (n - 1 - col) row = some s := by
  obtain ⟨hrect, hsized, hhead, hlen⟩ := Grid.HasDims.rect_sized hd hn
  obtain ⟨g2, h1, h2, h3⟩ := RotateLeft_spec hrect hsized
  rw [hhead, hlen] at h2
  rw [hhead] at h3
  exact ⟨g2, h1, h2, h3⟩

theorem Grid.cell_lt_of_dims {g : Grid} {R C : Nat} (hg : Grid.HasDims g R C) {i j : Nat}
    {s : State} (h : Grid.cell g i j = some s) : i < R ∧ j < C := by
  by_contra hcon
  have hor : R ≤ i ∨ C ≤ j := by omega
  rw [Grid.cell_eq_none_of_dims hg hor] at h
  exact absurd h (by simp)

/-- Two grids of the same dimensions are equal when every cell of the first is found at the
same position in the second. -/
theorem Grid.eq_of_cells {g g4 : Grid} {R C : Nat} (hg : Grid.HasDims g R C)
    (hg4 : Grid.HasDims g4 R C)
    (h : ∀ i j s, Grid.cell g i j = some s → Grid.cell g4 i j = some s) : g4 = g := by
  apply Grid.ext_cell hg hg4
  intro i j
  by_cases hij : i < R ∧ j < C
  · obtain ⟨s, hs⟩ := Grid.cell_isSome_of_dims hg hij.1 hij.2
    rw [hs, h i j s hs]
  · have hor : R ≤ i ∨ C ≤ j := by omega
    rw [Grid.cell_eq_none_of_dims hg hor, Grid.cell_eq_none_of_dims hg4 hor]

/-- C13: for every square grid (as many rows as columns, every row of equal length),
applying RotateRight four times returns a grid equal to the original, in dimensions and in
every cell, and so does applying RotateLeft four times. -/
theorem Rotate_four_times (g : Grid) (hrect : Grid.Rect g)
    (hsquare : g.length = (g.headD []).length) (hsized : Grid.Sized g) :
    (((RotateRight g).bind RotateRight).bind RotateRight).bind RotateRight = Res.ok g ∧
    (((RotateLeft g).bind RotateLeft).bind RotateLeft).bind RotateLeft = Res.ok g := by
  have hd : Grid.HasDims g g.length g.length :=
    ⟨rfl, fun r hr => by rw [hrect r hr, ← hsquare]⟩
  have hn : ((g.length : Nat) : Int) < 9223372036854775808 := hsized.1
  constructor
  · obtain ⟨g1, e1, d1, c1⟩ := RotateRight_square hd hn
    obtain ⟨g2, e2, d2, c2⟩ := RotateRight_square d1 hn
    obtain ⟨g3, e3, d3, c3⟩ := RotateRight_square d2 hn
    obtain ⟨g4, e4, d4, c4⟩ := RotateRight_square d3 hn
    have heq : g4 = g := by
      apply Grid.eq_of_cells hd d4
      intro i j s hs
      obtain ⟨hi, hj⟩ := Grid.cell_lt_of_dims hd hs
      have h4 := c4 _ _ s (c3 _ _ s (c2 _ _ s (c1 i j s hs)))
      have e5 : g.length - 1 - (g.length - 1 - i) = i := by omega
      have e6 : g.length - 1 - (g.length - 1 - j) = j := by omega
      rw [e5, e6] at h4
      exact h4
    rw [e1, Res.bind_ok, e2, Res.bind_ok, e3, Res.bind_ok, e4, heq]
  · obtain ⟨g1, e1, d1, c1⟩ := RotateLeft_square hd hn
    obtain ⟨g2, e2, d2, c2⟩ := RotateLeft_square d1 hn
    obtain ⟨g3, e3, d3, c3⟩ := RotateLeft_square d2 hn
    obtain ⟨g4, e4, d4, c4⟩ := RotateLeft_square d3 hn
    have heq : g4 = g := by
      apply Grid.eq_of_cells hd d4
      intro i j s hs
      obtain ⟨hi, hj⟩ := Grid.cell_lt_of_dims hd hs
      have h4 := c4 _ _ s (c3 _ _ s (c2 _ _ s (c1 i j s hs)))
      have e5 : g.length - 1 - (g.length - 1 - i) = i := by omega
      have e6 : g.length - 1 - (g.length - 1 - j) = j := by omega
      rw [e5, e6] at h4
      exact h4
    rw [e1, Res.bind_ok, e2, Res.bind_ok, e3, Res.bind_ok, e4, heq]

/-- Witness of C13 on the padded T shape; one rotation to the right turns it to point right. -/
theorem Rotate_four_times_witness :
    Grid.Rect squareT ∧ squareT.length = (squareT.headD []).length ∧ Grid.Sized squareT ∧
    ((((RotateRight squareT).bind RotateRight).bind RotateRight).bind RotateRight
        = Res.ok squareT ∧
      (((RotateLeft squareT).bind RotateLeft).bind RotateLeft).bind RotateLeft
        = Res.ok squareT) ∧
    RotateRight squareT = Res.ok [[0, 7, 0], [0, 7, 7], [0, 7, 0]] ∧
    RotateLeft squareT = Res.ok [[0, 7, 0], [7, 7, 0], [0, 7, 0]] :=
  ⟨by decide, by decide, by decide,
    Rotate_four_times squareT (by decide) (by decide) (by decide), by decide, by decide⟩

/-! ## Level and speed -/

/-- C18 as stated fails: at level `2^63 - 1` the product `g.level*20` wraps around to -20,
so `levelUp` returns the positive period 1.02 s although the level is not below 50 and
`1000 ms - 20 ms * level` is negative. -/
theorem levelUp_overflow_counterexample :
    game.levelUp { newGame with level := 9223372036854775807, lines := 0 }
      = (1020000000, { newGame with level := 9223372036854775807, lines := 0 }) ∧
    ¬ ((9223372036854775807 : Int) < 50) ∧
    Second - Millisecond * 20 * 9223372036854775807 < 0 := by
  decide

/-- C18, amended: for every line count `lines >= 0` and every level `>= 1` for which
`20 ms * (level + 1)` fits a 64-bit duration, one call of `levelUp` leaves the lines (and the
rest of the game) unchanged, sets the level to `level + 1` if `lines / 10 >= level` and leaves
it unchanged otherwise, and returns `1000 ms - 20 ms * (resulting level)` when that is
strictly positive and 0 otherwise; the returned period is strictly positive exactly when the
resulting level is below 50. -/
theorem levelUp_spec (g : game) (hlines : 0 ≤ g.lines) (hlevel : 1 ≤ g.level)
    (hfit : Millisecond * ((g.level + 1) * 20) < 9223372036854775808) :
    ∃ level2 period, g.levelUp = (period, { g with level := level2 }) ∧
      level2 = (if g.lines / 10 ≥ g.level then g.level + 1 else g.level) ∧
      period = (if Second - Millisecond * 20 * level2 > 0
        then Second - Millisecond * 20 * level2 else 0) ∧
      (0 < period ↔ level2 < 50) := by
  have hdiv : Int.tdiv g.lines 10 = g.lines / 10 := Int.tdiv_eq_ediv hlines (by decide)
  unfold Millisecond at hfit
  have hperiod : ∀ lv : Int, 1 ≤ lv → lv ≤ g.level + 1 →
      wrapInt (Second - wrapInt (Millisecond * wrapInt (lv * 20)))
        = Second - Millisecond * 20 * lv := by
    intro lv h1 h2
    unfold Second Millisecond
    rw [wrapInt_of_inRange (z := lv * 20) (by unfold InRange; omega)]
    rw [wrapInt_of_inRange (z := 1000000 * (lv * 20)) (by unfold InRange; omega)]
    rw [wrapInt_of_inRange (by unfold InRange; omega)]
    omega
  by_cases hup : g.lines / 10 ≥ g.level
  · have hw : wrapInt (g.level + 1) = g.level + 1 :=
      wrapInt_of_inRange (by unfold InRange; omega)
    refine ⟨g.level + 1, _, ?_, by rw [if_pos hup], rfl, ?_⟩
    · unfold game.levelUp
      simp only [hdiv, hup, if_true, hw, ge_iff_le]
      rw [hperiod (g.level + 1) (by omega) (le_refl _)]
      split <;> rfl
    · unfold Second Millisecond
      split <;> omega
  · refine ⟨g.level, _, ?_, by rw [if_neg hup], rfl, ?_⟩
    · unfold game.levelUp
      simp only [hdiv, hup, if_false, ge_iff_le]
      rw [hperiod g.level hlevel (by omega)]
      split <;> rfl
    · unfold Second Millisecond
      split <;> omega

/-- Witness of the amended C18: at level 2 with 30 lines the level becomes 3 and the period
940 ms; at level 49 with 490 lines the level becomes 50 and the period 0. -/
theorem levelUp_spec_witness :
    (∃ level2 period,
      game.levelUp { newGame with level := 2, lines := 30 }
        = (period, { ({ newGame with level := 2, lines := 30 } : game)
            with level := level2 }) ∧
      level2 = (if (30 : Int) / 10 ≥ 2 then 2 + 1 else 2) ∧
      period = (if Second - Millisecond * 20 * level2 > 0
        then Second - Millisecond * 20 * level2 else 0) ∧
      (0 < period ↔ level2 < 50)) ∧
    game.levelUp { newGame with level := 2, lines := 30 }
      = (940000000, { newGame with level := 3, lines := 30 }) ∧
    game.levelUp { newGame with level := 49, lines := 490 }
      = (0, { newGame with level := 50, lines := 490 }) ∧
    New = Res.ok newGame :=
  ⟨levelUp_spec { newGame with level := 2, lines := 30 } (by decide) (by decide) (by decide),
    by decide, by decide, by decide⟩

/-! ## Landings -/

theorem game.levelUp_snd (g : game) (hlines : 0 ≤ g.lines) (hlevel : InRange (g.level + 1)) :
    (g.levelUp).2 = if g.lines / 10 ≥ g.level then { g with level := g.level + 1 } else g := by
  have hdiv : Int.tdiv g.lines 10 = g.lines / 10 := Int.tdiv_eq_ediv hlines (by decide)
  unfold game.levelUp
  simp only [hdiv, wrapInt_of_inRange hlevel]
  split <;> (split <;> rfl)

/-- One landing on a game whose level is `lines / 10 + 1`: the lines grow by the cleared
count, the level is `lines / 10 + 1` again, and it has risen by at most one. -/
theorem game.landing_step (g : game) (hlines : 0 ≤ g.lines)
    (hinv : g.level = g.lines / 10 + 1) (c : Int) (hc : 0 ≤ c ∧ c ≤ 4)
    (hfit : g.lines + c < 9223372036854775808) :
    (g.landing c).2 = { g with lines := g.lines + c, level := (g.lines + c) / 10 + 1 } ∧
      g.level ≤ (g.lines + c) / 10 + 1 ∧ (g.lines + c) / 10 + 1 ≤ g.level + 1 := by
  have hw : wrapInt (g.lines + c) = g.lines + c :=
    wrapInt_of_inRange (by unfold InRange; omega)
  have hlv : InRange (g.level + 1) := by
    unfold InRange
    omega
  have hfirst : (game.levelUp { g with lines := g.lines + c }).2
      = { g with lines := g.lines + c, level := (g.lines + c) / 10 + 1 } := by
    rw [game.levelUp_snd _ (by simp only; omega) (by simpa using hlv)]
    simp only
    by_cases hup : (g.lines + c) / 10 ≥ g.level
    · rw [if_pos hup]
      have : g.level + 1 = (g.lines + c) / 10 + 1 := by omega
      rw [this]
    · rw [if_neg hup]
      have : g.level = (g.lines + c) / 10 + 1 := by omega
      cases g
      simp only at this
      subst this
      rfl
  have hsecond : (game.levelUp
      { g with lines := g.lines + c, level := (g.lines + c) / 10 + 1 }).2
      = { g with lines := g.lines + c, level := (g.lines + c) / 10 + 1 } := by
    rw [game.levelUp_snd _ (by simp only; omega) (by simp only; unfold InRange; omega)]
    simp only
    rw [if_neg (by omega)]
  refine ⟨?_, by omega, by omega⟩
  unfold game.landing
  simp only [hw]
  split
  · simp only [hfirst, hsecond]
  · simp only [hfirst]

theorem game.landings_inv (cs : List Int) :
    ∀ (g : game), 0 ≤ g.lines → g.level = g.lines / 10 + 1 →
      (∀ c ∈ cs, 0 ≤ c ∧ c ≤ 4) → g.lines + cs.sum < 9223372036854775808 →
      (g.landings cs).lines = g.lines + cs.sum ∧
        (g.landings cs).level = (g.landings cs).lines / 10 + 1 := by
  induction cs with
  | nil =>
    intro g _ hinv _ _
    have hnil : g.landings [] = g := rfl
    rw [hnil, List.sum_nil, add_zero]
    exact ⟨rfl, hinv⟩
  | cons c cs ih =>
    intro g hlines hinv hcs hsum
    have hc := hcs c (List.mem_cons_self _ _)
    have hrest : ∀ d ∈ cs, 0 ≤ d ∧ d ≤ 4 := fun d hd => hcs d (List.mem_cons_of_mem _ hd)
    have hnn : 0 ≤ cs.sum := List.sum_nonneg (fun d hd => (hrest d hd).1)
    simp only [List.sum_cons] at hsum
    obtain ⟨hstep, _, _⟩ := game.landing_step g hlines hinv c hc (by omega)
    have hcons : g.landings (c :: cs) = game.landings (g.landing c).2 cs := rfl
    rw [hcons, hstep, List.sum_cons]
    have := ih { g with lines := g.lines + c, level := (g.lines + c) / 10 + 1 }
      (by simp only; omega) rfl hrest (by simp only; omega)
    simp only at this
    rw [this.2, this.1]
    exact ⟨by omega, rfl⟩

/-- The result of `levelUp` does not depend on the controller the game holds. -/
theorem game.levelUp_gameBoard (g : game) (gb : Gotris.gameBoard) :
    game.levelUp { g with gameBoard := gb }
      = ((g.levelUp).1, { (g.levelUp).2 with gameBoard := gb }) := by
  unfold game.levelUp
  simp only
  split <;> (split <;> rfl)

/-- The gravity branch of `Run` changes lines and level as `landing` does: either the piece
moves down and neither changes, or the piece lands and lines, level and the ticker period
are those of `landing` for the count `k` that `Compact` returned. -/
theorem game.gravity_landing (g : game) (piece : Piece) (outcome : List (Fin 7 × Fin 7))
    (r : game × Piece × Bool × Option Int) (h : g.gravity piece outcome = Res.ok r) :
    (r.1.lines = g.lines ∧ r.1.level = g.level) ∨
    ∃ (stacked b2 : board) (k : Int), stacked.Compact = Res.ok (k, b2) ∧
      r.1.lines = (g.landing k).2.lines ∧ r.1.level = (g.landing k).2.level ∧
      r.2.2.2 = (g.landing k).1 := by
  unfold game.gravity at h
  cases ha : g.gameBoard.Apply piece [Move Down] with
  | crash => rw [ha] at h; exact absurd h (by simp)
  | timeout => rw [ha] at h; exact absurd h (by simp)
  | ok a =>
    rw [ha, Res.bind_ok] at h
    by_cases hmove : a.1 = true
    · rw [if_pos hmove] at h
      cases h
      exact Or.inl ⟨rfl, rfl⟩
    · rw [if_neg hmove] at h
      cases hs : a.2.1.Board.Stack a.2.2.Grid a.2.2.Location with
      | crash => rw [hs] at h; exact absurd h (by simp)
      | timeout => rw [hs] at h; exact absurd h (by simp)
      | ok stacked =>
        rw [hs, Res.bind_ok] at h
        cases hc : stacked.Compact with
        | crash => rw [hc] at h; exact absurd h (by simp)
        | timeout => rw [hc] at h; exact absurd h (by simp)
        | ok c =>
          rw [hc, Res.bind_ok] at h
          cases hn : Gotris.gameBoard.Next { a.2.1 with Board := c.2 } outcome with
          | crash => rw [hn] at h; exact absurd h (by simp)
          | timeout => rw [hn] at h; exact absurd h (by simp)
          | ok n =>
            rw [hn, Res.bind_ok] at h
            cases hn1 : n.1 with
            | none => rw [hn1] at h; exact absurd h (by simp)
            | some next =>
              rw [hn1] at h
              simp only at h
              cases ht : n.2.IsTopOut next with
              | crash => rw [ht] at h; exact absurd h (by simp)
              | timeout => rw [ht] at h; exact absurd h (by simp)
              | ok t =>
                rw [ht, Res.bind_ok] at h
                refine Or.inr ⟨stacked, c.2, c.1, hc, ?_⟩
                have e1 := game.levelUp_gameBoard { g with lines := wrapInt (g.lines + c.1) }
                  t.2.1
                simp only at e1
                simp only [e1] at h
                unfold game.landing
                simp only
                by_cases hp : (game.levelUp { g with lines := wrapInt (g.lines + c.1) }).1 > 0
                · rw [if_pos hp] at h
                  have e2 := game.levelUp_gameBoard
                    (game.levelUp { g with lines := wrapInt (g.lines + c.1) }).2 t.2.1
                  rw [e2] at h
                  cases h
                  rw [if_pos hp]
                  exact ⟨rfl, rfl, rfl⟩
                · rw [if_neg hp] at h
                  cases h
                  rw [if_neg hp]
                  exact ⟨rfl, rfl, rfl⟩

/-- C20: starting from level 1 and 0 lines, if every landing adds between 0 and 4 cleared
lines to the line total (the total staying a Go `int`) and then calls `levelUp` once and,
when that result is positive, a second time, then after every landing
`level = lines / 10 + 1`, and no landing raises the level by more than one. -/
theorem landings_level (g : game) (hlevel : g.level = 1) (hlines : g.lines = 0)
    (pre : List Int) (c : Int) (hpre : ∀ d ∈ pre, 0 ≤ d ∧ d ≤ 4) (hc : 0 ≤ c ∧ c ≤ 4)
    (hsum : pre.sum + c < 9223372036854775808) :
    ((g.landings pre).landing c).2.lines = pre.sum + c ∧
    ((g.landings pre).landing c).2.level = ((g.landings pre).landing c).2.lines / 10 + 1 ∧
    (g.landings pre).level ≤ ((g.landings pre).landing c).2.level ∧
    ((g.landings pre).landing c).2.level ≤ (g.landings pre).level + 1 := by
  have hnn : 0 ≤ pre.sum := List.sum_nonneg (fun d hd => (hpre d hd).1)
  obtain ⟨h1, h2⟩ := game.landings_inv pre g (by omega) (by omega) hpre (by omega)
  rw [hlines, zero_add] at h1
  obtain ⟨hstep, h3, h4⟩ := game.landing_step (g.landings pre) (by omega) h2 c hc (by omega)
  rw [hstep]
  simp only
  rw [h1] at h3 h4 ⊢
  exact ⟨rfl, trivial, h3, h4⟩

/-- Witness of C20: after landings clearing 4, 4 and 1 lines, a landing that clears 4 more
brings the new game to 13 lines and level 2. -/
theorem landings_level_witness :
    newGame.level = 1 ∧ newGame.lines = 0 ∧
    ((newGame.landings [4, 4, 1]).landing 4).2.lines = [4, 4, 1].sum + 4 ∧
    ((newGame.landings [4, 4, 1]).landing 4).2.level
      = ((newGame.landings [4, 4, 1]).landing 4).2.lines / 10 + 1 ∧
    (newGame.landings [4, 4, 1]).level ≤ ((newGame.landings [4, 4, 1]).landing 4).2.level ∧
    ((newGame.landings [4, 4, 1]).landing 4).2.level ≤ (newGame.landings [4, 4, 1]).level + 1 :=
  ⟨rfl, rfl, landings_level newGame rfl rfl [4, 4, 1] 4 (by decide) (by decide) (by decide)⟩

/-! ## Safety of the unchecked read -/

theorem foldRes_inv {α σ : Type} (Inv : σ → Prop) (fn : α → σ → Res σ)
    (h : ∀ c s, Inv s → ∃ s2, fn c s = Res.ok s2 ∧ Inv s2) :
    ∀ (cs : List α) (s : σ), Inv s → ∃ s2, foldRes fn cs s = Res.ok s2 ∧ Inv s2 := by
  intro cs
  induction cs with
  | nil => exact fun s hs => ⟨s, rfl, hs⟩
  | cons c cs ih =>
    intro s hs
    obtain ⟨s1, h1, hinv1⟩ := h c s hs
    obtain ⟨s2, h2, hinv2⟩ := ih s1 hinv1
    exact ⟨s2, by simp only [foldRes, h1, Res.bind_ok, h2], hinv2⟩

/-- One step of `Stack` on a well-formed board does not fault and keeps the board well-formed
with the same dimensions, whatever the cell and the location. -/
theorem board.stackCell_WF {b : board} (l : Location) (row col : Int) (s : State)
    (rows cols : Int) (hb : b.WF ∧ b.rows = rows ∧ b.cols = cols) :
    ∃ b2, board.stackCell l row col s b = Res.ok b2 ∧
      (b2.WF ∧ b2.rows = rows ∧ b2.cols = cols) := by
  unfold board.stackCell
  by_cases hs : s = Gotris.Empty
  · exact ⟨b, by simp [hs], hb⟩
  · by_cases hc : b.Contains { X := wrapInt (col + l.X), Y := wrapInt (row + l.Y) } = true
    · simp only [ne_eq, hs, not_false_eq_true, if_true, hc]
      rw [board.Empty_of_Contains hb.1 hc, Res.bind_ok]
      split
      · obtain ⟨b2, h1, h2, h3, h4, _⟩ := board.setCell_spec hb.1 hc s
        exact ⟨b2, h1, h4, h2.trans hb.2.1, h3.trans hb.2.2⟩
      · exact ⟨b, rfl, hb⟩
    · exact ⟨b, by simp [hs, hc], hb⟩

/-- Stack on a well-formed board returns for every overlay grid and every location, and the
board stays well-formed with the same dimensions. -/
theorem board.Stack_WF {b : board} (hb : b.WF) (grid : Grid) (l : Location) :
    ∃ b2, b.Stack grid l = Res.ok b2 ∧ b2.WF ∧ b2.rows = b.rows ∧ b2.cols = b.cols := by
  unfold board.Stack
  rw [Walk_eq_foldRes]
  exact foldRes_inv (fun s => s.WF ∧ s.rows = b.rows ∧ s.cols = b.cols) _
    (fun c s hs => board.stackCell_WF l _ _ _ b.rows b.cols hs) _ b ⟨hb, rfl, rfl⟩

theorem board.Compact_WF {b : board} (hb : b.WF) :
    ∃ k b2, b.Compact = Res.ok (k, b2) ∧ b2.WF ∧ b2.rows = b.rows ∧ b2.cols = b.cols := by
  refine ⟨_, _, board.Compact_eq hb, ?_, rfl, rfl⟩
  obtain ⟨h3, h4, h5, h6⟩ := hb
  refine ⟨h3, h4, ?_, ?_⟩
  · have hlen := List.length_eq_countP_add_countP fullRow b.grid
    have hf : (b.grid.filter (fun r => !fullRow r)).length
        = b.grid.countP (fun a => decide ¬fullRow a = true) := by
      rw [List.countP_eq_length_filter]
      congr 2
      funext r
      cases fullRow r <;> rfl
    simp only [List.length_append, List.length_replicate, hf]
    rw [← h5]
    push_cast
    omega
  · intro r hr
    simp only [List.mem_append, List.mem_replicate, List.mem_filter] at hr
    rcases hr with ⟨hne, rfl⟩ | ⟨hr, _⟩
    · obtain ⟨r, hr, _⟩ := List.countP_pos_iff.1 (Nat.pos_of_ne_zero hne)
      have := h6 r hr
      simp only [List.length_replicate]
      omega
    · exact h6 r hr

theorem board.Clear_WF {b : board} (hb : b.WF) (hr : 0 ≤ b.rows) (hc : 0 ≤ b.cols) :
    ∃ b2, b.Clear = Res.ok b2 ∧ b2.WF ∧ b2.rows = b.rows ∧ b2.cols = b.cols := by
  refine ⟨{ b with grid :=
      List.replicate b.rows.toNat (List.replicate b.cols.toNat Gotris.Empty) },
    by simp [board.Clear, NewGrid_eq hr hc], ⟨hb.1, hb.2.1, ?_, ?_⟩, rfl, rfl⟩
  · simp only [List.length_replicate]
    omega
  · intro r hr2
    rw [(List.mem_replicate.1 hr2).2]
    simp only [List.length_replicate]
    omega

/-- Every board reachable from `NewBoard(rows, cols)` with non-negative dimensions is
well-formed with those dimensions. -/
theorem board.Reachable.wf {rows cols : Int} (hr : 0 ≤ rows) (hc : 0 ≤ cols)
    (hrr : InRange rows) (hcr : InRange cols) {b : board}
    (h : board.Reachable rows cols b) : b.WF ∧ b.rows = rows ∧ b.cols = cols := by
  induction h with
  | new hnew =>
    obtain ⟨h1, h2⟩ := NewBoard_WF hr hc hrr hcr
    rw [h1] at hnew
    cases hnew
    exact ⟨h2, rfl, rfl⟩
  | stack grid l _ hst ih =>
    obtain ⟨b3, h1, h2, h3, h4⟩ := board.Stack_WF ih.1 grid l
    rw [h1] at hst
    cases hst
    exact ⟨h2, h3.trans ih.2.1, h4.trans ih.2.2⟩
  | compact k _ hco ih =>
    obtain ⟨k2, b3, h1, h2, h3, h4⟩ := board.Compact_WF ih.1
    rw [h1] at hco
    cases hco
    exact ⟨h2, h3.trans ih.2.1, h4.trans ih.2.2⟩
  | clear _ hcl ih =>
    obtain ⟨b3, h1, h2, h3, h4⟩ :=
      board.Clear_WF ih.1 (by rw [ih.2.1]; exact hr) (by rw [ih.2.2]; exact hc)
    rw [h1] at hcl
    cases hcl
    exact ⟨h2, h3.trans ih.2.1, h4.trans ih.2.2⟩

/-- On a well-formed board the unchecked read faults exactly outside the bounds. -/
theorem board.Empty_crash_iff {b : board} (hb : b.WF) (l : Location) :
    b.Empty l = Res.crash ↔ b.Contains l = false := by
  constructor
  · intro h
    by_contra hcon
    rw [Bool.not_eq_false] at hcon
    rw [board.Empty_of_Contains hb hcon] at h
    exact absurd h (by simp)
  · intro h
    have hn : ¬ (0 ≤ l.X ∧ l.X < b.cols ∧ 0 ≤ l.Y ∧ l.Y < b.rows) := by
      rw [← board.Contains_iff, h]
      simp
    obtain ⟨_, _, h5, h6⟩ := hb
    unfold board.Empty index
    by_cases hy : l.Y < 0
    · simp [hy]
    · rw [if_neg hy]
      cases hrow : b.grid[l.Y.toNat]? with
      | none => simp
      | some r =>
        obtain ⟨h1, h2⟩ := List.getElem?_eq_some.1 hrow
        have hrl := h6 r (h2 ▸ List.getElem_mem h1)
        simp only [Res.bind_ok]
        by_cases hx : l.X < 0
        · simp [hx]
        · rw [if_neg hx]
          have hge : r.length ≤ l.X.toNat := by omega
          rw [List.getElem?_eq_none hge]
          simp

/-- On a well-formed board, once `Clone` has returned the shape, `IsTopOut` returns for every
piece and every location. -/
theorem gameBoard.IsTopOut_of_Clone {b : gameBoard} (hb : b.Board.WF) (piece : Piece)
    {shape : Grid} (hclone : Grid.Clone piece.Grid = Res.ok shape) :
    b.IsTopOut piece
      = Res.ok ((gridCells 0 shape).any (b.Board.hits piece.Location), b, piece) := by
  unfold gameBoard.IsTopOut
  rw [hclone, Res.bind_ok, Walk_eq_foldRes,
    foldRes_any _ (b.Board.hits piece.Location)
      (fun c acc => gameBoard.topOutCell_eq hb piece c acc)]
  simp

/-- C17: every board created by `NewBoard(rows, cols)` with `rows >= 0` and `cols >= 0` and
then changed by any sequence of Stack, Compact and Clear (each of which returns, on every
argument) stores a grid of exactly `rows` rows of exactly `cols` cells. On such a board the
unchecked read `Empty(l)` faults exactly when `Contains(l)` is false, and `Test`, `Stack` and
`IsTopOut` return without a fault for every overlay grid and every location: they never index
the grid out of range, so they read `Empty(l)` only where `Contains(l)` is true. -/
theorem board_safety (rows cols : Int) (hr : 0 ≤ rows) (hc : 0 ≤ cols) (hrr : InRange rows)
    (hcr : InRange cols) (b : board) (hreach : board.Reachable rows cols b) :
    (b.rows = rows ∧ b.cols = cols ∧ (b.grid.length : Int) = rows ∧
      ∀ r ∈ b.grid, (r.length : Int) = cols) ∧
    (∀ l, b.Empty l = Res.crash ↔ b.Contains l = false) ∧
    (∀ (grid : Grid) (l : Location), ∃ ok, b.Test grid l = Res.ok (ok, b)) ∧
    (∀ (grid : Grid) (l : Location),
      ∃ b2, b.Stack grid l = Res.ok b2 ∧ board.Reachable rows cols b2) ∧
    (∀ (gb : gameBoard) (piece : Piece) (shape : Grid), gb.Board = b →
      Grid.Clone piece.Grid = Res.ok shape →
      ∃ topOut, gb.IsTopOut piece = Res.ok (topOut, gb, piece)) ∧
    (∃ k b2, b.Compact = Res.ok (k, b2) ∧ board.Reachable rows cols b2) ∧
    (∃ b2, b.Clear = Res.ok b2 ∧ board.Reachable rows cols b2) := by
  obtain ⟨hwf, hrows, hcols⟩ := board.Reachable.wf hr hc hrr hcr hreach
  refine ⟨⟨hrows, hcols, ?_, ?_⟩, board.Empty_crash_iff hwf,
    fun grid l => ⟨_, board.Test_eq hwf grid l⟩, ?_, ?_, ?_, ?_⟩
  · rw [← hrows]
    exact hwf.2.2.1
  · rw [← hcols]
    exact hwf.2.2.2
  · intro grid l
    obtain ⟨b2, h1, _⟩ := board.Stack_WF hwf grid l
    exact ⟨b2, h1, board.Reachable.stack grid l hreach h1⟩
  · intro gb piece shape hgb hclone
    subst hgb
    exact ⟨_, gameBoard.IsTopOut_of_Clone hwf piece hclone⟩
  · obtain ⟨k, b2, h1, _⟩ := board.Compact_WF hwf
    exact ⟨k, b2, h1, board.Reachable.compact k hreach h1⟩
  · obtain ⟨b2, h1, _⟩ :=
      board.Clear_WF hwf (by rw [hrows]; exact hr) (by rw [hcols]; exact hc)
    exact ⟨b2, h1, board.Reachable.clear hreach h1⟩

theorem bottomFullBoard_reachable : board.Reachable 4 4 bottomFullBoard :=
  board.Reachable.stack [[1, 1, 1, 1]] ⟨0, 3⟩
    (@board.Reachable.new 4 4 emptyBoard4 (by decide)) (by decide)

/-- Witness of C17: the 4x4 board with a full bottom row, reached from `NewBoard(4, 4)` by one
Stack; `Test` and `Stack` return there for a location at the ends of the `int` range. -/
theorem board_safety_witness :
    board.Reachable 4 4 bottomFullBoard ∧
    (bottomFullBoard.rows = 4 ∧ bottomFullBoard.cols = 4 ∧
      (bottomFullBoard.grid.length : Int) = 4 ∧
      ∀ r ∈ bottomFullBoard.grid, (r.length : Int) = 4) ∧
    (∃ ok, bottomFullBoard.Test [[1, 1], [1, 1]]
        { X := 9223372036854775807, Y := -9223372036854775808 }
      = Res.ok (ok, bottomFullBoard)) ∧
    (∃ b2, bottomFullBoard.Stack [[1, 1], [1, 1]]
        { X := 9223372036854775807, Y := -9223372036854775808 } = Res.ok b2 ∧
      board.Reachable 4 4 b2) :=
  ⟨bottomFullBoard_reachable,
    (board_safety 4 4 (by decide) (by decide) (by decide) (by decide) bottomFullBoard
      bottomFullBoard_reachable).1,
    (board_safety 4 4 (by decide) (by decide) (by decide) (by decide) bottomFullBoard
      bottomFullBoard_reachable).2.2.1 _ _,
    (board_safety 4 4 (by decide) (by decide) (by decide) (by decide) bottomFullBoard
      bottomFullBoard_reachable).2.2.2.1 _ _⟩

/-! ## The queue: refill -/

theorem newBag_eq : newBag = Res.ok canonicalBag := by decide

theorem index_natCast {α : Type} {xs : List α} {i : Nat} (h : i < xs.length) :
    index xs (i : Int) = Res.ok xs[i] :=
  index_eq_ok (Int.ofNat_nonneg i) (by simp [List.getElem?_eq_getElem h])

theorem setIndex_natCast {α : Type} {xs : List α} {i : Nat} (x : α) (h : i < xs.length) :
    setIndex xs (i : Int) x = Res.ok (xs.set i x) := by
  rw [setIndex_eq_ok x (Int.ofNat_nonneg i) (by simpa using h)]
  simp

/-- Swapping two elements of a slice rearranges it. -/
theorem swap_perm {α : Type} [DecidableEq α] (seq : List α) {i j : Nat}
    (hi : i < seq.length) (hj : j < seq.length) :
    ((seq.set i seq[j]).set j seq[i]).Perm seq := by
  rw [List.perm_iff_count]
  intro x
  have hj2 : j < (seq.set i seq[j]).length := by simpa using hj
  rw [List.count_set _ _ _ _ hj2, List.count_set _ _ _ _ hi]
  have hget : (seq.set i seq[j])[j] = seq[j] := by
    rw [List.getElem_set]
    split
    · rfl
    · rfl
  rw [hget]
  have hpos : (seq[i] == x) = true → 0 < seq.count x := by
    intro h
    have hx : seq[i] = x := by simpa using h
    exact List.count_pos_iff.2 (hx ▸ List.getElem_mem hi)
  cases h1 : (seq[i] == x) <;> cases h2 : (seq[j] == x) <;> simp
  · have := hpos h1
    omega
  · have := hpos h1
    omega

theorem swapAt_perm {α : Type} [DecidableEq α] (seq : List α) {i j : Nat}
    (hi : i < seq.length) (hj : j < seq.length) :
    ∃ s, swapAt seq (i : Int) (j : Int) = Res.ok s ∧ s.Perm seq := by
  refine ⟨(seq.set i seq[j]).set j seq[i], ?_, swap_perm seq hi hj⟩
  unfold swapAt
  rw [index_natCast hj, Res.bind_ok, index_natCast hi, Res.bind_ok, setIndex_natCast _ hi,
    Res.bind_ok, setIndex_natCast _ (by simpa using hj)]

/-- For every outcome of the random source, `Shuffle` returns a rearrangement of the seven
elements it is given. -/
theorem Shuffle_perm {α : Type} [DecidableEq α] (outcome : List (Fin 7 × Fin 7)) :
    ∀ seq : List α, seq.length = 7 → ∃ s, Shuffle outcome seq = Res.ok s ∧ s.Perm seq := by
  induction outcome with
  | nil => exact fun seq _ => ⟨seq, rfl, List.Perm.refl _⟩
  | cons o rest ih =>
    intro seq hlen
    obtain ⟨i, j⟩ := o
    obtain ⟨s1, h1, p1⟩ := swapAt_perm seq (i := i.val) (j := j.val)
      (by rw [hlen]; exact i.isLt) (by rw [hlen]; exact j.isLt)
    obtain ⟨s2, h2, p2⟩ := ih s1 (by rw [p1.length_eq, hlen])
    exact ⟨s2, by simp only [Shuffle, h1, Res.bind_ok, h2], p2.trans p1⟩

/-- The refill of `Next`: with at most 3 queued tetrominoes a rearrangement of the seven
canonical ones is appended, with more than 3 nothing is. -/
theorem gameBoard.refill_eq (b : gameBoard) (outcome : List (Fin 7 × Fin 7)) :
    (b.upcoming.length ≤ 3 →
      ∃ batch, batch.Perm canonicalBag ∧
        b.refill outcome = Res.ok { b with upcoming := b.upcoming ++ batch }) ∧
    (3 < b.upcoming.length → b.refill outcome = Res.ok b) := by
  constructor
  · intro h
    obtain ⟨batch, h1, p1⟩ := Shuffle_perm outcome canonicalBag rfl
    exact ⟨batch, p1, by simp only [gameBoard.refill, h, if_true, newBag_eq, Res.bind_ok, h1]⟩
  · intro h
    simp only [gameBoard.refill, if_neg (not_le.2 h)]

theorem canonicalBag_grids :
    ∀ t ∈ canonicalBag, Grid.Rect t.grid ∧ t.grid ≠ [] := by decide

/-- Popping a canonical tetromino off the queue returns its piece. -/
theorem gameBoard.pop_cons (b : gameBoard) {head : tetromino} {rest : List tetromino}
    (hq : b.upcoming = head :: rest) (hhead : head ∈ canonicalBag) :
    b.pop = Res.ok (some (spawnPiece b.cols head), { b with upcoming := rest }) := by
  obtain ⟨hrect, hne⟩ := canonicalBag_grids head hhead
  unfold gameBoard.pop
  rw [hq]
  simp only [tetromino.Grid, Grid.Clone_eq hrect, Res.bind_ok]
  cases hg : head.grid with
  | nil => exact absurd hg hne
  | cons r0 rs =>
    simp [index, spawnPiece, hg]

/-- Next on a queue of canonical tetrominoes: the head of the refilled queue is returned as
a piece and the rest of it is the new queue. -/
theorem gameBoard.Next_eq (b : gameBoard) (outcome : List (Fin 7 × Fin 7))
    (hq : ∀ t ∈ b.upcoming, t ∈ canonicalBag) :
    ∃ batch head rest,
      (b.upcoming.length ≤ 3 → batch.Perm canonicalBag) ∧
      (3 < b.upcoming.length → batch = []) ∧
      b.upcoming ++ batch = head :: rest ∧ head ∈ canonicalBag ∧
      (∀ t ∈ rest, t ∈ canonicalBag) ∧
      b.refill outcome = Res.ok { b with upcoming := b.upcoming ++ batch } ∧
      b.Next outcome
        = Res.ok (some (spawnPiece b.cols head), { b with upcoming := rest }) := by
  obtain ⟨hfill, hkeep⟩ := gameBoard.refill_eq b outcome
  have hfinish : ∀ batch : List tetromino, (∀ t ∈ batch, t ∈ canonicalBag) →
      b.upcoming ++ batch ≠ [] →
      b.refill outcome = Res.ok { b with upcoming := b.upcoming ++ batch } →
      ∃ head rest, b.upcoming ++ batch = head :: rest ∧ head ∈ canonicalBag ∧
        (∀ t ∈ rest, t ∈ canonicalBag) ∧
        b.refill outcome = Res.ok { b with upcoming := b.upcoming ++ batch } ∧
        b.Next outcome
          = Res.ok (some (spawnPiece b.cols head), { b with upcoming := rest }) := by
    intro batch hbatch hne hre
    cases hall : b.upcoming ++ batch with
    | nil => exact absurd hall hne
    | cons head rest =>
      have hmem : ∀ t ∈ head :: rest, t ∈ canonicalBag := by
        intro t ht
        rw [← hall] at ht
        rcases List.mem_append.1 ht with h | h
        · exact hq t h
        · exact hbatch t h
      refine ⟨head, rest, rfl, hmem head (List.mem_cons_self _ _),
        fun t ht => hmem t (List.mem_cons_of_mem _ ht), by rw [hre, hall], ?_⟩
      unfold gameBoard.Next
      rw [hre, Res.bind_ok]
      exact gameBoard.pop_cons { b with upcoming := b.upcoming ++ batch } hall
        (hmem head (List.mem_cons_self _ _))
  by_cases hlen : b.upcoming.length ≤ 3
  · obtain ⟨batch, hperm, hre⟩ := hfill hlen
    have hbl : batch.length = 7 := hperm.length_eq
    obtain ⟨head, rest, h1, h2, h3, h4, h5⟩ := hfinish batch
      (fun t ht => hperm.subset ht)
      (by
        intro hcon
        have := congrArg List.length hcon
        simp only [List.length_append, List.length_nil] at this
        omega)
      hre
    exact ⟨batch, head, rest, fun _ => hperm, fun h => absurd h (by omega), h1, h2, h3,
      h4, h5⟩
  · have hlt : 3 < b.upcoming.length := by omega
    obtain ⟨head, rest, h1, h2, h3, h4, h5⟩ := hfinish [] (by simp)
      (by
        intro hcon
        have := congrArg List.length hcon
        simp only [List.append_nil, List.length_nil] at this
        omega)
      (by rw [List.append_nil]; exact hkeep hlt)
    exact ⟨[], head, rest, fun h => absurd h hlen, fun _ => rfl, h1, h2, h3, h4, h5⟩

/-- C11: for every call of `Next` made while the queue holds at most 3 tetrominoes, and for
every outcome of the shuffle, exactly 7 tetrominoes are appended to the tail of the queue
before the head is popped, and they are one each of the canonical I, J, L, O, S, T, Z (the
values of `NewI` .. `NewZ`) in some order; when the queue holds more than 3 tetrominoes,
`Next` appends nothing. In both cases `Next` then pops the head and returns it as a piece. -/
theorem Next_refill (b : gameBoard) (outcome : List (Fin 7 × Fin 7))
    (hq : ∀ t ∈ b.upcoming, t ∈ canonicalBag) :
    newBag = Res.ok canonicalBag ∧
    (b.upcoming.length ≤ 3 →
      ∃ batch, batch.Perm canonicalBag ∧ batch.length = 7 ∧
        b.refill outcome = Res.ok { b with upcoming := b.upcoming ++ batch } ∧
        ∃ piece, b.Next outcome
          = Res.ok (some piece, { b with upcoming := (b.upcoming ++ batch).tail })) ∧
    (3 < b.upcoming.length →
      b.refill outcome = Res.ok b ∧
        ∃ piece, b.Next outcome = Res.ok (some piece, { b with upcoming := b.upcoming.tail })) := by
  obtain ⟨batch, head, rest, h1, h2, h3, _, _, h6, h7⟩ := gameBoard.Next_eq b outcome hq
  refine ⟨newBag_eq, ?_, ?_⟩
  · intro hlen
    refine ⟨batch, h1 hlen, (h1 hlen).length_eq, h6, spawnPiece b.cols head, ?_⟩
    rw [h7, h3]
    rfl
  · intro hlen
    have hb := h2 hlen
    subst hb
    rw [List.append_nil] at h3 h6
    refine ⟨h6, spawnPiece b.cols head, ?_⟩
    rw [h7, h3]
    rfl

/-- Witness of C11: the first call of `Next` on the new 20x10 controller, with a shuffle that
swaps the I and the O: the queue becomes O, J, L, I, S, T, Z, the O is popped and spawned
at column 4. -/
theorem Next_refill_witness :
    (∀ t ∈ emptyGame20.upcoming, t ∈ canonicalBag) ∧
    (emptyGame20.upcoming.length ≤ 3 →
      ∃ batch, batch.Perm canonicalBag ∧ batch.length = 7 ∧
        emptyGame20.refill [(0, 3)]
          = Res.ok { emptyGame20 with upcoming := emptyGame20.upcoming ++ batch } ∧
        ∃ piece, emptyGame20.Next [(0, 3)]
          = Res.ok (some piece,
              { emptyGame20 with upcoming := (emptyGame20.upcoming ++ batch).tail })) ∧
    ((emptyGame20.Next [(0, 3)]).bind fun r => Res.ok (r.1, r.2.upcoming.length))
      = Res.ok (some { Grid := [[3, 3], [3, 3]], Location := { X := 4, Y := 0 } }, 6) :=
  ⟨by decide, (Next_refill emptyGame20 [(0, 3)] (by decide)).2.1, by decide⟩

/-! ## The queue: invariant -/

theorem gameBoard.Apply_upcoming (cs : List Control) :
    ∀ (gb : gameBoard) (p : Piece) (t : Bool) (gb2 : gameBoard) (p2 : Piece),
      gb.Apply p cs = Res.ok (t, gb2, p2) → gb2.upcoming = gb.upcoming := by
  induction cs with
  | nil =>
    intro gb p t gb2 p2 h
    simp only [gameBoard.Apply, Res.ok.injEq, Prod.mk.injEq] at h
    rw [← h.2.1]
  | cons c cs ih =>
    intro gb p t gb2 p2 h
    simp only [gameBoard.Apply] at h
    cases hc : c gb.Board p with
    | ok r =>
      rw [hc, Res.bind_ok] at h
      by_cases hr : r.1 = true
      · rw [if_pos hr] at h
        have hrec := ih _ _ _ _ _ h
        exact hrec
      · rw [if_neg hr] at h
        simp only [Res.ok.injEq, Prod.mk.injEq] at h
        rw [← h.2.1]
    | crash =>
      rw [hc] at h
      exact absurd h (by simp)
    | timeout =>
      rw [hc] at h
      exact absurd h (by simp)

/-- One call of `Next` on a controller satisfying the queue invariant returns a piece and
leaves between 3 and 9 canonical tetrominoes queued. -/
theorem gameBoard.Next_of_QueueInv (gb : gameBoard) (hinv : gb.QueueInv)
    (outcome : List (Fin 7 × Fin 7)) :
    ∃ piece gb2, gb.Next outcome = Res.ok (some piece, gb2) ∧ gb2.QueueInv ∧
      3 ≤ gb2.upcoming.length ∧ gb2.upcoming.length ≤ 9 := by
  obtain ⟨hcanon, hlen⟩ := hinv
  obtain ⟨batch, head, rest, h1, h2, h3, _, h5, _, h7⟩ := gameBoard.Next_eq gb outcome hcanon
  have hl := congrArg List.length h3
  simp only [List.length_append, List.length_cons] at hl
  have hrest : 3 ≤ rest.length ∧ rest.length ≤ 9 := by
    by_cases hle : gb.upcoming.length ≤ 3
    · have hb : batch.length = 7 := (h1 hle).length_eq
      rcases hlen with hnil | hrange
      · rw [hnil] at hl
        simp only [List.length_nil] at hl
        omega
      · omega
    · have hb := h2 (by omega)
      subst hb
      simp only [List.length_nil] at hl
      rcases hlen with hnil | hrange
      · rw [hnil] at hle
        simp at hle
      · omega
  exact ⟨_, _, h7, ⟨h5, Or.inr hrest⟩, hrest.1, hrest.2⟩

/-- Every controller reachable from `NewGameBoard` satisfies the queue invariant. -/
theorem gameBoard.Reachable.queueInv {rows cols : Int} {gb : gameBoard}
    (h : gameBoard.Reachable rows cols gb) : gb.QueueInv := by
  induction h with
  | new hnew =>
    unfold NewGameBoard at hnew
    cases hb : NewBoard rows cols with
    | ok bd =>
      rw [hb, Res.bind_ok] at hnew
      cases hnew
      exact ⟨by simp, Or.inl rfl⟩
    | crash =>
      rw [hb] at hnew
      exact absurd hnew (by simp)
    | timeout =>
      rw [hb] at hnew
      exact absurd hnew (by simp)
  | next outcome piece _ hnext ih =>
    obtain ⟨p, gb3, h1, h2, _, _⟩ := gameBoard.Next_of_QueueInv _ ih outcome
    rw [h1] at hnext
    cases hnext
    exact h2
  | apply piece controls ok piece2 _ happly ih =>
    have hq := gameBoard.Apply_upcoming controls _ _ _ _ _ happly
    unfold gameBoard.QueueInv
    rw [hq]
    exact ih
  | stack grid l _ _ ih => exact ih
  | compact k _ _ ih => exact ih
  | clear _ _ ih => exact ih

/-- C12: in every state reachable from `NewGameBoard` by any sequence of operations, `Next`
returns a piece, never nil, for every outcome of the shuffle, and after the call the queue
holds at least 3 and at most 9 tetrominoes. -/
theorem Next_returns_piece (rows cols : Int) (gb : gameBoard)
    (hreach : gameBoard.Reachable rows cols gb) (outcome : List (Fin 7 × Fin 7)) :
    ∃ piece gb2, gb.Next outcome = Res.ok (some piece, gb2) ∧
      3 ≤ gb2.upcoming.length ∧ gb2.upcoming.length ≤ 9 ∧
      gameBoard.Reachable rows cols gb2 := by
  obtain ⟨piece, gb2, h1, _, h3, h4⟩ :=
    gameBoard.Next_of_QueueInv gb (gameBoard.Reachable.queueInv hreach) outcome
  exact ⟨piece, gb2, h1, h3, h4, gameBoard.Reachable.next outcome (some piece) hreach h1⟩

theorem emptyGame20_reachable : gameBoard.Reachable 20 10 emptyGame20 :=
  @gameBoard.Reachable.new 20 10 emptyGame20 (by decide)

/-- Witness of C12: the first call of `Next` on the new 20x10 controller. -/
theorem Next_returns_piece_witness :
    gameBoard.Reachable 20 10 emptyGame20 ∧
    ∃ piece gb2, emptyGame20.Next [] = Res.ok (some piece, gb2) ∧
      3 ≤ gb2.upcoming.length ∧ gb2.upcoming.length ≤ 9 ∧
      gameBoard.Reachable 20 10 gb2 :=
  ⟨emptyGame20_reachable, Next_returns_piece 20 10 emptyGame20 emptyGame20_reachable []⟩

/-! ## The queue: spawn order -/

/-- A run of calls of `Next` from a queue of canonical tetrominoes: the pieces returned are
the first tetrominoes of the queue followed by the appended batches, in order; what is left of
that sequence is the new queue. -/
theorem gameBoard.nexts_eq (os : List (List (Fin 7 × Fin 7))) :
    ∀ gb : gameBoard, (∀ t ∈ gb.upcoming, t ∈ canonicalBag) →
      ∃ (batches : List (List tetromino)) (gb2 : gameBoard),
        (∀ b ∈ batches, b.Perm canonicalBag) ∧
        gb.nexts os = Res.ok
          (((gb.upcoming ++ batches.flatten).take os.length).map
            (fun t => some (spawnPiece gb.cols t)), gb2) ∧
        gb2.upcoming = (gb.upcoming ++ batches.flatten).drop os.length ∧
        gb2.upcoming.length = queueStep^[os.length] gb.upcoming.length ∧
        gb2.cols = gb.cols := by
  induction os with
  | nil =>
    intro gb _
    exact ⟨[], gb, by simp, by simp [gameBoard.nexts], by simp, rfl, rfl⟩
  | cons o os ih =>
    intro gb hq
    obtain ⟨batch, head, rest, h1, h2, h3, _, h5, _, h7⟩ := gameBoard.Next_eq gb o hq
    obtain ⟨batches1, gb2, hb1, hrun, hup, hlen, hcols⟩ :=
      ih { gb with upcoming := rest } h5
    simp only at hrun hup hlen hcols
    have hl := congrArg List.length h3
    simp only [List.length_append, List.length_cons] at hl
    have hstep : rest.length = queueStep gb.upcoming.length := by
      unfold queueStep
      by_cases hle : gb.upcoming.length ≤ 3
      · have hb : batch.length = 7 := (h1 hle).length_eq
        rw [if_pos hle]
        omega
      · have hb := h2 (by omega)
        subst hb
        rw [if_neg hle]
        simp only [List.length_nil] at hl
        omega
    have hfinal : ∀ batches : List (List tetromino),
        gb.upcoming ++ batches.flatten = head :: (rest ++ batches1.flatten) →
        gb.nexts (o :: os) = Res.ok
            (((gb.upcoming ++ batches.flatten).take (o :: os).length).map
              (fun t => some (spawnPiece gb.cols t)), gb2) ∧
          gb2.upcoming = (gb.upcoming ++ batches.flatten).drop (o :: os).length ∧
          gb2.upcoming.length = queueStep^[(o :: os).length] gb.upcoming.length ∧
          gb2.cols = gb.cols := by
      intro batches hQ
      rw [hQ]
      refine ⟨?_, ?_, ?_, hcols⟩
      · simp only [gameBoard.nexts, h7, Res.bind_ok, hrun, List.length_cons, List.take_succ_cons,
          List.map_cons]
      · simp only [List.length_cons, List.drop_succ_cons]
        exact hup
      · rw [List.length_cons, Function.iterate_succ_apply, ← hstep]
        exact hlen
    by_cases hle : gb.upcoming.length ≤ 3
    · refine ⟨batch :: batches1, gb2, ?_, hfinal _ ?_⟩
      · intro b hb
        rcases List.mem_cons.1 hb with rfl | hb
        · exact h1 hle
        · exact hb1 b hb
      · rw [List.flatten_cons, ← List.append_assoc, h3, List.cons_append]
    · have hb := h2 (by omega)
      subst hb
      rw [List.append_nil] at h3
      exact ⟨batches1, gb2, hb1, hfinal _ (by rw [h3, List.cons_append])⟩

theorem queueStep_iterate_zero (n : Nat) :
    queueStep^[n] 0 = if n = 0 then 0 else 3 + (4 + 6 * n) % 7 := by
  induction n with
  | zero => rfl
  | succ n ih =>
    rw [Function.iterate_succ_apply', ih]
    unfold queueStep
    by_cases hn : n = 0
    · subst hn
      rfl
    · rw [if_neg hn, if_neg (Nat.succ_ne_zero n)]
      split <;> omega

/-- Starting from the empty queue, the queue holds at most 3 tetrominoes after `n` calls of
`Next` exactly when `n` is 0 or 4 more than a multiple of 7. -/
theorem queueStep_iterate_le (n : Nat) :
    queueStep^[n] 0 ≤ 3 ↔ n = 0 ∨ n % 7 = 4 := by
  rw [queueStep_iterate_zero]
  by_cases hn : n = 0
  · simp [hn]
  · rw [if_neg hn]
    omega

/-- A block of seven consecutive elements of a concatenation of batches of seven, starting at
a multiple of 7, is one of the batches. -/
theorem flatten_chunk {α : Type} (batches : List (List α)) :
    (∀ b ∈ batches, b.length = 7) → ∀ k, 7 * k + 7 ≤ batches.flatten.length →
      ∃ b ∈ batches, (batches.flatten.drop (7 * k)).take 7 = b := by
  induction batches with
  | nil =>
    intro _ k hk
    simp at hk
  | cons b bs ih =>
    intro hlen k hk
    have hb : b.length = 7 := hlen b (List.mem_cons_self _ _)
    cases k with
    | zero =>
      refine ⟨b, List.mem_cons_self _ _, ?_⟩
      rw [List.flatten_cons, Nat.mul_zero, List.drop_zero, List.take_left' hb]
    | succ k =>
      rw [List.flatten_cons, List.length_append, hb] at hk
      obtain ⟨b2, hmem, h2⟩ := ih (fun c hc => hlen c (List.mem_cons_of_mem _ hc)) k (by omega)
      refine ⟨b2, List.mem_cons_of_mem _ hmem, ?_⟩
      have hdrop : (b ++ bs.flatten).drop (7 * (k + 1)) = bs.flatten.drop (7 * k) := by
        have : 7 * (k + 1) = b.length + 7 * k := by omega
        rw [this, List.drop_append]
      rw [List.flatten_cons, hdrop]
      exact h2

theorem canonicalBag_grids_nodup : (canonicalBag.map (fun t => t.grid)).Nodup := by decide

/-- In a concatenation of rearranged bags, two neighbours that are not separated by a batch
boundary have different grids. -/
theorem flatten_adjacent (batches : List (List tetromino)) :
    (∀ b ∈ batches, b.Perm canonicalBag) →
      ∀ (j : Nat) (t1 t2 : tetromino), batches.flatten[j]? = some t1 →
        batches.flatten[j + 1]? = some t2 → j % 7 ≠ 6 → t1.grid ≠ t2.grid := by
  induction batches with
  | nil =>
    intro _ j t1 t2 h1
    simp at h1
  | cons b bs ih =>
    intro hperm j t1 t2 h1 h2 hj
    have hpb := hperm b (List.mem_cons_self _ _)
    have hb : b.length = 7 := hpb.length_eq
    rw [List.flatten_cons] at h1 h2
    by_cases hlt : j + 1 < 7
    · rw [List.getElem?_append_left (by omega)] at h1 h2
      have hnd : (b.map (fun t => t.grid)).Nodup :=
        (hpb.map (fun t => t.grid)).nodup_iff.2 canonicalBag_grids_nodup
      obtain ⟨hj1, e1⟩ := List.getElem?_eq_some.1 h1
      obtain ⟨hj2, e2⟩ := List.getElem?_eq_some.1 h2
      intro heq
      have hm1 : j < (b.map (fun t => t.grid)).length := by simpa using hj1
      have hm2 : j + 1 < (b.map (fun t => t.grid)).length := by simpa using hj2
      have hidx : (b.map (fun t => t.grid))[j] = (b.map (fun t => t.grid))[j + 1] := by
        rw [List.getElem_map, List.getElem_map, e1, e2]
        exact heq
      have := hnd.getElem_inj_iff.1 hidx
      omega
    · have hge : 7 ≤ j := by omega
      rw [List.getElem?_append_right (by omega)] at h1 h2
      rw [hb] at h1 h2
      have e3 : j + 1 - 7 = (j - 7) + 1 := by omega
      rw [e3] at h2
      exact ih (fun c hc => hperm c (List.mem_cons_of_mem _ hc)) (j - 7) t1 t2 h1 h2
        (by omega)

theorem piece_of_index {cols : Int} {Q : List tetromino} {n i : Nat} {p : Piece}
    (h : ((Q.take n).map (fun t => some (spawnPiece cols t)))[i]? = some (some p)) :
    ∃ t, Q[i]? = some t ∧ p.Grid = t.grid := by
  rw [List.getElem?_map] at h
  cases ht : (Q.take n)[i]? with
  | none =>
    rw [ht] at h
    exact absurd h (by simp)
  | some t =>
    rw [ht] at h
    simp only [Option.map_some', Option.some.injEq] at h
    rw [List.getElem?_take] at ht
    by_cases hi : i < n
    · rw [if_pos hi] at ht
      exact ⟨t, ht, by rw [← h]; rfl⟩
    · rw [if_neg hi] at ht
      exact absurd ht (by simp)

/-- C19 as stated fails: on the new 20x10 controller the queue holds 3 tetrominoes after four
calls of `Next`, so the fifth call refills it (to 10, before the pop), and it holds 7 after
seven calls, so the eighth call does not: refills fall on calls 1, 5, 12, ... and not on
every seventh call starting with the first. -/
theorem refill_timing_counterexample :
    NewGameBoard 20 10 = Res.ok emptyGame20 ∧
    ((emptyGame20.nexts [[], [], [], []]).bind fun r =>
      (r.2.refill []).bind fun filled =>
      Res.ok (r.2.upcoming.length, filled.upcoming.length)) = Res.ok (3, 10) ∧
    ((emptyGame20.nexts [[], [], [], [], [], [], []]).bind fun r =>
      (r.2.refill []).bind fun filled =>
      Res.ok (r.2.upcoming.length, filled.upcoming.length)) = Res.ok (7, 7) := by
  decide

/-- C19, amended: starting from a new GameBoard, for every number of calls of `Next` and every
outcome of the shuffles, every call returns a piece, the spawn order is the concatenation of
the appended batches, each a rearrangement of the seven canonical tetrominoes, so the pieces
returned by the calls number `7k+1` to `7k+7` are one each of the seven canonical shapes and
no shape is spawned more than twice in a row; a refill happens on the first call, on the
fifth, and from then on on every seventh call (the queue holds at most 3 tetrominoes after
`n` calls exactly when `n` is 0 or 4 more than a multiple of 7). -/
theorem spawn_order (rows cols : Int) (gb : gameBoard)
    (hnew : NewGameBoard rows cols = Res.ok gb) (outcomes : List (List (Fin 7 × Fin 7))) :
    ∃ (batches : List (List tetromino)) (pieces : List (Option Piece)) (gb2 : gameBoard),
      (∀ b ∈ batches, b.Perm canonicalBag) ∧
      gb.nexts outcomes = Res.ok (pieces, gb2) ∧
      pieces = (batches.flatten.take outcomes.length).map
        (fun t => some (spawnPiece cols t)) ∧
      pieces.length = outcomes.length ∧
      (∀ k, 7 * k + 7 ≤ outcomes.length →
        ((pieces.drop (7 * k)).take 7).Perm
          (canonicalBag.map (fun t => some (spawnPiece cols t)))) ∧
      (∀ i p1 p2 p3, pieces[i]? = some (some p1) → pieces[i + 1]? = some (some p2) →
        pieces[i + 2]? = some (some p3) → ¬ (p1.Grid = p2.Grid ∧ p2.Grid = p3.Grid)) ∧
      (gb2.upcoming.length ≤ 3 ↔ outcomes.length = 0 ∨ outcomes.length % 7 = 4) := by
  have hgb : gb.upcoming = [] ∧ gb.cols = cols := by
    unfold NewGameBoard at hnew
    cases hb : NewBoard rows cols with
    | ok bd =>
      rw [hb, Res.bind_ok] at hnew
      cases hnew
      exact ⟨rfl, rfl⟩
    | crash =>
      rw [hb] at hnew
      exact absurd hnew (by simp)
    | timeout =>
      rw [hb] at hnew
      exact absurd hnew (by simp)
  obtain ⟨hup0, hcols0⟩ := hgb
  obtain ⟨batches, gb2, hperm, hrun, hup, hlen, _⟩ :=
    gameBoard.nexts_eq outcomes gb (by rw [hup0]; simp)
  rw [hup0, hcols0, List.nil_append] at hrun
  rw [hup0, List.nil_append] at hup
  rw [hup0, List.length_nil] at hlen
  have hn : outcomes.length ≤ batches.flatten.length := by
    by_cases h0 : outcomes.length = 0
    · omega
    · have h3 : 3 ≤ queueStep^[outcomes.length] 0 := by
        rw [queueStep_iterate_zero, if_neg h0]
        omega
      rw [← hlen, hup, List.length_drop] at h3
      omega
  refine ⟨batches, _, gb2, hperm, hrun, rfl, ?_, ?_, ?_, ?_⟩
  · rw [List.length_map, List.length_take]
    omega
  · intro k hk
    obtain ⟨b, hb, hchunk⟩ := flatten_chunk batches (fun b hb => (hperm b hb).length_eq) k
      (by omega)
    have hsub : ((batches.flatten.take outcomes.length).drop (7 * k)).take 7
        = (batches.flatten.drop (7 * k)).take 7 := by
      rw [List.drop_take, List.take_take]
      congr 1
      omega
    rw [← List.map_drop, ← List.map_take, hsub, hchunk]
    exact (hperm b hb).map _
  · rintro i p1 p2 p3 h1 h2 h3 ⟨e1, e2⟩
    obtain ⟨t1, ht1, g1⟩ := piece_of_index h1
    obtain ⟨t2, ht2, g2⟩ := piece_of_index h2
    obtain ⟨t3, ht3, g3⟩ := piece_of_index h3
    by_cases hi : i % 7 = 6
    · exact flatten_adjacent batches hperm (i + 1) t2 t3 ht2 ht3 (by omega)
        (by rw [← g2, ← g3]; exact e2)
    · exact flatten_adjacent batches hperm i t1 t2 ht1 ht2 hi (by rw [← g1, ← g2]; exact e1)
  · rw [hlen]
    exact queueStep_iterate_le outcomes.length

/-- Witness of the amended C19: three calls of `Next` on the new 20x10 controller, the first
with a shuffle that swaps the I and the O: the pieces are the O, the J and the L. -/
theorem spawn_order_witness :
    NewGameBoard 20 10 = Res.ok emptyGame20 ∧
    (∃ (batches : List (List tetromino)) (pieces : List (Option Piece)) (gb2 : gameBoard),
      (∀ b ∈ batches, b.Perm canonicalBag) ∧
      emptyGame20.nexts [[(0, 3)], [], []] = Res.ok (pieces, gb2) ∧
      pieces = (batches.flatten.take [[(0, 3)], [], ([] : List (Fin 7 × Fin 7))].length).map
        (fun t => some (spawnPiece 10 t)) ∧
      pieces.length = [[(0, 3)], [], ([] : List (Fin 7 × Fin 7))].length ∧
      (∀ k, 7 * k + 7 ≤ [[(0, 3)], [], ([] : List (Fin 7 × Fin 7))].length →
        ((pieces.drop (7 * k)).take 7).Perm
          (canonicalBag.map (fun t => some (spawnPiece 10 t)))) ∧
      (∀ i p1 p2 p3, pieces[i]? = some (some p1) → pieces[i + 1]? = some (some p2) →
        pieces[i + 2]? = some (some p3) → ¬ (p1.Grid = p2.Grid ∧ p2.Grid = p3.Grid)) ∧
      (gb2.upcoming.length ≤ 3 ↔
        [[(0, 3)], [], ([] : List (Fin 7 × Fin 7))].length = 0 ∨
          [[(0, 3)], [], ([] : List (Fin 7 × Fin 7))].length % 7 = 4)) ∧
    ((emptyGame20.nexts [[(0, 3)], [], []]).bind fun r =>
        Res.ok (r.1.map (fun p => p.map (fun q => q.Grid))))
      = Res.ok [some [[3, 3], [3, 3]], some [[6, 0, 0], [6, 6, 6], [0, 0, 0]],
          some [[0, 0, 2], [2, 2, 2], [0, 0, 0]]] :=
  ⟨by decide, spawn_order 20 10 emptyGame20 (by decide) [[(0, 3)], [], []], by decide⟩

/-! ## Union -/

theorem foldRes_filter {α σ : Type} (p : α → Prop) [DecidablePred p] (f : α → σ → Res σ)
    (cs : List α) (s : σ) :
    foldRes (fun c acc => if p c then f c acc else Res.ok acc) cs s
      = foldRes f (cs.filter (fun c => decide (p c))) s := by
  induction cs generalizing s with
  | nil => rfl
  | cons c cs ih =>
    by_cases hc : p c
    · simp only [foldRes, hc, if_true, List.filter_cons, decide_True]
      cases f c s <;> simp [ih]
    · simp only [foldRes, hc, if_false, List.filter_cons, decide_False, Res.bind_ok, ih]
      rfl

/-- A `Walk` that writes the non-Empty cells of a rectangular grid into a larger result grid,
each shifted by `(dy, dx)`: it does not fault, keeps the dimensions, leaves every non-Empty
cell's value at its shifted position and every other position as it was. -/
theorem foldRes_overlay (g : Grid) (dy dx : Nat) {R C : Nat}
    (pos : Nat × Nat × State → Int × Int)
    (hpos : ∀ c ∈ gridCells 0 g, pos c = (((c.1 + dy : Nat) : Int), ((c.2.1 + dx : Nat) : Int)))
    (hfit : ∀ c ∈ gridCells 0 g, c.1 + dy < R ∧ c.2.1 + dx < C)
    (result : Grid) (hres : Grid.HasDims result R C) :
    ∃ g2, foldRes (fun c acc =>
          if c.2.2 ≠ Empty then Grid.setAt acc (pos c).1 (pos c).2 c.2.2 else Res.ok acc)
        (gridCells 0 g) result = Res.ok g2 ∧
      Grid.HasDims g2 R C ∧
      (∀ row col s, Grid.cell g row col = some s → s ≠ Empty →
        Grid.cell g2 (row + dy) (col + dx) = some s) ∧
      (∀ i j, (∀ row col s, Grid.cell g row col = some s → s ≠ Empty →
          ¬ (row + dy = i ∧ col + dx = j)) →
        Grid.cell g2 i j = Grid.cell result i j) := by
  rw [foldRes_filter (fun c : Nat × Nat × State => c.2.2 ≠ Empty)
    (fun c acc => Grid.setAt acc (pos c).1 (pos c).2 c.2.2)]
  have hmem : ∀ c ∈ (gridCells 0 g).filter (fun c => decide (c.2.2 ≠ Empty)),
      c ∈ gridCells 0 g ∧ c.2.2 ≠ Empty := by
    intro c hc
    obtain ⟨h1, h2⟩ := List.mem_filter.1 hc
    exact ⟨h1, by simpa using h2⟩
  have hin : ∀ c ∈ (gridCells 0 g).filter (fun c => decide (c.2.2 ≠ Empty)),
      0 ≤ (pos c).1 ∧ (pos c).1.toNat < R ∧ 0 ≤ (pos c).2 ∧ (pos c).2.toNat < C := by
    intro c hc
    obtain ⟨h1, _⟩ := hmem c hc
    obtain ⟨f1, f2⟩ := hfit c h1
    rw [hpos c h1]
    simp only [Int.toNat_ofNat]
    omega
  have hpw : ((gridCells 0 g).filter (fun c => decide (c.2.2 ≠ Empty))).Pairwise
      (fun c d => pos c ≠ pos d) := by
    refine List.Pairwise.imp_of_mem ?_ ((gridCells_pairwise 0 g).sublist (List.filter_sublist _))
    intro c d hc hd hne h
    rw [hpos c (hmem c hc).1, hpos d (hmem d hd).1] at h
    simp only [Prod.mk.injEq, Nat.cast_inj] at h
    apply hne
    simp only [Prod.mk.injEq]
    omega
  obtain ⟨g2, hfold, hdims, hvis, hrest⟩ :=
    foldRes_setAt pos (fun c => c.2.2) R C _ result hres hin hpw
  refine ⟨g2, hfold, hdims, ?_, ?_⟩
  · intro row col s hc hne
    have hm : (row, col, s) ∈ (gridCells 0 g).filter (fun c => decide (c.2.2 ≠ Empty)) :=
      List.mem_filter.2 ⟨mem_gridCells_zero.2 hc, by simpa using hne⟩
    have := hvis (row, col, s) hm
    rw [hpos _ (mem_gridCells_zero.2 hc)] at this
    simpa using this
  · intro i j hij
    apply hrest
    rintro ⟨row, col, s⟩ hc hcon
    obtain ⟨h1, h2⟩ := hmem _ hc
    rw [hpos _ h1] at hcon
    simp only [Int.toNat_ofNat] at hcon
    exact hij row col s (mem_gridCells_zero.1 h1) h2 hcon

theorem max_wrap_cast (a b c : Nat) (h : ((b + c : Nat) : Int) < 9223372036854775808) :
    max (a : Int) (wrapInt ((b : Int) + (c : Int))) = ((max a (b + c) : Nat) : Int) := by
  rw [wrapInt_of_inRange (by unfold InRange; omega)]
  push_cast
  rfl

/-- The general path of `Union`: for non-empty rectangular grids and an offset with
non-negative coordinates (everything Go-representable), `Union` returns a grid sized to the
bounding box of the receiver at the origin and `other` at the offset, in which every position
covered by a non-Empty cell of `other` holds that cell, every remaining position covered by a
non-Empty cell of the receiver holds that cell, and every other position is Empty. The
bounding box is allocated by `makeSlice`, which grants every non-negative length: for an
offset so large that Go cannot allocate the box, Go faults in `NewGrid` where this lemma
gives a grid. -/
theorem Grid.Union_general (g0 : List State) (grest : Grid) (o0 : List State) (orest : Grid)
    (oy ox : Nat) (hg : Grid.Rect (g0 :: grest)) (ho : Grid.Rect (o0 :: orest))
    (hy : ((orest.length + 1 + oy : Nat) : Int) < 9223372036854775808)
    (hx : ((o0.length + ox : Nat) : Int) < 9223372036854775808) :
    ∃ u, Grid.Union (g0 :: grest) (o0 :: orest) { X := (ox : Int), Y := (oy : Int) }
        = Res.ok u ∧
      Grid.HasDims u (max (grest.length + 1) (orest.length + 1 + oy))
        (max g0.length (o0.length + ox)) ∧
      (∀ row col s, Grid.cell (o0 :: orest) row col = some s → s ≠ Empty →
        Grid.cell u (row + oy) (col + ox) = some s) ∧
      (∀ row col s, Grid.cell (g0 :: grest) row col = some s → s ≠ Empty →
        (∀ r2 c2 s2, Grid.cell (o0 :: orest) r2 c2 = some s2 → s2 ≠ Empty →
          ¬ (r2 + oy = row ∧ c2 + ox = col)) →
        Grid.cell u row col = some s) ∧
      (∀ i j, i < max (grest.length + 1) (orest.length + 1 + oy) →
        j < max g0.length (o0.length + ox) →
        (∀ r2 c2 s2, Grid.cell (o0 :: orest) r2 c2 = some s2 → s2 ≠ Empty →
          ¬ (r2 + oy = i ∧ c2 + ox = j)) →
        (∀ row col s, Grid.cell (g0 :: grest) row col = some s → s ≠ Empty →
          ¬ (row = i ∧ col = j)) →
        Grid.cell u i j = some Empty) := by
  have hfitg : ∀ c ∈ gridCells 0 (g0 :: grest),
      c.1 + 0 < max (grest.length + 1) (orest.length + 1 + oy) ∧
        c.2.1 + 0 < max g0.length (o0.length + ox) := by
    intro c hc
    obtain ⟨h1, h2⟩ := gridCells_bounds hg hc
    exact ⟨lt_max_of_lt_left h1, lt_max_of_lt_left h2⟩
  have hfito : ∀ c ∈ gridCells 0 (o0 :: orest),
      c.1 + oy < max (grest.length + 1) (orest.length + 1 + oy) ∧
        c.2.1 + ox < max g0.length (o0.length + ox) := by
    intro c hc
    obtain ⟨h1, h2⟩ := gridCells_bounds ho hc
    exact ⟨lt_max_of_lt_right (Nat.add_lt_add_right h1 oy),
      lt_max_of_lt_right (Nat.add_lt_add_right h2 ox)⟩
  have hposo : ∀ c ∈ gridCells 0 (o0 :: orest),
      (wrapInt ((c.1 : Int) + (oy : Int)), wrapInt ((c.2.1 : Int) + (ox : Int)))
        = (((c.1 + oy : Nat) : Int), ((c.2.1 + ox : Nat) : Int)) := by
    intro c hc
    obtain ⟨h1, h2⟩ := gridCells_bounds ho hc
    rw [wrapInt_of_inRange (by unfold InRange; omega),
      wrapInt_of_inRange (by unfold InRange; omega)]
    push_cast
    rfl
  have hrows : max (((g0 :: grest).length : Nat) : Int)
      (wrapInt ((((o0 :: orest).length : Nat) : Int) + ((oy : Nat) : Int)))
      = ((max (grest.length + 1) (orest.length + 1 + oy) : Nat) : Int) :=
    max_wrap_cast (grest.length + 1) (orest.length + 1) oy hy
  have hcols : max ((g0.length : Nat) : Int) (wrapInt (((o0.length : Nat) : Int) + ((ox : Nat) : Int)))
      = ((max g0.length (o0.length + ox) : Nat) : Int) :=
    max_wrap_cast g0.length o0.length ox hx
  obtain ⟨hnew, hzero⟩ := NewGrid_hasDims (max (grest.length + 1) (orest.length + 1 + oy))
    (max g0.length (o0.length + ox))
  obtain ⟨m, hm1, hm2, hm3, hm4⟩ := foldRes_overlay (g0 :: grest) 0 0
    (fun c : Nat × Nat × State => ((c.1 : Int), (c.2.1 : Int)))
    (fun _ _ => rfl) hfitg _ hzero
  obtain ⟨u, hu1, hu2, hu3, hu4⟩ := foldRes_overlay (o0 :: orest) oy ox
    (fun c : Nat × Nat × State =>
      (wrapInt ((c.1 : Int) + (oy : Int)), wrapInt ((c.2.1 : Int) + (ox : Int))))
    hposo hfito m hm2
  refine ⟨u, ?_, hu2, hu3, ?_, ?_⟩
  · simp only [Grid.Union]
    rw [hrows, hcols, hnew, Res.bind_ok, Walk_eq_foldRes]
    rw [hm1, Res.bind_ok, Walk_eq_foldRes]
    exact hu1
  · intro row col s hc hne hfree
    rw [hu4 row col hfree]
    have := hm3 row col s hc hne
    simpa using this
  · intro i j hi hj hfree1 hfree2
    rw [hu4 i j hfree1, hm4 i j (fun row col s hc hne => by simpa using hfree2 row col s hc hne)]
    exact Grid.cell_replicate hi hj

/-- C16 fails on the code: with an empty receiver `Union` returns a clone of `other` at the
origin, whatever the offset, where the claim (and the doc comment: the other grid is placed at
the offset) gives the 2x2 grid with the cell at (1,1), as the general path does for a
receiver of one Empty cell; and with a negative offset the write of a non-Empty cell of
`other` faults. -/
theorem Union_empty_receiver :
    Grid.Union [] [[2]] { X := 1, Y := 1 } = Res.ok [[2]] ∧
    Grid.Union [[0]] [[2]] { X := 1, Y := 1 } = Res.ok [[0, 0], [0, 2]] ∧
    Grid.Union [[1]] [[2]] { X := -1, Y := 0 } = Res.crash ∧
    Grid.Union [[1, 1]] [[2]] { X := 1, Y := 1 } = Res.ok [[1, 1], [0, 2]] := by
  decide

end Gotris
